import Mathlib

/-!
# Write queues of `llarp::ev_io` and the request parser of `abyss::http::ConnImpl`

Shallow embedding of `llarp/ev.hpp` (write buffers, `queue_write`, `flush_write`)
and of `libabyss/src/server.cpp` (the per-connection HTTP state machine), followed
by the properties established about them.

Conventions of the embedding
* a byte of a write buffer is a `Nat`, a `std::string` is a `List Char`;
* `size_t` / `ssize_t` arithmetic is done in `Nat` / `Int` with explicit reduction
  modulo `2^64`;
* a pointer together with the memory readable behind it is the list of the bytes
  that start at the pointer;
* functions that mutate `*this` return the new object next to their C++ result.
-/

set_option linter.dupNamespace false

namespace llarp

/-! ## Machine integers -/

/-- Conversion of a signed value to `size_t` (reduction modulo `2^64`). -/
def size_t_of (i : Int) : Nat := (i % 18446744073709551616).toNat

/-- Conversion of a `size_t` value to `ssize_t` (two's complement). -/
def ssize_t_of (n : Nat) : Int :=
  if n % 18446744073709551616 < 9223372036854775808 then
    ((n % 18446744073709551616 : Nat) : Int)
  else
    ((n % 18446744073709551616 : Nat) : Int) - 18446744073709551616

/-- Value of `errno` for `EAGAIN` (Linux `errno.h`). -/
def EAGAIN : Nat := 11

/-- Value of `errno` for `EWOULDBLOCK` (Linux `errno.h`, an alias of `EAGAIN`). -/
def EWOULDBLOCK : Nat := 11

/-! ## `ev_io::WriteBuffer` -/

/-- The struct `ev_io::WriteBuffer`.  The field `buf` holds the bytes
`buf[0 .. bufsz)` of the C++ array `byte_t buf[1500]`; the bytes of the array
past `bufsz` are never read by the code and are not represented, so that
`bufsz` is the length of `buf`. -/
structure ev_io.WriteBuffer where
  timestamp : Nat
  buf : List Nat
deriving DecidableEq, Repr

/-- The member `bufsz` of a write buffer. -/
def ev_io.WriteBuffer.bufsz (w : ev_io.WriteBuffer) : Nat := w.buf.length

/-- The constant `sizeof(buf)` of `WriteBuffer`. -/
def ev_io.WriteBuffer.sizeof_buf : Nat := 1500

/-- The constructor `WriteBuffer(const void* ptr, size_t sz)`: `ptr` is the list of
bytes readable at the pointer.  When `sz <= sizeof(buf)` the first `sz` bytes are
copied, otherwise `bufsz = 0`.  The member initialiser sets `timestamp = 0`. -/
def ev_io.WriteBuffer.WriteBuffer (ptr : List Nat) (sz : Nat) : ev_io.WriteBuffer :=
  if sz ≤ ev_io.WriteBuffer.sizeof_buf then
    { timestamp := 0, buf := ptr.take sz }
  else
    { timestamp := 0, buf := [] }

/-! ## The descriptor and the system behind it -/

/-- What one call of the system call `write(fd, data, sz)` gives back: the return
value, the value of `errno` after the call and the new state of the device. -/
structure WriteRet (σ : Type) where
  result : Int
  errno : Nat
  dev : σ

/-- State outside the handle: the device behind `fd`, the global `errno`, and a
record of the byte strings handed to `do_write` so far (oldest first). -/
structure Sys (σ : Type) where
  dev : σ
  errno : Nat
  writes : List (List Nat)

/-- Operations of `llarp::util::CoDelQueue` (declared in `llarp/codel.hpp`, which is
not among the sources), taken as parameters: `Emplace(buf, sz)` and
`Process(visitor)`. -/
structure CoDelQueue (Q σ : Type) where
  Emplace : Q → List Nat → Nat → Q
  Process : Q → (ev_io.WriteBuffer → Sys σ → Sys σ) → Sys σ → Q × Sys σ

/-- The struct `ev_io` (non-Windows branch): the two optional write queues.  The
descriptor `fd` itself is represented by the device state in `Sys`. -/
structure ev_io (Q : Type) where
  m_LossyWriteQueue : Option Q
  m_BlockingWriteQueue : Option (List ev_io.WriteBuffer)

/-- The member `ev_io::do_write(data, sz)`, that is `write(fd, data, sz)`: the
system call `write` is a parameter. -/
def ev_io.do_write {σ : Type} (write : σ → Nat → List Nat → WriteRet σ)
    (s : Sys σ) (data : List Nat) (sz : Nat) : Int × Sys σ :=
  let r := write s.dev s.errno (data.take sz)
  (r.result, { dev := r.dev, errno := r.errno, writes := s.writes ++ [data.take sz] })

/-- The member `ev_io::queue_write(buf, sz)`; the payload is the list `buf` and
`sz` its length. -/
def ev_io.queue_write {Q σ : Type} (ops : CoDelQueue Q σ) (h : ev_io Q)
    (buf : List Nat) : Bool × ev_io Q :=
  match h.m_LossyWriteQueue with
  | some q => (true, { h with m_LossyWriteQueue := some (ops.Emplace q buf buf.length) })
  | none =>
    match h.m_BlockingWriteQueue with
    | some q =>
      (true, { h with m_BlockingWriteQueue :=
                        some (q ++ [ev_io.WriteBuffer.WriteBuffer buf buf.length]) })
    | none => (false, h)

/-- The `while(m_BlockingWriteQueue->size())` loop of `ev_io::flush_write`.  The
first component of the result tells whether the loop left through a `return`
(`true`) or because the queue ran empty (`false`). -/
def ev_io.flush_loop {σ : Type} (write : σ → Nat → List Nat → WriteRet σ) :
    Sys σ → List ev_io.WriteBuffer → Bool × Sys σ × List ev_io.WriteBuffer
  | s, [] => (false, s, [])
  | s, itr :: rest =>
    let r := ev_io.do_write write s itr.buf itr.bufsz
    if r.1 = -1 then
      (true, r.2, itr :: rest)
    else
      let dlt : Int := ssize_t_of (size_t_of ((itr.bufsz : Int) - r.1))
      if dlt > 0 then
        let buff := ev_io.WriteBuffer.WriteBuffer (itr.buf.drop dlt.toNat)
                      (size_t_of ((itr.bufsz : Int) - dlt))
        (true, r.2, buff :: rest)
      else if r.2.errno = EAGAIN ∨ r.2.errno = EWOULDBLOCK then
        (true, { r.2 with errno := 0 }, rest)
      else
        ev_io.flush_loop write r.2 rest

/-- The member `ev_io::flush_write()`. -/
def ev_io.flush_write {Q σ : Type} (ops : CoDelQueue Q σ)
    (write : σ → Nat → List Nat → WriteRet σ) (h : ev_io Q) (s : Sys σ) :
    ev_io Q × Sys σ :=
  match h.m_LossyWriteQueue with
  | some q =>
    let r := ops.Process q (fun buffer s0 => (ev_io.do_write write s0 buffer.buf buffer.bufsz).2) s
    ({ h with m_LossyWriteQueue := some r.1 }, { r.2 with errno := 0 })
  | none =>
    match h.m_BlockingWriteQueue with
    | some q =>
      let r := ev_io.flush_loop write s q
      if r.1 then
        ({ h with m_BlockingWriteQueue := some r.2.2 }, r.2.1)
      else
        ({ h with m_BlockingWriteQueue := some r.2.2 }, { r.2.1 with errno := 0 })
    | none => (h, { s with errno := 0 })

/-- Successive calls `queue_write(p1) ... queue_write(pm)` on one handle: the list
of the returned booleans and the final handle. -/
def ev_io.queue_write_all {Q σ : Type} (ops : CoDelQueue Q σ) :
    ev_io Q → List (List Nat) → List Bool × ev_io Q
  | h, [] => ([], h)
  | h, p :: ps =>
    let r := ev_io.queue_write ops h p
    let rs := ev_io.queue_write_all ops r.2 ps
    (r.1 :: rs.1, rs.2)

/-- A `write` that accepts at most `k` bytes of every request and leaves `errno`
alone; the device has no state. -/
def shortWrite (k : Nat) : Unit → Nat → List Nat → WriteRet Unit :=
  fun d e data => { result := (min k data.length : Nat), errno := e, dev := d }

/-- A `write` that accepts every request in full and leaves `errno` alone. -/
def fullWrite : Unit → Nat → List Nat → WriteRet Unit :=
  fun d e data => { result := (data.length : Nat), errno := e, dev := d }

/-- A lossy queue that is never attached in the examples: its operations on the
one-point type. -/
def noCoDel : CoDelQueue Unit Unit :=
  { Emplace := fun q _ _ => q, Process := fun q _ s => (q, s) }

/-- A `write` that takes nothing and reports that it would block: the result is
`-1` and `errno` is `EAGAIN`. -/
def blockedWrite : Unit → Nat → List Nat → WriteRet Unit :=
  fun d _ _ => { result := -1, errno := EAGAIN, dev := d }

/-- The total number of bytes held by the entries of a lossless queue. -/
def queued_bytes (q : List ev_io.WriteBuffer) : Nat :=
  (q.map (fun w => w.bufsz)).sum

/-- The system call `write` called once for each of the byte strings `ps`, in
order, starting from the device `d` and the value `e` of `errno`: the device and
`errno` after the last call. -/
def write_all {σ : Type} (write : σ → Nat → List Nat → WriteRet σ) :
    σ → Nat → List (List Nat) → σ × Nat
  | d, e, [] => (d, e)
  | d, e, p :: ps => write_all write (write d e p).dev (write d e p).errno ps

/-- A `write` on a device that keeps the byte strings it is called with, oldest
first; the call accepts every request in full and leaves `errno` alone. -/
def recordingWrite : List (List Nat) → Nat → List Nat → WriteRet (List (List Nat)) :=
  fun d e data => { result := (data.length : Nat), errno := e, dev := d ++ [data] }

/-- A lossy queue that is never attached in the examples with the recording
device: its operations on the one-point type. -/
def noCoDelRec : CoDelQueue Unit (List (List Nat)) :=
  { Emplace := fun q _ _ => q, Process := fun q _ s => (q, s) }

end llarp

namespace abyss.http

/-! ## Strings -/

/-- The terminating character of a C string. -/
def NUL : Char := Char.ofNat 0

/-- The two characters `"\r\n"`. -/
def CRLF : List Char := ['\r', '\n']

/-- The four characters `"\r\n\r\n"`. -/
def CRLFCRLF : List Char := ['\r', '\n', '\r', '\n']

/-- The C string found at a pointer to the characters `s` followed by a
terminator: the characters up to the first `NUL` (`std::string::c_str`, and a
`const char*` read by `strstr`, `strlen` or `%s`). -/
def c_str (s : List Char) : List Char := s.takeWhile (fun ch => ch != NUL)

/-- The function `strlen`. -/
def strlen (s : List Char) : Nat := (c_str s).length

/-- The function `strstr(hay, needle)` on C strings already cut at their
terminator: the offset of the first occurrence of `needle`, `none` for `nullptr`. -/
def strstr : List Char → List Char → Option Nat
  | [], needle => if needle = [] then some 0 else none
  | ch :: hay, needle =>
    if needle.isPrefixOf (ch :: hay) then some 0
    else (strstr hay needle).map (fun i => i + 1)

/-- The member `std::string::find_first_of(ch)`; `none` is `std::string::npos`. -/
def find_first_of (s : List Char) (ch : Char) : Option Nat :=
  if ch ∈ s then some (s.takeWhile (fun x => x != ch)).length else none

/-- The member `std::string::find_first_not_of(ch)`; `none` is `std::string::npos`. -/
def find_first_not_of (s : List Char) (ch : Char) : Option Nat :=
  if s.all (fun x => x == ch) then none else some (s.takeWhile (fun x => x == ch)).length

/-- What ends a call other than a normal return. -/
inductive Fault where
  /-- The exception `std::out_of_range` left the function. -/
  | out_of_range
  /-- The iteration bound of the embedding of a loop was used up. -/
  | fuel
deriving DecidableEq, Repr

/-- The member `std::string::substr(pos, n)`, which throws `std::out_of_range`
when `pos > size()`. -/
def substr (s : List Char) (pos : Nat) (n : Nat) : Except Fault (List Char) :=
  if pos > s.length then .error .out_of_range else .ok ((s.drop pos).take n)

/-- The member `std::string::substr(pos)`; a position `npos` (here `none`) is past
every size and throws. -/
def substr_from (s : List Char) (pos : Option Nat) : Except Fault (List Char) :=
  match pos with
  | none => .error .out_of_range
  | some p => if p > s.length then .error .out_of_range else .ok (s.drop p)

/-- The function `::tolower` in the C locale, applied to every character
(`std::transform` over the header name). -/
def tolower (s : List Char) : List Char := s.map Char.toLower

/-- The conversion `%d` of `snprintf`. -/
def fmt_d (i : Int) : List Char :=
  if i < 0 then '-' :: Nat.toDigits 10 i.natAbs else Nat.toDigits 10 i.toNat

/-- The conversion `%zu` of `snprintf`. -/
def fmt_zu (n : Nat) : List Char := Nat.toDigits 10 n

/-- A call `snprintf(buf, sizeof(buf), ...)` on a zeroed `char buf[128]` whose
complete formatted text is `text`: the returned count `sz` (the length of the
complete text) and the 128 characters of `buf` afterwards (at most 127
characters of text, then `NUL`s). -/
def snprintf128 (text : List Char) : Nat × List Char :=
  (text.length, text.take 127 ++ List.replicate (128 - min text.length 127) NUL)

/-! ## `std::stringstream` -/

/-- A `std::stringstream` opened for reading and writing: the characters held,
the get and the put position, and the state bits `eofbit` and `failbit`. -/
structure stringstream where
  buf : List Char
  gpos : Nat
  ppos : Nat
  eofbit : Bool
  failbit : Bool
deriving DecidableEq, Repr

/-- A default-constructed stream. -/
def stringstream.empty : stringstream :=
  { buf := [], gpos := 0, ppos := 0, eofbit := false, failbit := false }

/-- The member `good()`. -/
def stringstream.good (ss : stringstream) : Bool := !ss.eofbit && !ss.failbit

/-- The insertion `ss << s` of a string: on a stream that is not good only
`failbit` is set; otherwise the characters are stored at the put position. -/
def stringstream.put (ss : stringstream) (s : List Char) : stringstream :=
  if ss.good then
    { ss with buf := ss.buf.take ss.ppos ++ s ++ ss.buf.drop (ss.ppos + s.length),
              ppos := ss.ppos + s.length }
  else
    { ss with failbit := true }

/-- The call `std::getline(ss, line, delim)`: the stream afterwards and the new
value of `line`.  On a stream that is not good `failbit` is set and `line` is
left alone.  Otherwise characters are taken up to the delimiter, which is
consumed and not stored; running into the end of the characters sets `eofbit`,
and `failbit` too when nothing was taken. -/
def stringstream.getline (ss : stringstream) (line : List Char) (delim : Char) :
    stringstream × List Char :=
  if ss.good then
    let avail := ss.buf.drop ss.gpos
    let taken := avail.takeWhile (fun ch => ch != delim)
    if delim ∈ avail then
      ({ ss with gpos := ss.gpos + taken.length + 1 }, taken)
    else
      ({ ss with gpos := ss.gpos + taken.length, eofbit := true,
                 failbit := taken.isEmpty }, taken)
  else
    ({ ss with failbit := true }, line)

/-- The member `str()`: all characters held. -/
def stringstream.str (ss : stringstream) : List Char := ss.buf

/-- The member `str(s)`: replaces the characters and rewinds both positions; the
state bits stay as they are. -/
def stringstream.set_str (ss : stringstream) (s : List Char) : stringstream :=
  { ss with buf := s, gpos := 0, ppos := 0 }

/-- The member `clear()`: resets the state bits. -/
def stringstream.clear (ss : stringstream) : stringstream :=
  { ss with eofbit := false, failbit := false }

/-- A bound on the number of calls of `getline` that a loop `while(getline(...))`
makes on the stream before `failbit` ends it: one call on a stream that is not
good, and otherwise one call per unread character and two more. -/
def stringstream.turns (ss : stringstream) : Nat :=
  if ss.good then (ss.buf.length - ss.gpos) + 2 else 1

/-! ## `RequestHeader` and `ConnImpl` -/

/-- The struct `RequestHeader`.  The `std::unordered_multimap` of headers is the
list of the inserted pairs, latest last; the order carries no meaning. -/
structure RequestHeader where
  Headers : List (List Char × List Char)
  Method : List Char
  Path : List Char
deriving DecidableEq, Repr

/-- The enumeration `ConnImpl::HTTPState`. -/
inductive HTTPState where
  | eReadHTTPMethodLine
  | eReadHTTPHeaders
  | eReadHTTPBody
  | eWriteHTTPStatusLine
  | eWriteHTTPHeaders
  | eWriteHTTPBody
  | eCloseMe
deriving DecidableEq, Repr

/-- The integer value of an enumerator. -/
def HTTPState.toNat : HTTPState → Nat
  | .eReadHTTPMethodLine => 0
  | .eReadHTTPHeaders => 1
  | .eReadHTTPBody => 2
  | .eWriteHTTPStatusLine => 3
  | .eWriteHTTPHeaders => 4
  | .eWriteHTTPBody => 5
  | .eCloseMe => 6

/-- The struct `ConnImpl`.  `_conn` is `none` for `nullptr` and otherwise holds the
state of the `llarp_tcp_conn` pointed to; the members `handler` and `_parent`
take no part in the functions embedded here.  Two fields keep a record for the
statements: `queued`, the byte strings accepted by `llarp_tcp_conn_async_write`,
and `bodies`, the buffers passed to `FeedBody`, both oldest first. -/
structure ConnImpl (κ : Type) where
  _conn : Option κ
  m_LastActive : Nat
  m_ReadTimeout : Nat
  m_Bad : Bool
  m_Header : RequestHeader
  m_ReadBuf : stringstream
  m_State : HTTPState
  queued : List (List Char)
  bodies : List (List Char)

/-- The constructor `ConnImpl(p, c, readtimeout)`; `now` is the value of
`llarp_time_now_ms()`. -/
def ConnImpl.ctor {κ : Type} (c : κ) (now readtimeout : Nat) : ConnImpl κ :=
  { _conn := some c, m_LastActive := now, m_ReadTimeout := readtimeout, m_Bad := false,
    m_Header := { Headers := [], Method := [], Path := [] },
    m_ReadBuf := stringstream.empty, m_State := .eReadHTTPMethodLine,
    queued := [], bodies := [] }

/-- The call `llarp_tcp_conn_async_write(_conn, data, sz)`.  The function is
defined outside the sources and is the parameter `aw`, from the state of the
connection and the bytes to the returned flag and the new state.  With `_conn`
null the source would read through a null pointer; here the call reports
failure. -/
def ConnImpl.async_write {κ : Type} (aw : κ → List Char → Bool × κ) (c : ConnImpl κ)
    (data : List Char) : Bool × ConnImpl κ :=
  match c._conn with
  | none => (false, c)
  | some k =>
    let r := aw k data
    (r.1, { c with _conn := some r.2,
                   queued := if r.1 then c.queued ++ [data] else c.queued })

/-- The member `ConnImpl::ProcessMethodLine(line)`: result, `line` afterwards
(it is passed by reference) and the new object. -/
def ConnImpl.ProcessMethodLine {κ : Type} (c : ConnImpl κ) (line : List Char) :
    Except Fault (Bool × List Char × ConnImpl κ) :=
  match find_first_of line ' ' with
  | none => .ok (false, line, c)
  | some idx =>
    match substr line 0 idx with
    | .error e => .error e
    | .ok method =>
      let c1 := { c with m_Header := { c.m_Header with Method := method } }
      match substr_from line (some (idx + 1)) with
      | .error e => .error e
      | .ok line1 =>
        match find_first_of line1 ' ' with
        | none => .ok (false, line1, c1)
        | some idx1 =>
          match substr line1 0 idx1 with
          | .error e => .error e
          | .ok path =>
            .ok (true, line1,
              { c1 with m_Header := { c1.m_Header with Path := path },
                        m_State := .eReadHTTPHeaders })

/-- The member `ConnImpl::ShouldProcessHeader(name)`. -/
def ConnImpl.ShouldProcessHeader {κ : Type} (_c : ConnImpl κ) (_name : List Char) : Bool :=
  true

/-- The member `ConnImpl::ProcessHeaderLine(line)`. -/
def ConnImpl.ProcessHeaderLine {κ : Type} (c : ConnImpl κ) (line : List Char) :
    Except Fault (Bool × List Char × ConnImpl κ) :=
  match find_first_of line ':' with
  | none => .ok (false, line, c)
  | some idx =>
    match substr line 0 idx with
    | .error e => .error e
    | .ok header0 =>
      match substr_from line (some idx) with
      | .error e => .error e
      | .ok val0 =>
        let header := tolower header0
        if c.ShouldProcessHeader header then
          match substr_from val0 (find_first_not_of val0 ' ') with
          | .error e => .error e
          | .ok val =>
            .ok (true, line,
              { c with m_Header :=
                  { c.m_Header with Headers := c.m_Header.Headers ++ [(header, val)] } })
        else
          .ok (true, line, c)

/-- The member `ConnImpl::FeedLine(line)`. -/
def ConnImpl.FeedLine {κ : Type} (c : ConnImpl κ) (line : List Char) :
    Except Fault (Bool × List Char × ConnImpl κ) :=
  match c.m_State with
  | .eReadHTTPMethodLine => c.ProcessMethodLine line
  | .eReadHTTPHeaders => c.ProcessHeaderLine line
  | _ => .ok (false, line, c)

/-- The member `ConnImpl::WriteStatusLine(code, message)`.  The bytes handed on are
the first `sz` characters of the 128-character `buf`; a count `sz` above 128
would read past the array, which is not represented. -/
def ConnImpl.WriteStatusLine {κ : Type} (aw : κ → List Char → Bool × κ) (c : ConnImpl κ)
    (code : Int) (message : List Char) : Bool × ConnImpl κ :=
  let r := snprintf128 ("HTTP/1.0 ".toList ++ fmt_d code ++ " ".toList ++ c_str message ++ CRLF)
  if r.1 > 0 then
    c.async_write aw (r.2.take r.1)
  else
    (false, c)

/-- The member `ConnImpl::WriteResponseSimple(code, msg, contentType, content)`. -/
def ConnImpl.WriteResponseSimple {κ : Type} (aw : κ → List Char → Bool × κ)
    (c : ConnImpl κ) (code : Int) (msg contentType content : List Char) :
    Bool × ConnImpl κ :=
  let r0 := c.WriteStatusLine aw code msg
  if !r0.1 then (false, r0.2)
  else
    let f1 := snprintf128 ("Content-Type: ".toList ++ c_str contentType ++ CRLF)
    if f1.1 ≤ 0 then (false, r0.2)
    else
      let r1 := r0.2.async_write aw (f1.2.take f1.1)
      if !r1.1 then (false, r1.2)
      else
        let contentLength := strlen content
        let f2 := snprintf128 ("Content-Length: ".toList ++ fmt_zu contentLength ++ CRLFCRLF)
        if f2.1 ≤ 0 then (false, r1.2)
        else
          let r2 := r1.2.async_write aw (f2.2.take f2.1)
          if !r2.1 then (false, r2.2)
          else
            let r3 := r2.2.async_write aw ((c_str content).take contentLength)
            if !r3.1 then (false, r3.2)
            else (true, { r3.2 with m_State := .eWriteHTTPBody })

/-- The member `ConnImpl::FeedBody(buf, sz)`; the body is the list `buf` and `sz`
its length. -/
def ConnImpl.FeedBody {κ : Type} (aw : κ → List Char → Bool × κ) (c : ConnImpl κ)
    (buf : List Char) : Bool × ConnImpl κ :=
  let c1 := { c with bodies := c.bodies ++ [buf] }
  if buf.length = 0 then
    c1.WriteResponseSimple aw 400 "Bad Request".toList "text/plain".toList "nope".toList
  else if c1.m_Header.Method ≠ "POST".toList then
    c1.WriteResponseSimple aw 400 "Bad Request".toList "text/plain".toList "nope".toList
  else
    c1.WriteResponseSimple aw 200 "OK".toList "text/json".toList "\x7b\x7d".toList

/-- The loop `while(std::getline(m_ReadBuf, line, '\n'))` of `ProcessRead`
together with the statements after it, for at most `fuel` calls of `getline`. -/
def ConnImpl.read_loop {κ : Type} (aw : κ → List Char → Bool × κ) :
    Nat → ConnImpl κ → List Char → Except Fault (Bool × ConnImpl κ)
  | 0, _, _ => .error .fuel
  | fuel + 1, c, line0 =>
    let g := c.m_ReadBuf.getline line0 '\n'
    let c1 := { c with m_ReadBuf := g.1 }
    if g.1.failbit then
      .ok (true, { c1 with m_ReadBuf := c1.m_ReadBuf.set_str g.2 })
    else if g.2.head? = some '\r' then
      let c2 := { c1 with m_State := .eReadHTTPBody }
      let line := c2.m_ReadBuf.str
      match strstr (c_str line) CRLFCRLF with
      | none => .ok (false, c2)
      | some i =>
        let body := (c_str line).drop (i + 4)
        let c3 := { c2 with m_ReadBuf := c2.m_ReadBuf.clear }
        .ok (c3.FeedBody aw body)
    else
      match find_first_of g.2 '\r' with
      | none => .ok (false, c1)
      | some pos =>
        match substr g.2 0 pos with
        | .error e => .error e
        | .ok line =>
          match c1.FeedLine line with
          | .error e => .error e
          | .ok (false, _, c2) => .ok (false, c2)
          | .ok (true, line1, c2) => ConnImpl.read_loop aw fuel c2 line1

/-- The member `ConnImpl::ProcessRead(buf, sz)`; the bytes read are the list `buf`
and `sz` its length, `now` is the value of `llarp_time_now_ms()`.  The search
`strstr(buf, "\r\n")` reads the memory at `buf` as a C string: the `sz` bytes are
taken to be followed by a terminator. -/
def ConnImpl.ProcessRead {κ : Type} (aw : κ → List Char → Bool × κ) (now : Nat)
    (c : ConnImpl κ) (buf : List Char) : Except Fault (Bool × ConnImpl κ) :=
  if c.m_Bad then .ok (false, c)
  else
    let c1 := { c with m_LastActive := now }
    if c1.m_State.toNat < HTTPState.eReadHTTPBody.toNat then
      if strstr (c_str buf) CRLF = none then .ok (false, c1)
      else
        let c2 := { c1 with m_ReadBuf := c1.m_ReadBuf.put buf }
        ConnImpl.read_loop aw (c2.m_ReadBuf.buf.length + 2) c2 []
    else
      .ok (c1.FeedBody aw buf)

/-- The member `ConnImpl::MarkBad()`. -/
def ConnImpl.MarkBad {κ : Type} (c : ConnImpl κ) : ConnImpl κ :=
  { c with m_Bad := true }

/-- The callback `ConnImpl::OnRead(conn, buf, sz)`. -/
def ConnImpl.OnRead {κ : Type} (aw : κ → List Char → Bool × κ) (now : Nat)
    (c : ConnImpl κ) (buf : List Char) : Except Fault (ConnImpl κ) :=
  match c.ProcessRead aw now buf with
  | .error e => .error e
  | .ok (false, c1) => .ok c1.MarkBad
  | .ok (true, c1) => .ok c1

/-- Successive calls of `OnRead`, one per element of `reads` (time of the call and
bytes read), in order. -/
def ConnImpl.OnReads {κ : Type} (aw : κ → List Char → Bool × κ) :
    ConnImpl κ → List (Nat × List Char) → Except Fault (ConnImpl κ)
  | c, [] => .ok c
  | c, r :: rs =>
    match c.OnRead aw r.1 r.2 with
    | .error e => .error e
    | .ok c1 => ConnImpl.OnReads aw c1 rs

/-- The part of the state of a connection that a request leaves behind: method,
path, header map, bodies handed to `FeedBody`, parse phase and poisoned flag. -/
def ConnImpl.parsed {κ : Type} (c : ConnImpl κ) :
    List Char × List Char × List (List Char × List Char) × List (List Char) × HTTPState × Bool :=
  (c.m_Header.Method, c.m_Header.Path, c.m_Header.Headers, c.bodies, c.m_State, c.m_Bad)

/-- The bytes `bytes` delivered one per read, every read at time `now`. -/
def bytewise (now : Nat) (bytes : List Char) : List (Nat × List Char) :=
  bytes.map (fun b => (now, [b]))

/-- The byte strings of the fixed response `400 Bad Request` of `FeedBody`, in the
order in which they are queued. -/
def response400 : List (List Char) :=
  ["HTTP/1.0 400 Bad Request\r\n".toList, "Content-Type: text/plain\r\n".toList,
   "Content-Length: 4\r\n\r\n".toList, "nope".toList]

/-- The byte strings of the response `200 OK` of `FeedBody`, in the order in which
they are queued; the body is the two braces of an empty JSON object. -/
def response200 : List (List Char) :=
  ["HTTP/1.0 200 OK\r\n".toList, "Content-Type: text/json\r\n".toList,
   "Content-Length: 2\r\n\r\n".toList, "\x7b\x7d".toList]

/-- A transport that accepts every write; the connection has no state of its own. -/
def acceptAll : Unit → List Char → Bool × Unit := fun k _ => (true, k)

/-- The request `POST /x HTTP/1.0`, one header `Content-Length: 2`, body `hi`. -/
def postRequest : List Char :=
  "POST /x HTTP/1.0\r\nContent-Length: 2\r\n\r\nhi".toList

/-- A request in wire form: the method line `M`, the header lines `hdrs` and a
blank line, each ended by `CRLF`, then the body `B`. -/
def request (M : List Char) (hdrs : List (List Char)) (B : List Char) : List Char :=
  M ++ CRLF ++ (hdrs.map (fun h => h ++ CRLF)).flatten ++ CRLF ++ B

/-- The connection that has read `postRequest` in one call at time `5` and has
answered it: phase `eWriteHTTPBody`, response `200` queued. -/
def answered : ConnImpl Unit :=
  { _conn := some (), m_LastActive := 5, m_ReadTimeout := 1000, m_Bad := false,
    m_Header := { Headers := [("content-length".toList, ": 2".toList)],
                  Method := "POST".toList, Path := "/x".toList },
    m_ReadBuf := { buf := postRequest, gpos := 39, ppos := 41, eofbit := false,
                   failbit := false },
    m_State := .eWriteHTTPBody, queued := response200, bodies := ["hi".toList] }

/-! ## Closing and sweeping -/

/-- The difference `a - b` of two values of `llarp_time_t`.  The type is declared
in `llarp/time.h`, outside the sources; it is taken as an unsigned integer of 64
bits, so the difference is reduced modulo `2^64`. -/
def time_sub (a b : Nat) : Nat :=
  (a % 18446744073709551616 + 18446744073709551616 - b % 18446744073709551616)
    % 18446744073709551616

/-- The member `ConnImpl::ShouldClose(now)`. -/
def ConnImpl.ShouldClose {κ : Type} (c : ConnImpl κ) (now : Nat) : Bool :=
  decide (time_sub now c.m_LastActive > c.m_ReadTimeout) || c.m_Bad
    || decide (c.m_State = .eCloseMe)

/-- The member `ConnImpl::Tick()`, which has an empty body. -/
def ConnImpl.Tick {κ : Type} (c : ConnImpl κ) : ConnImpl κ := c

/-- The member `ConnImpl::Close()`: the new object and the connections handed to
`llarp_tcp_conn_close` by the call (none or one). -/
def ConnImpl.Close {κ : Type} (c : ConnImpl κ) : ConnImpl κ × List κ :=
  match c._conn with
  | some k => ({ c with _conn := none }, [k])
  | none => (c, [])

/-- The callback `ConnImpl::OnClosed(conn)`. -/
def ConnImpl.OnClosed {κ : Type} (c : ConnImpl κ) : ConnImpl κ :=
  { c with _conn := none }

/-- A call of one of the two functions that end the use of the connection. -/
inductive CloseCall where
  | Close
  | OnClosed
deriving DecidableEq, Repr

/-- A sequence of calls of `Close` and `OnClosed` on one object, in order: the
object at the end and all connections handed to `llarp_tcp_conn_close`. -/
def ConnImpl.close_calls {κ : Type} : ConnImpl κ → List CloseCall → ConnImpl κ × List κ
  | c, [] => (c, [])
  | c, .Close :: calls =>
    let r := c.Close
    let rs := ConnImpl.close_calls r.1 calls
    (rs.1, r.2 ++ rs.2)
  | c, .OnClosed :: calls => ConnImpl.close_calls c.OnClosed calls

/-- The part of `BaseReqHandler` used by `Tick`: the request timeout and the
tracked connections `m_Conns`.  The container is declared in `abyss/server.hpp`,
outside the sources; it is a sequence of owned handlers, each holding its
`ConnImpl`, and is represented by the list of these. -/
structure BaseReqHandler (κ : Type) where
  m_ReqTimeout : Nat
  m_Conns : List (ConnImpl κ)

/-- The loop of `BaseReqHandler::Tick` over `m_Conns`: a connection for which
`ShouldClose(now)` holds is erased, which destroys its handler
(`IRPCHandler::~IRPCHandler` calls `Close`); the others are kept.  The result is
the list of kept connections and the connections handed to
`llarp_tcp_conn_close`. -/
def BaseReqHandler.Tick_loop {κ : Type} (now : Nat) :
    List (ConnImpl κ) → List (ConnImpl κ) × List κ
  | [] => ([], [])
  | c :: cs =>
    let rs := BaseReqHandler.Tick_loop now cs
    if c.ShouldClose now then (rs.1, c.Close.2 ++ rs.2)
    else (c :: rs.1, rs.2)

/-- The member `BaseReqHandler::Tick()`; `now` is the value of
`llarp_time_now_ms()`. -/
def BaseReqHandler.Tick {κ : Type} (self : BaseReqHandler κ) (now : Nat) :
    BaseReqHandler κ × List κ :=
  let r := BaseReqHandler.Tick_loop now self.m_Conns
  ({ self with m_Conns := r.1 }, r.2)

/-! ## The connection as a state machine -/

/-- The phases that a connection goes through: the three read phases and
`eWriteHTTPBody`. -/
def HTTPState.inOrder (s : HTTPState) : Prop :=
  s = .eReadHTTPMethodLine ∨ s = .eReadHTTPHeaders ∨ s = .eReadHTTPBody ∨
    s = .eWriteHTTPBody

/-- The phase `t` is the phase `s` or comes strictly after it in the order
`eReadHTTPMethodLine < eReadHTTPHeaders < eReadHTTPBody < eWriteHTTPBody`. -/
def HTTPState.advances (s t : HTTPState) : Prop :=
  t = s ∨ (s.inOrder ∧ t.inOrder ∧ s.toNat < t.toNat)

/-- What can happen to a connection from outside: a read, the poisoning, the
tick, and the two calls that end the use of the transport. -/
inductive Event where
  | OnRead (now : Nat) (buf : List Char)
  | MarkBad
  | Tick
  | Close
  | OnClosed

/-- The effect of one event on the connection. -/
def ConnImpl.step {κ : Type} (aw : κ → List Char → Bool × κ) (c : ConnImpl κ) :
    Event → Except Fault (ConnImpl κ)
  | .OnRead now buf => c.OnRead aw now buf
  | .MarkBad => .ok c.MarkBad
  | .Tick => .ok c.Tick
  | .Close => .ok c.Close.1
  | .OnClosed => .ok c.OnClosed

/-- The effect of a sequence of events, in order. -/
def ConnImpl.run {κ : Type} (aw : κ → List Char → Bool × κ) :
    ConnImpl κ → List Event → Except Fault (ConnImpl κ)
  | c, [] => .ok c
  | c, e :: es =>
    match c.step aw e with
    | .error f => .error f
    | .ok c1 => ConnImpl.run aw c1 es

/-- A handler with read timeout `1000` that tracks two healthy connections in
phase `eReadHTTPMethodLine`: one last active at time `0`, one at time `1500`. -/
def twoConns : BaseReqHandler Unit :=
  { m_ReqTimeout := 1000,
    m_Conns := [ConnImpl.ctor () 0 1000, ConnImpl.ctor () 1500 1000] }

/-- A transport that refuses every write. -/
def refuseAll : Unit → List Char → Bool × Unit := fun k _ => (false, k)

end abyss.http

/-! # Properties of the write queues -/

namespace llarp

/-- For a count `k` between `0` and `n` (with `n` below `2^63`) the difference
`n - k` computed in `size_t` and read back as `ssize_t` is the plain difference. -/
theorem ssize_sub_eq (n k : Nat) (hk : k ≤ n) (hn : n < 9223372036854775808) :
    ssize_t_of (size_t_of ((n : Int) - (k : Nat))) = ((n - k : Nat) : Int) := by
  unfold ssize_t_of size_t_of
  split <;> omega

/-- The size `bufsz - dlt` computed in `size_t` for `0 <= dlt <= bufsz`. -/
theorem size_sub_eq (n d : Nat) (hd : d ≤ n) (hn : n < 9223372036854775808) :
    size_t_of ((n : Int) - ((d : Nat) : Int)) = n - d := by
  unfold size_t_of
  omega

/-- One step of the loop of `flush_write` on a short write: when `write` accepts
`k < n` bytes of the `n`-byte front entry, the loop returns at once and the new
front entry holds the bytes `buf[n-k .. n)`, the entries behind are kept. -/
theorem flush_loop_short {σ : Type} (write : σ → Nat → List Nat → WriteRet σ)
    (s : Sys σ) (itr : ev_io.WriteBuffer) (rest : List ev_io.WriteBuffer) (k : Nat)
    (hn : itr.buf.length ≤ 1500) (hk : k < itr.buf.length)
    (hw : (write s.dev s.errno itr.buf).result = (k : Int)) :
    (ev_io.flush_loop write s (itr :: rest)).2.2 =
      { timestamp := 0, buf := itr.buf.drop (itr.buf.length - k) } :: rest := by
  have h1 : ssize_t_of (size_t_of ((itr.buf.length : Int) - (k : Nat)))
      = ((itr.buf.length - k : Nat) : Int) := ssize_sub_eq _ _ (by omega) (by omega)
  have h2 : size_t_of ((itr.buf.length : Int) - ((itr.buf.length - k : Nat) : Int))
      = itr.buf.length - (itr.buf.length - k) := size_sub_eq _ _ (by omega) (by omega)
  have h3 : ¬ ((k : Int) = -1) := by omega
  have h4 : ((itr.buf.length - k : Nat) : Int) > 0 := by omega
  simp only [ev_io.flush_loop, ev_io.do_write, ev_io.WriteBuffer.bufsz, List.take_length, hw,
    h1, h2, h3, h4, if_true, if_false, Int.toNat_ofNat, ev_io.WriteBuffer.WriteBuffer,
    ev_io.WriteBuffer.sizeof_buf]
  have h5 : itr.buf.length - (itr.buf.length - k) ≤ 1500 := by omega
  rw [if_pos h5]
  congr 2
  apply List.take_of_length_le
  simp

/-- The enqueue of a payload on a handle without lossy queue and with a lossless
queue appends the write buffer built from the payload. -/
theorem queue_write_blocking {Q σ : Type} (ops : CoDelQueue Q σ) (h : ev_io Q)
    (q : List ev_io.WriteBuffer) (buf : List Nat)
    (hl : h.m_LossyWriteQueue = none) (hb : h.m_BlockingWriteQueue = some q) :
    ev_io.queue_write ops h buf =
      (true, { h with
        m_BlockingWriteQueue := some (q ++ [ev_io.WriteBuffer.WriteBuffer buf buf.length]) }) := by
  simp [ev_io.queue_write, hl, hb]

/-- A write buffer built from an oversized payload is empty. -/
theorem WriteBuffer_oversized (buf : List Nat) (h : 1500 < buf.length) :
    ev_io.WriteBuffer.WriteBuffer buf buf.length = { timestamp := 0, buf := [] } := by
  unfold ev_io.WriteBuffer.WriteBuffer ev_io.WriteBuffer.sizeof_buf
  rw [if_neg (by omega)]

/-- A write buffer built from a payload within the cap holds the payload. -/
theorem WriteBuffer_fits (buf : List Nat) (h : buf.length ≤ 1500) :
    ev_io.WriteBuffer.WriteBuffer buf buf.length = { timestamp := 0, buf := buf } := by
  unfold ev_io.WriteBuffer.WriteBuffer ev_io.WriteBuffer.sizeof_buf
  rw [if_pos h, List.take_length]

/-- Enqueueing payloads within the cap on a lossless queue appends one buffer per
payload, in order, and every call returns `true`. -/
theorem queue_write_all_blocking {Q σ : Type} (ops : CoDelQueue Q σ)
    (ps : List (List Nat)) (hps : ∀ p ∈ ps, p.length ≤ 1500) :
    ∀ (h : ev_io Q) (q : List ev_io.WriteBuffer),
      h.m_LossyWriteQueue = none → h.m_BlockingWriteQueue = some q →
      ev_io.queue_write_all ops h ps =
        (ps.map (fun _ => true),
         { h with
           m_BlockingWriteQueue := some (q ++ ps.map (fun p => { timestamp := 0, buf := p })) }) := by
  induction ps with
  | nil =>
    intro h q hl hb
    cases h
    simp_all [ev_io.queue_write_all]
  | cons p ps ih =>
    intro h q hl hb
    have hp : p.length ≤ 1500 := hps p (by simp)
    have ih2 := ih (fun x hx => hps x (by simp [hx]))
      { h with m_BlockingWriteQueue := some (q ++ [{ timestamp := 0, buf := p }]) }
      (q ++ [{ timestamp := 0, buf := p }]) hl rfl
    simp only [ev_io.queue_write_all, queue_write_blocking ops h q p hl hb,
      WriteBuffer_fits p hp, ih2]
    simp

/-- The loop of `flush_write` under a `write` that accepts every entry in full and
never leaves `errno` at `EAGAIN`/`EWOULDBLOCK`, along an invariant `I` of the
device and `errno`: the loop runs the queue empty and hands every entry to `write`
in queue order, so that the device and `errno` at the end are those after the
calls of `write` on the entries, one after the other. -/
theorem flush_loop_full {σ : Type} (write : σ → Nat → List Nat → WriteRet σ)
    (I : σ → Nat → Prop)
    (hw : ∀ d e data, I d e → data.length ≤ 1500 →
      (write d e data).result = (data.length : Int) ∧
      (write d e data).errno ≠ EAGAIN ∧ (write d e data).errno ≠ EWOULDBLOCK ∧
      I (write d e data).dev (write d e data).errno)
    (q : List ev_io.WriteBuffer) (hq : ∀ w ∈ q, w.buf.length ≤ 1500) :
    ∀ s : Sys σ, I s.dev s.errno →
      (ev_io.flush_loop write s q).1 = false ∧
      (ev_io.flush_loop write s q).2.2 = [] ∧
      (ev_io.flush_loop write s q).2.1.writes = s.writes ++ q.map (fun w => w.buf) ∧
      (ev_io.flush_loop write s q).2.1.dev
        = (write_all write s.dev s.errno (q.map (fun w => w.buf))).1 ∧
      (ev_io.flush_loop write s q).2.1.errno
        = (write_all write s.dev s.errno (q.map (fun w => w.buf))).2 := by
  induction q with
  | nil => intro s _; simp [ev_io.flush_loop, write_all]
  | cons itr rest ih =>
    intro s hI
    have hlen : itr.buf.length ≤ 1500 := hq itr (by simp)
    obtain ⟨h1, h2, h3, h4⟩ := hw s.dev s.errno itr.buf hI hlen
    have e1 : ssize_t_of (size_t_of ((itr.buf.length : Int) - (itr.buf.length : Nat))) = 0 := by
      rw [ssize_sub_eq _ _ (le_refl _) (by omega)]; simp
    have e2 : ¬ ((itr.buf.length : Int) = -1) := by omega
    have ih2 := ih (fun w hw2 => hq w (by simp [hw2]))
      { dev := (write s.dev s.errno itr.buf).dev, errno := (write s.dev s.errno itr.buf).errno,
        writes := s.writes ++ [itr.buf] } h4
    simp only [ev_io.flush_loop, ev_io.do_write, ev_io.WriteBuffer.bufsz, List.take_length, h1,
      e1, e2, if_false, gt_iff_lt, lt_self_iff_false, h2, h3, or_self, List.map_cons, write_all]
    simpa using ih2

/-- Claim C1 (evaluation of the code at the failing input).  The front entry holds
the three bytes `1, 2, 3`, a second entry holds `9`, and `write` accepts one byte.
`flush_write` leaves the front entry `[3]`, the last byte only, instead of the
undelivered remainder `[2, 3]`; the entry behind is unchanged. -/
theorem C1_flush_write_short_write_front :
    (ev_io.flush_write noCoDel (shortWrite 1)
        ({ m_LossyWriteQueue := none,
           m_BlockingWriteQueue := some [⟨0, [1, 2, 3]⟩, ⟨0, [9]⟩] } : ev_io Unit)
        { dev := (), errno := 0, writes := [] }).1.m_BlockingWriteQueue
      = some [⟨0, [3]⟩, ⟨0, [9]⟩]
    ∧ ([3] : List Nat) ≠ List.drop 1 [1, 2, 3] := by
  constructor
  · rfl
  · decide

/-- Claim C2 (counterexample).  On a handle with an empty lossless queue a payload of
1501 bytes is not refused: `queue_write` returns `true` and the queue holds one
empty entry afterwards. -/
theorem C2_oversized_payload_accepted_counterexample :
    ¬ ((ev_io.queue_write noCoDel
          ({ m_LossyWriteQueue := none, m_BlockingWriteQueue := some [] } : ev_io Unit)
          (List.replicate 1501 7)).1 = false
        ∧ (ev_io.queue_write noCoDel
          ({ m_LossyWriteQueue := none, m_BlockingWriteQueue := some [] } : ev_io Unit)
          (List.replicate 1501 7)).2
          = { m_LossyWriteQueue := none, m_BlockingWriteQueue := some [] }) := by
  rw [queue_write_blocking noCoDel _ [] _ rfl rfl]
  intro h
  have h1 : true = false := h.1
  cases h1

/-- Claim C2 (amended).  For every payload longer than 1500 bytes and every handle
with a write queue attached `queue_write` returns `true`; when the attached queue
is the lossless one, the call appends exactly one empty entry (`bufsz = 0`) at the
back and keeps the entries already queued. -/
theorem C2_queue_write_oversized {Q σ : Type} (ops : CoDelQueue Q σ) (h : ev_io Q)
    (buf : List Nat) (hsz : 1500 < buf.length)
    (hq : h.m_LossyWriteQueue ≠ none ∨ h.m_BlockingWriteQueue ≠ none) :
    (ev_io.queue_write ops h buf).1 = true ∧
    (h.m_LossyWriteQueue = none → ∀ q, h.m_BlockingWriteQueue = some q →
      (ev_io.queue_write ops h buf).2 =
        { h with m_BlockingWriteQueue := some (q ++ [{ timestamp := 0, buf := [] }]) }) := by
  constructor
  · cases hl : h.m_LossyWriteQueue with
    | some ql => simp [ev_io.queue_write, hl]
    | none =>
      cases hb : h.m_BlockingWriteQueue with
      | some qb => simp [ev_io.queue_write, hl, hb]
      | none => simp [hl, hb] at hq
  · intro hl q hb
    rw [queue_write_blocking ops h q buf hl hb, WriteBuffer_oversized buf hsz]

/-- Witness of claim C2 (amended): a payload of 1501 bytes on an empty lossless queue. -/
theorem C2_queue_write_oversized_witness :
    (ev_io.queue_write noCoDel
        ({ m_LossyWriteQueue := none, m_BlockingWriteQueue := some [] } : ev_io Unit)
        (List.replicate 1501 7)).1 = true ∧
    ((none : Option Unit) = none → ∀ q, some ([] : List ev_io.WriteBuffer) = some q →
      (ev_io.queue_write noCoDel
        ({ m_LossyWriteQueue := none, m_BlockingWriteQueue := some [] } : ev_io Unit)
        (List.replicate 1501 7)).2 =
        { m_LossyWriteQueue := none,
          m_BlockingWriteQueue := some (q ++ [{ timestamp := 0, buf := [] }]) }) :=
  C2_queue_write_oversized noCoDel
    ({ m_LossyWriteQueue := none, m_BlockingWriteQueue := some [] } : ev_io Unit)
    (List.replicate 1501 7) (by rw [List.length_replicate]; decide) (Or.inr (by simp))

/-- The device of `recordingWrite` after calls on `ps` holds `ps` behind what it
held before. -/
theorem write_all_recording (ps : List (List Nat)) :
    ∀ (d : List (List Nat)) (e : Nat),
      (write_all recordingWrite d e ps).1 = d ++ ps ∧
      (write_all recordingWrite d e ps).2 = e := by
  induction ps with
  | nil => intro d e; simp [write_all]
  | cons p ps ih =>
    intro d e
    simp only [write_all, recordingWrite]
    obtain ⟨i1, i2⟩ := ih (d ++ [p]) e
    exact ⟨by rw [i1]; simp, i2⟩

/-- Claim C3 (counterexample).  Two payloads, `[1, 2]` and `[3]`, are enqueued on
an empty lossless queue.  The device records the calls of `write` it receives;
`write` accepts every request in full, never returns `-1` and never changes
`errno`.  When `flush_write` is entered with `errno` equal to `EAGAIN`, left
behind by an earlier call of anything, the test of `errno` after the first entry
ends the function: `write` was called with `[1, 2]` only and `[3]` is still
queued. -/
theorem C3_stale_errno_counterexample :
    ¬ ((ev_io.flush_write noCoDelRec recordingWrite
          (ev_io.queue_write_all noCoDelRec
            ({ m_LossyWriteQueue := none, m_BlockingWriteQueue := some [] } : ev_io Unit)
            [[1, 2], [3]]).2
          { dev := [], errno := EAGAIN, writes := [] }).2.dev = [[1, 2], [3]]
        ∧ (ev_io.flush_write noCoDelRec recordingWrite
          (ev_io.queue_write_all noCoDelRec
            ({ m_LossyWriteQueue := none, m_BlockingWriteQueue := some [] } : ev_io Unit)
            [[1, 2], [3]]).2
          { dev := [], errno := EAGAIN, writes := [] }).1.m_BlockingWriteQueue = some []) := by
  have h1 : (ev_io.flush_write noCoDelRec recordingWrite
      (ev_io.queue_write_all noCoDelRec
        ({ m_LossyWriteQueue := none, m_BlockingWriteQueue := some [] } : ev_io Unit)
        [[1, 2], [3]]).2
      { dev := [], errno := EAGAIN, writes := [] }).2.dev = [[1, 2]] := rfl
  have h2 : (ev_io.flush_write noCoDelRec recordingWrite
      (ev_io.queue_write_all noCoDelRec
        ({ m_LossyWriteQueue := none, m_BlockingWriteQueue := some [] } : ev_io Unit)
        [[1, 2], [3]]).2
      { dev := [], errno := EAGAIN, writes := [] }).1.m_BlockingWriteQueue
        = some [⟨0, [3]⟩] := rfl
  rw [h1, h2]
  intro h
  exact absurd h.1 (by decide)

/-- Claim C3 (amended).  Payloads `p1 .. pm`, each of at most 1500 bytes, are
enqueued with `queue_write` on a handle whose lossless queue is empty; every call
returns `true`.  `flush_write` is entered with `errno` different from `EAGAIN`
and `EWOULDBLOCK`, and every call of `write` made with such an `errno` accepts
the entry in full and leaves `errno` different from `EAGAIN` and `EWOULDBLOCK`.
Then `flush_write` calls `write` exactly `m` times, with exactly the bytes
`p1, .., pm` in this order: the device at the end is the device after these calls
of `write`, one after the other, and the record of the calls is `p1, .., pm`; the
queue is empty at the end and `errno` is `0`. -/
theorem C3_enqueue_flush_delivers_in_order {Q σ : Type} (ops : CoDelQueue Q σ)
    (write : σ → Nat → List Nat → WriteRet σ)
    (ps : List (List Nat)) (s : Sys σ)
    (hps : ∀ p ∈ ps, p.length ≤ 1500)
    (h0 : s.errno ≠ EAGAIN ∧ s.errno ≠ EWOULDBLOCK)
    (hw : ∀ d e data, e ≠ EAGAIN → e ≠ EWOULDBLOCK → data.length ≤ 1500 →
      (write d e data).result = (data.length : Int) ∧
      (write d e data).errno ≠ EAGAIN ∧ (write d e data).errno ≠ EWOULDBLOCK) :
    (ev_io.queue_write_all ops
        ({ m_LossyWriteQueue := none, m_BlockingWriteQueue := some [] } : ev_io Q) ps).1
      = ps.map (fun _ => true) ∧
    (ev_io.flush_write ops write
        (ev_io.queue_write_all ops
          ({ m_LossyWriteQueue := none, m_BlockingWriteQueue := some [] } : ev_io Q) ps).2
        s).2.dev = (write_all write s.dev s.errno ps).1 ∧
    (ev_io.flush_write ops write
        (ev_io.queue_write_all ops
          ({ m_LossyWriteQueue := none, m_BlockingWriteQueue := some [] } : ev_io Q) ps).2
        s).2.writes = s.writes ++ ps ∧
    (ev_io.flush_write ops write
        (ev_io.queue_write_all ops
          ({ m_LossyWriteQueue := none, m_BlockingWriteQueue := some [] } : ev_io Q) ps).2
        s).2.errno = 0 ∧
    (ev_io.flush_write ops write
        (ev_io.queue_write_all ops
          ({ m_LossyWriteQueue := none, m_BlockingWriteQueue := some [] } : ev_io Q) ps).2
        s).1.m_BlockingWriteQueue = some [] := by
  have hq := queue_write_all_blocking ops ps hps
    ({ m_LossyWriteQueue := none, m_BlockingWriteQueue := some [] } : ev_io Q) [] rfl rfl
  have hbuf : ∀ w ∈ ps.map (fun p => ({ timestamp := 0, buf := p } : ev_io.WriteBuffer)),
      w.buf.length ≤ 1500 := by
    intro w hw2
    obtain ⟨p, hp, rfl⟩ := List.mem_map.mp hw2
    exact hps p hp
  have hmap : (ps.map (fun p => ({ timestamp := 0, buf := p } : ev_io.WriteBuffer))).map
      (fun w => w.buf) = ps := by
    simp [List.map_map, Function.comp_def]
  obtain ⟨f1, f2, f3, f4, _⟩ := flush_loop_full write
    (fun _ e => e ≠ EAGAIN ∧ e ≠ EWOULDBLOCK)
    (fun d e data hI hlen =>
      ⟨(hw d e data hI.1 hI.2 hlen).1, (hw d e data hI.1 hI.2 hlen).2.1,
        (hw d e data hI.1 hI.2 hlen).2.2, (hw d e data hI.1 hI.2 hlen).2⟩)
    _ hbuf s h0
  rw [hmap] at f3 f4
  rw [hq]
  refine ⟨rfl, ?_, ?_, ?_, ?_⟩
  · simp only [ev_io.flush_write, List.nil_append, f1]
    exact f4
  · simp only [ev_io.flush_write, List.nil_append, f1]
    exact f3
  · simp only [ev_io.flush_write, List.nil_append, f1]
    simp
  · simp only [ev_io.flush_write, List.nil_append, f1, f2]
    simp

/-- Witness of claim C3 (amended): two payloads, flushed to the device that
records the calls of `write`, starting from an `errno` of `0`; the device has
received `[1, 2]` and then `[3]`. -/
theorem C3_enqueue_flush_delivers_in_order_witness :
    (ev_io.queue_write_all noCoDelRec
        ({ m_LossyWriteQueue := none, m_BlockingWriteQueue := some [] } : ev_io Unit)
        [[1, 2], [3]]).1 = [[1, 2], [3]].map (fun _ => true) ∧
    (ev_io.flush_write noCoDelRec recordingWrite
        (ev_io.queue_write_all noCoDelRec
          ({ m_LossyWriteQueue := none, m_BlockingWriteQueue := some [] } : ev_io Unit)
          [[1, 2], [3]]).2
        { dev := [], errno := 0, writes := [] }).2.dev = [[1, 2], [3]] ∧
    (ev_io.flush_write noCoDelRec recordingWrite
        (ev_io.queue_write_all noCoDelRec
          ({ m_LossyWriteQueue := none, m_BlockingWriteQueue := some [] } : ev_io Unit)
          [[1, 2], [3]]).2
        { dev := [], errno := 0, writes := [] }).2.writes = [] ++ [[1, 2], [3]] ∧
    (ev_io.flush_write noCoDelRec recordingWrite
        (ev_io.queue_write_all noCoDelRec
          ({ m_LossyWriteQueue := none, m_BlockingWriteQueue := some [] } : ev_io Unit)
          [[1, 2], [3]]).2
        { dev := [], errno := 0, writes := [] }).2.errno = 0 ∧
    (ev_io.flush_write noCoDelRec recordingWrite
        (ev_io.queue_write_all noCoDelRec
          ({ m_LossyWriteQueue := none, m_BlockingWriteQueue := some [] } : ev_io Unit)
          [[1, 2], [3]]).2
        { dev := [], errno := 0, writes := [] }).1.m_BlockingWriteQueue = some [] :=
  C3_enqueue_flush_delivers_in_order noCoDelRec recordingWrite [[1, 2], [3]]
    { dev := [], errno := 0, writes := [] }
    (by decide) (by decide)
    (fun _ _ _ h1 h2 _ => ⟨rfl, h1, h2⟩)

/-- The device that records the calls of `write` holds, after `flush_write` under
the conditions of claim C3 (amended), exactly the payloads `p1, .., pm` behind
what it held before. -/
theorem flush_write_recording {Q : Type} (ops : CoDelQueue Q (List (List Nat)))
    (ps : List (List Nat)) (s : Sys (List (List Nat)))
    (hps : ∀ p ∈ ps, p.length ≤ 1500)
    (h0 : s.errno ≠ EAGAIN ∧ s.errno ≠ EWOULDBLOCK) :
    (ev_io.flush_write ops recordingWrite
        (ev_io.queue_write_all ops
          ({ m_LossyWriteQueue := none, m_BlockingWriteQueue := some [] } : ev_io Q) ps).2
        s).2.dev = s.dev ++ ps := by
  have hq := queue_write_all_blocking ops ps hps
    ({ m_LossyWriteQueue := none, m_BlockingWriteQueue := some [] } : ev_io Q) [] rfl rfl
  have hbuf : ∀ w ∈ ps.map (fun p => ({ timestamp := 0, buf := p } : ev_io.WriteBuffer)),
      w.buf.length ≤ 1500 := by
    intro w hw2
    obtain ⟨p, hp, rfl⟩ := List.mem_map.mp hw2
    exact hps p hp
  have hmap : (ps.map (fun p => ({ timestamp := 0, buf := p } : ev_io.WriteBuffer))).map
      (fun w => w.buf) = ps := by
    simp [List.map_map, Function.comp_def]
  obtain ⟨f1, _, _, f4, _⟩ := flush_loop_full recordingWrite
    (fun _ e => e ≠ EAGAIN ∧ e ≠ EWOULDBLOCK)
    (fun d e data hI _ => ⟨rfl, hI.1, hI.2, hI⟩)
    _ hbuf s h0
  rw [hmap] at f4
  rw [hq]
  simp only [ev_io.flush_write, List.nil_append, f1]
  exact f4.trans (write_all_recording ps s.dev s.errno).1

/-- One turn of the loop of `flush_write` on a non-empty queue: the turn either
leaves the function through a `return`, with no more entries queued than before,
or it removes the front entry and the loop goes on with the entries behind it. -/
theorem flush_loop_turn {σ : Type} (write : σ → Nat → List Nat → WriteRet σ)
    (s : Sys σ) (itr : ev_io.WriteBuffer) (rest : List ev_io.WriteBuffer) :
    ((ev_io.flush_loop write s (itr :: rest)).1 = true ∧
      (ev_io.flush_loop write s (itr :: rest)).2.2.length ≤ (itr :: rest).length) ∨
    ev_io.flush_loop write s (itr :: rest)
      = ev_io.flush_loop write (ev_io.do_write write s itr.buf itr.bufsz).2 rest := by
  simp only [ev_io.flush_loop]
  split
  · left; simp
  · split
    · left; simp
    · split
      · left; simp
      · right; rfl

/-- The loop of `flush_write` under a `write` that returns `-1` or a count between
`0` and the requested size: the queue left behind has no more entries and no more
bytes than the queue at the start, and `write` was called at most once per entry. -/
theorem flush_loop_bounds {σ : Type} (write : σ → Nat → List Nat → WriteRet σ)
    (hw : ∀ d e data, (write d e data).result = -1 ∨
      (0 ≤ (write d e data).result ∧ (write d e data).result ≤ (data.length : Int)))
    (q : List ev_io.WriteBuffer) (hq : ∀ w ∈ q, w.buf.length ≤ 1500) :
    ∀ s : Sys σ,
      (ev_io.flush_loop write s q).2.2.length ≤ q.length ∧
      queued_bytes (ev_io.flush_loop write s q).2.2 ≤ queued_bytes q ∧
      (ev_io.flush_loop write s q).2.1.writes.length ≤ s.writes.length + q.length := by
  induction q with
  | nil => intro s; simp [ev_io.flush_loop, queued_bytes]
  | cons itr rest ih =>
    intro s
    have hlen : itr.buf.length ≤ 1500 := hq itr (by simp)
    have ih2 := ih (fun w hw2 => hq w (by simp [hw2]))
    rcases hw s.dev s.errno itr.buf with h1 | ⟨h0, h1⟩
    · simp [ev_io.flush_loop, ev_io.do_write, ev_io.WriteBuffer.bufsz, h1]
    · obtain ⟨k, hk⟩ := Int.eq_ofNat_of_zero_le h0
      have hkn : k ≤ itr.buf.length := by omega
      have e1 : ssize_t_of (size_t_of ((itr.buf.length : Int) - (k : Nat)))
          = ((itr.buf.length - k : Nat) : Int) := ssize_sub_eq _ _ hkn (by omega)
      have e2 : size_t_of ((itr.buf.length : Int) - ((itr.buf.length - k : Nat) : Int))
          = itr.buf.length - (itr.buf.length - k) := size_sub_eq _ _ (by omega) (by omega)
      have e3 : ¬ ((k : Int) = -1) := by omega
      simp only [ev_io.flush_loop, ev_io.do_write, ev_io.WriteBuffer.bufsz, List.take_length,
        hk, e1, e2, e3, if_false, Int.toNat_ofNat, gt_iff_lt, Int.ofNat_pos]
      by_cases hd : 0 < itr.buf.length - k
      · simp only [hd, if_true, List.length_cons, le_refl, true_and, List.length_append,
          List.length_nil]
        constructor
        · simp only [queued_bytes, List.map_cons, List.sum_cons, ev_io.WriteBuffer.bufsz,
            ev_io.WriteBuffer.WriteBuffer, ev_io.WriteBuffer.sizeof_buf]
          split
          · simp only [List.length_take, List.length_drop]
            omega
          · simp
        · omega
      · simp only [hd, if_false]
        split
        · simp only [List.length_cons, List.length_append, List.length_nil]
          refine ⟨by omega, ?_, by omega⟩
          simp [queued_bytes]
        · obtain ⟨i1, i2, i3⟩ := ih2
            { dev := (write s.dev s.errno itr.buf).dev,
              errno := (write s.dev s.errno itr.buf).errno,
              writes := s.writes ++ [itr.buf] }
          refine ⟨by simp only [List.length_cons]; omega, ?_, ?_⟩
          · simp only [queued_bytes, List.map_cons, List.sum_cons] at i2 ⊢
            omega
          · simp only [List.length_append, List.length_cons, List.length_nil] at i3 ⊢
            omega

/-- Claim C14.  On a handle with a lossless queue whose front entry `write` answers
with `-1` (would block, or failure), `flush_write` stops after this one call of
`write` and the handle, and with it the queue, is exactly as before: no entry is
removed, reordered or altered. -/
theorem C14_flush_write_would_block_keeps_queue {Q σ : Type} (ops : CoDelQueue Q σ)
    (write : σ → Nat → List Nat → WriteRet σ) (h : ev_io Q) (s : Sys σ)
    (itr : ev_io.WriteBuffer) (rest : List ev_io.WriteBuffer)
    (hl : h.m_LossyWriteQueue = none) (hb : h.m_BlockingWriteQueue = some (itr :: rest))
    (hw : (write s.dev s.errno itr.buf).result = -1) :
    (ev_io.flush_write ops write h s).1 = h ∧
    (ev_io.flush_write ops write h s).1.m_BlockingWriteQueue = some (itr :: rest) ∧
    (ev_io.flush_write ops write h s).2.writes = s.writes ++ [itr.buf] := by
  cases h with
  | mk lq bq =>
    simp only at hl hb
    subst hl
    subst hb
    simp [ev_io.flush_write, ev_io.flush_loop, ev_io.do_write, ev_io.WriteBuffer.bufsz, hw]

/-- Witness of claim C14: two entries, and a `write` that always would block. -/
theorem C14_flush_write_would_block_keeps_queue_witness :
    (ev_io.flush_write noCoDel blockedWrite
        ({ m_LossyWriteQueue := none,
           m_BlockingWriteQueue := some (⟨0, [1, 2, 3]⟩ :: [⟨0, [9]⟩]) } : ev_io Unit)
        { dev := (), errno := 0, writes := [] }).1
      = { m_LossyWriteQueue := none,
          m_BlockingWriteQueue := some (⟨0, [1, 2, 3]⟩ :: [⟨0, [9]⟩]) } ∧
    (ev_io.flush_write noCoDel blockedWrite
        ({ m_LossyWriteQueue := none,
           m_BlockingWriteQueue := some (⟨0, [1, 2, 3]⟩ :: [⟨0, [9]⟩]) } : ev_io Unit)
        { dev := (), errno := 0, writes := [] }).1.m_BlockingWriteQueue
      = some (⟨0, [1, 2, 3]⟩ :: [⟨0, [9]⟩]) ∧
    (ev_io.flush_write noCoDel blockedWrite
        ({ m_LossyWriteQueue := none,
           m_BlockingWriteQueue := some (⟨0, [1, 2, 3]⟩ :: [⟨0, [9]⟩]) } : ev_io Unit)
        { dev := (), errno := 0, writes := [] }).2.writes = [] ++ [[1, 2, 3]] :=
  C14_flush_write_would_block_keeps_queue noCoDel blockedWrite
    ({ m_LossyWriteQueue := none,
       m_BlockingWriteQueue := some (⟨0, [1, 2, 3]⟩ :: [⟨0, [9]⟩]) } : ev_io Unit)
    { dev := (), errno := 0, writes := [] } ⟨0, [1, 2, 3]⟩ [⟨0, [9]⟩] rfl rfl rfl

/-- Claim C20.  For a handle with a lossless queue `q` whose entries hold at most
1500 bytes each, and a `write` that on every call returns `-1` or a count between
`0` and the requested size: the loop of `flush_write` ends after at most one call
of `write` per queued entry; each turn of the loop either leaves the function
through a `return` or removes the front entry and goes on with the rest; and the
queue left behind has no more entries and no more bytes than `q`. -/
theorem C20_flush_write_terminates_and_shrinks {Q σ : Type} (ops : CoDelQueue Q σ)
    (write : σ → Nat → List Nat → WriteRet σ) (h : ev_io Q) (s : Sys σ)
    (q : List ev_io.WriteBuffer)
    (hl : h.m_LossyWriteQueue = none) (hb : h.m_BlockingWriteQueue = some q)
    (hq : ∀ w ∈ q, w.buf.length ≤ 1500)
    (hw : ∀ d e data, (write d e data).result = -1 ∨
      (0 ≤ (write d e data).result ∧ (write d e data).result ≤ (data.length : Int))) :
    (∃ q1, (ev_io.flush_write ops write h s).1.m_BlockingWriteQueue = some q1 ∧
      q1.length ≤ q.length ∧ queued_bytes q1 ≤ queued_bytes q) ∧
    (ev_io.flush_write ops write h s).2.writes.length ≤ s.writes.length + q.length ∧
    (∀ (s0 : Sys σ) (itr : ev_io.WriteBuffer) (rest : List ev_io.WriteBuffer),
      ((ev_io.flush_loop write s0 (itr :: rest)).1 = true ∧
        (ev_io.flush_loop write s0 (itr :: rest)).2.2.length ≤ (itr :: rest).length) ∨
      ev_io.flush_loop write s0 (itr :: rest)
        = ev_io.flush_loop write (ev_io.do_write write s0 itr.buf itr.bufsz).2 rest) := by
  obtain ⟨b1, b2, b3⟩ := flush_loop_bounds write hw q hq s
  refine ⟨?_, ?_, fun s0 itr rest => flush_loop_turn write s0 itr rest⟩
  · refine ⟨(ev_io.flush_loop write s q).2.2, ?_, b1, b2⟩
    simp only [ev_io.flush_write, hl, hb]
    split <;> rfl
  · simp only [ev_io.flush_write, hl, hb]
    split <;> exact b3

/-- Witness of claim C20: two entries and a `write` that takes two bytes per call. -/
theorem C20_flush_write_terminates_and_shrinks_witness :
    (∃ q1, (ev_io.flush_write noCoDel (shortWrite 2)
        ({ m_LossyWriteQueue := none,
           m_BlockingWriteQueue := some [⟨0, [1, 2, 3]⟩, ⟨0, [9]⟩] } : ev_io Unit)
        { dev := (), errno := 0, writes := [] }).1.m_BlockingWriteQueue = some q1 ∧
      q1.length ≤ [(⟨0, [1, 2, 3]⟩ : ev_io.WriteBuffer), ⟨0, [9]⟩].length ∧
      queued_bytes q1 ≤ queued_bytes [⟨0, [1, 2, 3]⟩, ⟨0, [9]⟩]) ∧
    (ev_io.flush_write noCoDel (shortWrite 2)
        ({ m_LossyWriteQueue := none,
           m_BlockingWriteQueue := some [⟨0, [1, 2, 3]⟩, ⟨0, [9]⟩] } : ev_io Unit)
        { dev := (), errno := 0, writes := [] }).2.writes.length
      ≤ ([] : List (List Nat)).length
        + [(⟨0, [1, 2, 3]⟩ : ev_io.WriteBuffer), ⟨0, [9]⟩].length ∧
    (∀ (s0 : Sys Unit) (itr : ev_io.WriteBuffer) (rest : List ev_io.WriteBuffer),
      ((ev_io.flush_loop (shortWrite 2) s0 (itr :: rest)).1 = true ∧
        (ev_io.flush_loop (shortWrite 2) s0 (itr :: rest)).2.2.length
          ≤ (itr :: rest).length) ∨
      ev_io.flush_loop (shortWrite 2) s0 (itr :: rest)
        = ev_io.flush_loop (shortWrite 2)
            (ev_io.do_write (shortWrite 2) s0 itr.buf itr.bufsz).2 rest) :=
  C20_flush_write_terminates_and_shrinks noCoDel (shortWrite 2)
    ({ m_LossyWriteQueue := none,
       m_BlockingWriteQueue := some [⟨0, [1, 2, 3]⟩, ⟨0, [9]⟩] } : ev_io Unit)
    { dev := (), errno := 0, writes := [] } [⟨0, [1, 2, 3]⟩, ⟨0, [9]⟩] rfl rfl
    (by decide)
    (fun _ _ data => Or.inr ⟨by simp [shortWrite], by simp [shortWrite]⟩)

/-- On a handle with a lossy queue `flush_write` is one call of `Process` of that
queue, with a visitor that hands the bytes of the entry to `do_write`; afterwards
`errno` is `0` and the lossless queue is untouched. -/
theorem flush_write_lossy {Q σ : Type} (ops : CoDelQueue Q σ)
    (write : σ → Nat → List Nat → WriteRet σ) (h : ev_io Q) (s : Sys σ) (q : Q)
    (hl : h.m_LossyWriteQueue = some q) :
    ev_io.flush_write ops write h s =
      ({ h with m_LossyWriteQueue := some (ops.Process q
            (fun buffer s0 => (ev_io.do_write write s0 buffer.buf buffer.bufsz).2) s).1 },
       { (ops.Process q
            (fun buffer s0 => (ev_io.do_write write s0 buffer.buf buffer.bufsz).2) s).2 with
          errno := 0 }) := by
  simp [ev_io.flush_write, hl]

end llarp

/-! # Properties of the request parser -/

namespace abyss.http

/-! ## Strings -/

/-- Scanning for `ch` stops right before its first occurrence. -/
theorem takeWhile_ne_append (m rest : List Char) (ch : Char) (hm : ch ∉ m) :
    (m ++ ch :: rest).takeWhile (fun x => x != ch) = m := by
  induction m with
  | nil => simp
  | cons a m ih =>
    have ha : a ≠ ch := fun h => hm (by simp [h])
    have hm2 : ch ∉ m := fun h => hm (by simp [h])
    simp [List.takeWhile_cons, ha, ih hm2]

/-- The first occurrence of `ch` in `m ++ ch :: rest`, when `m` has none, is at
offset `m.length`. -/
theorem find_first_of_append (m rest : List Char) (ch : Char) (hm : ch ∉ m) :
    find_first_of (m ++ ch :: rest) ch = some m.length := by
  unfold find_first_of
  rw [if_pos (by simp), takeWhile_ne_append m rest ch hm]

/-- A string without `ch` has no position of `ch`. -/
theorem find_first_of_none (s : List Char) (ch : Char) (h : ch ∉ s) :
    find_first_of s ch = none := by
  unfold find_first_of
  rw [if_neg h]

/-- Every string that contains `ch` splits at the first occurrence of `ch`. -/
theorem split_at_first (s : List Char) (ch : Char) (h : ch ∈ s) :
    ∃ m rest, s = m ++ ch :: rest ∧ ch ∉ m := by
  induction s with
  | nil => simp at h
  | cons a s ih =>
    by_cases ha : a = ch
    · exact ⟨[], s, by simp [ha], by simp⟩
    · have hs : ch ∈ s := by
        rcases List.mem_cons.mp h with h1 | h1
        · exact absurd h1.symm ha
        · exact h1
      obtain ⟨m, rest, e, hm⟩ := ih hs
      refine ⟨a :: m, rest, by simp [e], ?_⟩
      intro hmem
      rcases List.mem_cons.mp hmem with h1 | h1
      · exact ha h1.symm
      · exact hm h1

/-- The call `substr(0, n)` never throws and takes the first `n` characters. -/
theorem substr_zero (s : List Char) (n : Nat) : substr s 0 n = .ok (s.take n) := by
  simp [substr]

/-- The call `substr(p)` with `p` within the string drops the first `p` characters. -/
theorem substr_from_some (s : List Char) (p : Nat) (h : p ≤ s.length) :
    substr_from s (some p) = .ok (s.drop p) := by
  simp [substr_from, Nat.not_lt.mpr h]

/-- A string that starts with a character other than `ch` has its first character
other than `ch` at offset `0`. -/
theorem find_first_not_of_cons (a : Char) (s : List Char) (ch : Char) (h : a ≠ ch) :
    find_first_not_of (a :: s) ch = some 0 := by
  simp [find_first_not_of, h]

/-- A string without `NUL` is its own C string. -/
theorem c_str_eq (s : List Char) (h : NUL ∉ s) : c_str s = s := by
  unfold c_str
  rw [List.takeWhile_eq_self_iff]
  intro x hx
  have : x ≠ NUL := fun e => h (e ▸ hx)
  simpa using this

/-! ## Method and header lines -/

/-- The method line `m ++ " " ++ p ++ " " ++ rest` with no space in `m` and `p`:
`ProcessMethodLine` returns `true`, stores `m` and `p` and enters
`eReadHTTPHeaders`. -/
theorem ProcessMethodLine_split {κ : Type} (c : ConnImpl κ) (m p rest : List Char)
    (hm : ' ' ∉ m) (hp : ' ' ∉ p) :
    c.ProcessMethodLine (m ++ ' ' :: (p ++ ' ' :: rest)) =
      .ok (true, p ++ ' ' :: rest,
        { c with m_Header := { c.m_Header with Method := m, Path := p },
                 m_State := .eReadHTTPHeaders }) := by
  unfold ConnImpl.ProcessMethodLine
  rw [find_first_of_append m _ ' ' hm]
  simp only [substr_zero, List.take_left']
  rw [substr_from_some _ _ (by simp)]
  have hd : (m ++ ' ' :: (p ++ ' ' :: rest)).drop (m.length + 1) = p ++ ' ' :: rest := by
    rw [show m ++ ' ' :: (p ++ ' ' :: rest) = (m ++ [' ']) ++ (p ++ ' ' :: rest) by simp]
    exact List.drop_left' (by simp)
  simp only [hd, find_first_of_append p _ ' ' hp, substr_zero, List.take_left']

/-- A line with at least two spaces splits at its first two spaces. -/
theorem split_two_spaces (line : List Char) (h : 2 ≤ line.count ' ') :
    ∃ m p rest, line = m ++ ' ' :: (p ++ ' ' :: rest) ∧ ' ' ∉ m ∧ ' ' ∉ p := by
  have h1 : ' ' ∈ line := List.count_pos_iff.mp (by omega)
  obtain ⟨m, r1, e1, hm⟩ := split_at_first line ' ' h1
  have hc : r1.count ' ' = line.count ' ' - 1 := by
    rw [e1, List.count_append, List.count_cons_self, List.count_eq_zero_of_not_mem hm]
    omega
  have h2 : ' ' ∈ r1 := List.count_pos_iff.mp (by omega)
  obtain ⟨p, rest, e2, hp⟩ := split_at_first r1 ' ' h2
  exact ⟨m, p, rest, by rw [e1, e2], hm, hp⟩

/-- A line with fewer than two spaces: `ProcessMethodLine` returns `false`; the
phase, the poisoned flag, the transport and both records stay as they are. -/
theorem ProcessMethodLine_few_spaces {κ : Type} (c : ConnImpl κ) (line : List Char)
    (h : line.count ' ' < 2) :
    ∃ l1 c1, c.ProcessMethodLine line = .ok (false, l1, c1) ∧ c1.m_State = c.m_State ∧
      c1.m_Bad = c.m_Bad ∧ c1.queued = c.queued ∧ c1.bodies = c.bodies ∧
      c1._conn = c._conn := by
  by_cases h1 : ' ' ∈ line
  · obtain ⟨m, r1, e1, hm⟩ := split_at_first line ' ' h1
    have hr : ' ' ∉ r1 := by
      intro h2
      have : 0 < r1.count ' ' := List.count_pos_iff.mpr h2
      rw [e1, List.count_append, List.count_cons_self] at h
      omega
    subst e1
    unfold ConnImpl.ProcessMethodLine
    rw [find_first_of_append m _ ' ' hm]
    simp only [substr_zero, List.take_left']
    rw [substr_from_some _ _ (by simp)]
    have hd : (m ++ ' ' :: r1).drop (m.length + 1) = r1 := by
      rw [show m ++ ' ' :: r1 = (m ++ [' ']) ++ r1 by simp]
      exact List.drop_left' (by simp)
    simp only [hd, find_first_of_none r1 ' ' hr]
    exact ⟨_, _, rfl, rfl, rfl, rfl, rfl, rfl⟩
  · unfold ConnImpl.ProcessMethodLine
    rw [find_first_of_none line ' ' h1]
    exact ⟨_, _, rfl, rfl, rfl, rfl, rfl, rfl⟩

/-- The header line `name ++ ":" ++ rest` with no colon in `name`:
`ProcessHeaderLine` returns `true` and inserts the lower-cased name with the
value `":" ++ rest`, the text from the colon on. -/
theorem ProcessHeaderLine_split {κ : Type} (c : ConnImpl κ) (name rest : List Char)
    (hn : ':' ∉ name) :
    c.ProcessHeaderLine (name ++ ':' :: rest) =
      .ok (true, name ++ ':' :: rest,
        { c with m_Header := { c.m_Header with
            Headers := c.m_Header.Headers ++ [(tolower name, ':' :: rest)] } }) := by
  unfold ConnImpl.ProcessHeaderLine
  rw [find_first_of_append name _ ':' hn]
  simp only [substr_zero, List.take_left']
  rw [substr_from_some _ _ (by simp)]
  simp only [List.drop_left', ConnImpl.ShouldProcessHeader, if_true]
  rw [find_first_not_of_cons ':' rest ' ' (by decide), substr_from_some _ _ (by simp)]
  simp

/-- Claim C8.  For every line with at least two spaces `ProcessMethodLine` returns
`true`; the line splits as `m ++ " " ++ p ++ " " ++ rest` with no space in `m` and
`p`, the method becomes `m` (the text before the first space), the path becomes
`p` (the text strictly between the first and the second space), the phase becomes
`eReadHTTPHeaders`, and nothing else of the connection changes. -/
theorem C8_ProcessMethodLine_two_spaces {κ : Type} (c : ConnImpl κ) (line : List Char)
    (h : 2 ≤ line.count ' ') :
    ∃ m p rest, line = m ++ ' ' :: (p ++ ' ' :: rest) ∧ ' ' ∉ m ∧ ' ' ∉ p ∧
      c.ProcessMethodLine line =
        .ok (true, p ++ ' ' :: rest,
          { c with m_Header := { c.m_Header with Method := m, Path := p },
                   m_State := .eReadHTTPHeaders }) := by
  obtain ⟨m, p, rest, e, hm, hp⟩ := split_two_spaces line h
  exact ⟨m, p, rest, e, hm, hp, e ▸ ProcessMethodLine_split c m p rest hm hp⟩

/-- Witness of claim C8: the line `POST /x HTTP/1.0`. -/
theorem C8_ProcessMethodLine_two_spaces_witness :
    ∃ m p rest, "POST /x HTTP/1.0".toList = m ++ ' ' :: (p ++ ' ' :: rest) ∧
      ' ' ∉ m ∧ ' ' ∉ p ∧
      (ConnImpl.ctor () 0 1000).ProcessMethodLine "POST /x HTTP/1.0".toList =
        .ok (true, p ++ ' ' :: rest,
          { ConnImpl.ctor () 0 1000 with
              m_Header := { (ConnImpl.ctor () 0 1000).m_Header with Method := m, Path := p },
              m_State := .eReadHTTPHeaders }) :=
  C8_ProcessMethodLine_two_spaces (ConnImpl.ctor () 0 1000) "POST /x HTTP/1.0".toList
    (by decide)

/-- Claim C5 (evaluation of the code at the failing input).  For the header line
`Content-Length: 2` the value stored under the key `content-length` is `: 2`, the
text from the colon on, and not the left-trimmed text `2` after the colon. -/
theorem C5_ProcessHeaderLine_value_keeps_colon :
    ((ConnImpl.ctor () 0 1000).ProcessHeaderLine "Content-Length: 2".toList).map
        (fun r => (r.1, r.2.2.m_Header.Headers))
      = .ok (true, [("content-length".toList, ": 2".toList)])
    ∧ ": 2".toList ≠ "2".toList := by
  constructor
  · rfl
  · decide

/-! ## Response emission -/

/-- A formatted text of at most 127 characters fits the 128-character buffer:
the first `sz` characters of the buffer are the text. -/
theorem snprintf128_fits (t : List Char) (h : t.length ≤ 127) :
    (snprintf128 t).2.take (snprintf128 t).1 = t := by
  unfold snprintf128
  simp only
  rw [List.take_of_length_le h]
  exact List.take_left' rfl

/-- An accepted write on a live connection appends the bytes to the record of
queued byte strings and changes nothing else but the transport. -/
theorem async_write_accepted {κ : Type} (aw : κ → List Char → Bool × κ)
    (hacc : ∀ k d, (aw k d).1 = true) (c : ConnImpl κ) (k : κ) (hk : c._conn = some k)
    (data : List Char) :
    c.async_write aw data =
      (true, { c with _conn := some (aw k data).2, queued := c.queued ++ [data] }) := by
  unfold ConnImpl.async_write
  simp [hk, hacc]

/-- The status line, as formatted by `WriteStatusLine`. -/
theorem WriteStatusLine_accepted {κ : Type} (aw : κ → List Char → Bool × κ)
    (hacc : ∀ k d, (aw k d).1 = true) (c : ConnImpl κ) (k : κ) (hk : c._conn = some k)
    (code : Int) (msg : List Char) (hmsg : NUL ∉ msg)
    (hlen : ("HTTP/1.0 ".toList ++ fmt_d code ++ " ".toList ++ msg ++ CRLF).length ≤ 127) :
    c.WriteStatusLine aw code msg =
      (true, { c with
        _conn := some (aw k ("HTTP/1.0 ".toList ++ fmt_d code ++ " ".toList ++ msg ++ CRLF)).2,
        queued := c.queued ++ ["HTTP/1.0 ".toList ++ fmt_d code ++ " ".toList ++ msg ++ CRLF] }) := by
  unfold ConnImpl.WriteStatusLine
  simp only [c_str_eq msg hmsg]
  rw [snprintf128_fits _ hlen, if_pos (by simp [snprintf128, CRLF])]
  exact async_write_accepted aw hacc c k hk _

/-- The complete response of `WriteResponseSimple` on a live connection whose
transport accepts every write, for C strings without embedded terminator and
lines that fit the line buffer: four byte strings are queued, in this order the
status line, the `Content-Type` line, the `Content-Length` line with the blank
line, and the body; the phase becomes `eWriteHTTPBody`. -/
theorem WriteResponseSimple_accepted {κ : Type} (aw : κ → List Char → Bool × κ)
    (hacc : ∀ k d, (aw k d).1 = true) (c : ConnImpl κ) (k : κ) (hk : c._conn = some k)
    (code : Int) (msg mime body : List Char)
    (hmsg : NUL ∉ msg) (hmime : NUL ∉ mime) (hbody : NUL ∉ body)
    (h1 : ("HTTP/1.0 ".toList ++ fmt_d code ++ " ".toList ++ msg ++ CRLF).length ≤ 127)
    (h2 : ("Content-Type: ".toList ++ mime ++ CRLF).length ≤ 127)
    (h3 : ("Content-Length: ".toList ++ fmt_zu body.length ++ CRLFCRLF).length ≤ 127) :
    ∃ k1, c.WriteResponseSimple aw code msg mime body =
      (true, { c with
        _conn := some k1,
        queued := c.queued ++
          ["HTTP/1.0 ".toList ++ fmt_d code ++ " ".toList ++ msg ++ CRLF,
           "Content-Type: ".toList ++ mime ++ CRLF,
           "Content-Length: ".toList ++ fmt_zu body.length ++ CRLFCRLF,
           body],
        m_State := .eWriteHTTPBody }) := by
  unfold ConnImpl.WriteResponseSimple
  simp only [WriteStatusLine_accepted aw hacc c k hk code msg hmsg h1, strlen,
    c_str_eq mime hmime, c_str_eq body hbody, List.take_length]
  rw [snprintf128_fits _ h2, snprintf128_fits _ h3]
  simp only [ConnImpl.async_write, hacc, snprintf128, CRLF, CRLFCRLF, if_true, Bool.not_true,
    Bool.false_eq_true, if_false, List.length_append, List.length_cons, List.length_nil,
    List.append_assoc, List.cons_append, List.nil_append, List.singleton_append]
  rw [if_neg (by omega), if_neg (by omega)]
  exact ⟨_, rfl⟩

/-- Claim C9.  `WriteResponseSimple(code, reason, mime, body)` on a live connection,
for C strings without embedded terminator, when each of the three formatted lines
fits the 128-byte line buffer (at most 127 characters) and every queue write is
accepted: the call returns `true` and appends to the queue, in order, four byte
strings whose concatenation is `HTTP/1.0 <code> <reason>CRLF` then
`Content-Type: <mime>CRLF` then `Content-Length: <n>CRLF CRLF` then the body,
with `<n>` the decimal length of the body; the phase becomes `eWriteHTTPBody`. -/
theorem C9_WriteResponseSimple_wire_format {κ : Type} (aw : κ → List Char → Bool × κ)
    (c : ConnImpl κ) (k : κ) (code : Int) (msg mime body : List Char)
    (hacc : ∀ k d, (aw k d).1 = true) (hk : c._conn = some k)
    (hmsg : NUL ∉ msg) (hmime : NUL ∉ mime) (hbody : NUL ∉ body)
    (h1 : ("HTTP/1.0 ".toList ++ fmt_d code ++ " ".toList ++ msg ++ CRLF).length ≤ 127)
    (h2 : ("Content-Type: ".toList ++ mime ++ CRLF).length ≤ 127)
    (h3 : ("Content-Length: ".toList ++ fmt_zu body.length ++ CRLFCRLF).length ≤ 127) :
    ∃ chunks,
      (c.WriteResponseSimple aw code msg mime body).1 = true ∧
      (c.WriteResponseSimple aw code msg mime body).2.queued = c.queued ++ chunks ∧
      (c.WriteResponseSimple aw code msg mime body).2.m_State = .eWriteHTTPBody ∧
      chunks.flatten =
        "HTTP/1.0 ".toList ++ fmt_d code ++ " ".toList ++ msg ++ "\r\n".toList
          ++ ("Content-Type: ".toList ++ mime ++ "\r\n".toList)
          ++ ("Content-Length: ".toList ++ Nat.toDigits 10 body.length ++ "\r\n\r\n".toList)
          ++ body := by
  obtain ⟨k1, e⟩ := WriteResponseSimple_accepted aw hacc c k hk code msg mime body
    hmsg hmime hbody h1 h2 h3
  refine ⟨["HTTP/1.0 ".toList ++ fmt_d code ++ " ".toList ++ msg ++ CRLF,
           "Content-Type: ".toList ++ mime ++ CRLF,
           "Content-Length: ".toList ++ fmt_zu body.length ++ CRLFCRLF,
           body], ?_, ?_, ?_, ?_⟩
  · rw [e]
  · rw [e]
  · rw [e]
  · simp [CRLF, CRLFCRLF, fmt_zu]

/-- Witness of claim C9: the response `200 OK`, `text/json`, body of two braces. -/
theorem C9_WriteResponseSimple_wire_format_witness :
    ∃ chunks,
      ((ConnImpl.ctor () 0 1000).WriteResponseSimple acceptAll 200 "OK".toList
          "text/json".toList "\x7b\x7d".toList).1 = true ∧
      ((ConnImpl.ctor () 0 1000).WriteResponseSimple acceptAll 200 "OK".toList
          "text/json".toList "\x7b\x7d".toList).2.queued
        = (ConnImpl.ctor () 0 1000).queued ++ chunks ∧
      ((ConnImpl.ctor () 0 1000).WriteResponseSimple acceptAll 200 "OK".toList
          "text/json".toList "\x7b\x7d".toList).2.m_State = .eWriteHTTPBody ∧
      chunks.flatten =
        "HTTP/1.0 ".toList ++ fmt_d 200 ++ " ".toList ++ "OK".toList ++ "\r\n".toList
          ++ ("Content-Type: ".toList ++ "text/json".toList ++ "\r\n".toList)
          ++ ("Content-Length: ".toList ++ Nat.toDigits 10 "\x7b\x7d".toList.length
                ++ "\r\n\r\n".toList)
          ++ "\x7b\x7d".toList :=
  C9_WriteResponseSimple_wire_format acceptAll (ConnImpl.ctor () 0 1000) () 200
    "OK".toList "text/json".toList "\x7b\x7d".toList
    (fun _ _ => rfl) rfl (by decide) (by decide) (by decide) (by decide) (by decide)
    (by decide)

/-- What `FeedBody` does on a live connection whose transport accepts every
write: it returns `true`, records the body, queues the response `400` when the
body is empty or the method is not `POST` and the response `200` otherwise, and
enters `eWriteHTTPBody`. -/
theorem FeedBody_accepted {κ : Type} (aw : κ → List Char → Bool × κ)
    (hacc : ∀ k d, (aw k d).1 = true) (c : ConnImpl κ) (k : κ) (hk : c._conn = some k)
    (buf : List Char) :
    ∃ k1, c.FeedBody aw buf =
      (true, { c with
        _conn := some k1,
        bodies := c.bodies ++ [buf],
        queued := c.queued ++
          (if buf = [] ∨ c.m_Header.Method ≠ "POST".toList then response400 else response200),
        m_State := .eWriteHTTPBody }) := by
  unfold ConnImpl.FeedBody
  by_cases hb : buf = []
  · subst hb
    obtain ⟨k1, e⟩ := WriteResponseSimple_accepted aw hacc { c with bodies := c.bodies ++ [[]] }
      k hk 400 "Bad Request".toList "text/plain".toList "nope".toList
      (by decide) (by decide) (by decide) (by decide) (by decide) (by decide)
    refine ⟨k1, ?_⟩
    simp only [List.length_nil, if_true, true_or]
    rw [e]
    rfl
  · have hlen : ¬ buf.length = 0 := fun h => hb (List.length_eq_zero.mp h)
    by_cases hm : c.m_Header.Method = "POST".toList
    · obtain ⟨k1, e⟩ := WriteResponseSimple_accepted aw hacc
        { c with bodies := c.bodies ++ [buf] }
        k hk 200 "OK".toList "text/json".toList "\x7b\x7d".toList
        (by decide) (by decide) (by decide) (by decide) (by decide) (by decide)
      refine ⟨k1, ?_⟩
      simp only [hlen, if_false, hm, ne_eq, not_true_eq_false, hb, or_self]
      rw [e]
      rfl
    · obtain ⟨k1, e⟩ := WriteResponseSimple_accepted aw hacc
        { c with bodies := c.bodies ++ [buf] }
        k hk 400 "Bad Request".toList "text/plain".toList "nope".toList
        (by decide) (by decide) (by decide) (by decide) (by decide) (by decide)
      refine ⟨k1, ?_⟩
      simp only [hlen, if_false, hm, ne_eq, not_false_eq_true, if_true, hb, or_true]
      rw [e]
      rfl

/-! ## Reads -/

/-- A read on a poisoned connection fails and changes nothing. -/
theorem OnRead_bad {κ : Type} (aw : κ → List Char → Bool × κ) (now : Nat)
    (c : ConnImpl κ) (buf : List Char) (hb : c.m_Bad = true) :
    c.OnRead aw now buf = .ok c := by
  cases c
  simp_all [ConnImpl.OnRead, ConnImpl.ProcessRead, ConnImpl.MarkBad]

/-- Any sequence of reads on a poisoned connection changes nothing. -/
theorem OnReads_bad {κ : Type} (aw : κ → List Char → Bool × κ)
    (reads : List (Nat × List Char)) :
    ∀ c : ConnImpl κ, c.m_Bad = true → ConnImpl.OnReads aw c reads = .ok c := by
  induction reads with
  | nil => intro c _; rfl
  | cons r rs ih =>
    intro c hb
    simp only [ConnImpl.OnReads, OnRead_bad aw r.1 c r.2 hb]
    exact ih c hb

/-- No single byte holds the two characters of a line terminator. -/
theorem strstr_single (b : Char) : strstr (c_str [b]) CRLF = none := by
  by_cases h : b = NUL
  · subst h
    rfl
  · have : c_str [b] = [b] := c_str_eq [b] (by simpa using fun e => h e.symm)
    rw [this]
    simp [strstr, CRLF, List.isPrefixOf]

/-- A read of one byte on a connection that is not poisoned and has not reached
the body: the read fails for want of a line terminator and poisons the
connection; only the time of last activity changes besides. -/
theorem OnRead_single_byte {κ : Type} (aw : κ → List Char → Bool × κ) (now : Nat)
    (c : ConnImpl κ) (b : Char) (hb : c.m_Bad = false)
    (hs : c.m_State.toNat < HTTPState.eReadHTTPBody.toNat) :
    c.OnRead aw now [b] = .ok { c with m_LastActive := now, m_Bad := true } := by
  simp [ConnImpl.OnRead, ConnImpl.ProcessRead, hb, hs, strstr_single, ConnImpl.MarkBad]

/-- Claim C4 (counterexample).  The request `POST /x HTTP/1.0`, `Content-Length: 2`,
body `hi` delivered to a fresh connection one byte per read does not leave the
state (method, path, header map, bodies handed to `FeedBody`, phase, poisoned
flag) that the delivery in a single read leaves. -/
theorem C4_chunking_invariance_counterexample :
    ¬ (((ConnImpl.ctor () 0 1000).OnReads acceptAll (bytewise 5 postRequest)).map
          ConnImpl.parsed
        = ((ConnImpl.ctor () 0 1000).OnRead acceptAll 5 postRequest).map ConnImpl.parsed) := by
  have h1 : ((ConnImpl.ctor () 0 1000).OnReads acceptAll (bytewise 5 postRequest)).map
      ConnImpl.parsed = .ok ([], [], [], [], .eReadHTTPMethodLine, true) := rfl
  have h2 : ((ConnImpl.ctor () 0 1000).OnRead acceptAll 5 postRequest).map ConnImpl.parsed
      = .ok ("POST".toList, "/x".toList, [("content-length".toList, ": 2".toList)],
          ["hi".toList], .eWriteHTTPBody, false) := rfl
  rw [h1, h2]
  intro e
  have h3 := congrArg (fun p => p.2.2.2.2.2) (Except.ok.inj e)
  exact absurd h3 (by decide)

/-- Claim C4 (amended).  Chunking invariance fails by the guard of `ProcessRead` on
reads without line terminator.  Reads of one byte each, at least one, delivered
to a fresh connection poison it at the first byte: at the end the method, the
path and the header map are empty, no body was handed to `FeedBody`, the phase
is `eReadHTTPMethodLine` and the poisoned flag is set.  The request
`POST /x HTTP/1.0`, `Content-Length: 2`, body `hi` delivered in a single read
leaves method `POST`, path `/x`, one header with key `content-length`, the body
`hi` handed to `FeedBody` once, phase `eWriteHTTPBody`, and no poison. -/
theorem C4_bytewise_delivery_poisons {κ : Type} (aw : κ → List Char → Bool × κ) (k : κ)
    (t0 timeout : Nat) (reads : List (Nat × List Char))
    (hne : reads ≠ []) (hone : ∀ r ∈ reads, r.2.length = 1) :
    ((ConnImpl.ctor k t0 timeout).OnReads aw reads).map ConnImpl.parsed
      = .ok ([], [], [], [], .eReadHTTPMethodLine, true)
    ∧ ((ConnImpl.ctor () 0 1000).OnRead acceptAll 5 postRequest).map
        (fun c => (c.m_Header.Method, c.m_Header.Path, c.m_Header.Headers.map Prod.fst,
                   c.bodies, c.m_State, c.m_Bad))
      = .ok ("POST".toList, "/x".toList, ["content-length".toList], ["hi".toList],
             .eWriteHTTPBody, false) := by
  constructor
  · cases reads with
    | nil => exact absurd rfl hne
    | cons r rs =>
      obtain ⟨now, bytes⟩ := r
      have hlen : bytes.length = 1 := hone (now, bytes) (by simp)
      obtain ⟨b, rfl⟩ := List.length_eq_one.mp hlen
      simp only [ConnImpl.OnReads]
      rw [OnRead_single_byte aw now (ConnImpl.ctor k t0 timeout) b rfl
        (show (0 : Nat) < 2 by decide)]
      simp only
      rw [OnReads_bad aw rs _ rfl]
      rfl
  · rfl

/-- Witness of claim C4 (amended): the three bytes `G`, `E`, `T` delivered one per
read. -/
theorem C4_bytewise_delivery_poisons_witness :
    ((ConnImpl.ctor () 0 1000).OnReads acceptAll (bytewise 5 "GET".toList)).map
        ConnImpl.parsed
      = .ok ([], [], [], [], .eReadHTTPMethodLine, true)
    ∧ ((ConnImpl.ctor () 0 1000).OnRead acceptAll 5 postRequest).map
        (fun c => (c.m_Header.Method, c.m_Header.Path, c.m_Header.Headers.map Prod.fst,
                   c.bodies, c.m_State, c.m_Bad))
      = .ok ("POST".toList, "/x".toList, ["content-length".toList], ["hi".toList],
             .eWriteHTTPBody, false) :=
  C4_bytewise_delivery_poisons acceptAll () 0 1000 (bytewise 5 "GET".toList)
    (by decide) (by decide)

/-- Claim C10 (counterexample).  The connection `answered` is the one that has read
the request `postRequest` and has queued its response; its phase is
`eWriteHTTPBody`.  A further read of the byte `x` does not leave the queue and
the record of bodies as they were: the bytes are handed to `FeedBody` and a
second response is queued. -/
theorem C10_second_read_counterexample :
    (ConnImpl.ctor () 0 1000).OnRead acceptAll 5 postRequest = .ok answered
    ∧ answered.m_State = .eWriteHTTPBody
    ∧ ¬ ((answered.OnRead acceptAll 6 "x".toList).map (fun c => (c.queued, c.bodies))
          = .ok (answered.queued, answered.bodies)) := by
  refine ⟨rfl, rfl, ?_⟩
  have h : (answered.OnRead acceptAll 6 "x".toList).map (fun c => (c.queued, c.bodies))
      = .ok (response200 ++ response200, ["hi".toList, "x".toList]) := rfl
  rw [h]
  intro e
  exact absurd (Except.ok.inj e) (by decide)

/-- Claim C10 (amended).  On a connection that is not poisoned, has a live transport
that accepts every write, and is in one of the write phases, a further read
succeeds and changes neither method, path nor headers; the bytes read are handed
to `FeedBody` once more, which queues one more complete response (`400` when the
read is empty or the method is not `POST`, `200` otherwise) and sets the phase to
`eWriteHTTPBody`; the time of last activity becomes the time of the read. -/
theorem C10_read_in_write_phase {κ : Type} (aw : κ → List Char → Bool × κ)
    (c : ConnImpl κ) (k : κ) (now : Nat) (buf : List Char)
    (hacc : ∀ k d, (aw k d).1 = true) (hk : c._conn = some k) (hbad : c.m_Bad = false)
    (hph : c.m_State = .eWriteHTTPStatusLine ∨ c.m_State = .eWriteHTTPHeaders ∨
           c.m_State = .eWriteHTTPBody) :
    ∃ k1, c.ProcessRead aw now buf =
      .ok (true, { c with
        _conn := some k1,
        m_LastActive := now,
        bodies := c.bodies ++ [buf],
        queued := c.queued ++
          (if buf = [] ∨ c.m_Header.Method ≠ "POST".toList then response400 else response200),
        m_State := .eWriteHTTPBody }) := by
  have hs : ¬ (c.m_State.toNat < HTTPState.eReadHTTPBody.toNat) := by
    rcases hph with h | h | h <;> rw [h] <;> decide
  obtain ⟨k1, e⟩ := FeedBody_accepted aw hacc { c with m_LastActive := now } k hk buf
  refine ⟨k1, ?_⟩
  unfold ConnImpl.ProcessRead
  rw [if_neg (by simp [hbad])]
  simp only [hs, if_false]
  rw [e]

/-- Witness of claim C10 (amended): the connection `answered` reads the byte `x`. -/
theorem C10_read_in_write_phase_witness :
    ∃ k1, answered.ProcessRead acceptAll 6 "x".toList =
      .ok (true, { answered with
        _conn := some k1,
        m_LastActive := 6,
        bodies := answered.bodies ++ ["x".toList],
        queued := answered.queued ++
          (if "x".toList = [] ∨ answered.m_Header.Method ≠ "POST".toList then response400
           else response200),
        m_State := .eWriteHTTPBody }) :=
  C10_read_in_write_phase acceptAll answered () 6 "x".toList (fun _ _ => rfl) rfl rfl
    (Or.inr (Or.inr rfl))

/-! ## The line loop -/

/-- Taking the characters before `ch` and then as many of them as were taken
gives the characters before `ch`. -/
theorem take_length_takeWhile (l : List Char) (p : Char → Bool) :
    l.take (l.takeWhile p).length = l.takeWhile p := by
  induction l with
  | nil => rfl
  | cons a l ih =>
    by_cases h : p a = true
    · simp [List.takeWhile_cons, h, ih]
    · simp [List.takeWhile_cons, h]

/-- The first character of a scanned prefix is the first character of the string. -/
theorem head?_takeWhile (l : List Char) (p : Char → Bool) (a : Char)
    (h : (l.takeWhile p).head? = some a) : l.head? = some a := by
  cases l with
  | nil => simp at h
  | cons b l =>
    by_cases hb : p b = true
    · simpa [List.takeWhile_cons, hb] using h
    · simp [List.takeWhile_cons, hb] at h

/-- The text before the first carriage return of the text before the first line
feed of `L ++ CR ...` is a prefix of `L`. -/
theorem first_line_prefix (L X : List Char) :
    ((L ++ '\r' :: X).takeWhile (fun x => x != '\n')).takeWhile (fun x => x != '\r') <+: L := by
  induction L with
  | nil => simp [List.takeWhile_cons]
  | cons a L ih =>
    by_cases h1 : a = '\n'
    · simp [List.takeWhile_cons, h1]
    · by_cases h2 : a = '\r'
      · simp [List.takeWhile_cons, h2]
      · simp only [List.cons_append, List.takeWhile_cons, bne_iff_ne, ne_eq, h1,
          not_false_eq_true, if_true, h2]
        exact (List.prefix_cons_inj a).mpr ih

/-- The call `getline` on a good stream whose unread characters hold a line feed:
the line is the text before the first line feed, and no state bit is set. -/
theorem getline_of_mem (ss : stringstream) (line0 : List Char)
    (he : ss.eofbit = false) (hf : ss.failbit = false)
    (hmem : '\n' ∈ ss.buf.drop ss.gpos) :
    ss.getline line0 '\n' =
      ({ ss with gpos := ss.gpos
                  + ((ss.buf.drop ss.gpos).takeWhile (fun x => x != '\n')).length + 1 },
       (ss.buf.drop ss.gpos).takeWhile (fun x => x != '\n')) := by
  unfold stringstream.getline stringstream.good
  simp [he, hf, hmem]

/-- The first turn of the line loop in phase `eReadHTTPMethodLine` on a stream
that holds `L ++ CRLF ++ rest` unread from its start, where `L` has fewer than
two spaces and the characters do not start with a carriage return: the loop
returns `false`; phase, queue and record of bodies are as before. -/
theorem read_loop_bad_first_line {κ : Type} (aw : κ → List Char → Bool × κ) (fuel : Nat)
    (c : ConnImpl κ) (line0 L rest : List Char) (p : Nat)
    (hs : c.m_State = .eReadHTTPMethodLine)
    (hbuf : c.m_ReadBuf = { buf := L ++ CRLF ++ rest, gpos := 0, ppos := p,
                            eofbit := false, failbit := false })
    (hL : L.count ' ' < 2) (hhead : (L ++ CRLF ++ rest).head? ≠ some '\r') :
    ∃ c1, ConnImpl.read_loop aw (fuel + 1) c line0 = .ok (false, c1) ∧
      c1.m_State = .eReadHTTPMethodLine ∧ c1.m_Bad = c.m_Bad ∧ c1.queued = c.queued ∧
      c1.bodies = c.bodies := by
  obtain ⟨conn, la, rt, bad, hdr, rb, st, qd, bd⟩ := c
  simp only at hs hbuf
  subst hs
  subst hbuf
  have hmem : '\n' ∈ (L ++ CRLF ++ rest).drop 0 := by simp [CRLF]
  have hg := getline_of_mem
    { buf := L ++ CRLF ++ rest, gpos := 0, ppos := p, eofbit := false, failbit := false }
    line0 rfl rfl hmem
  simp only [List.drop_zero] at hg
  have hh : ((L ++ CRLF ++ rest).takeWhile (fun x => x != '\n')).head? ≠ some '\r' :=
    fun h => hhead (head?_takeWhile _ _ _ h)
  unfold ConnImpl.read_loop
  simp only [hg, Bool.false_eq_true, if_false, hh]
  cases hfind : find_first_of ((L ++ CRLF ++ rest).takeWhile (fun x => x != '\n')) '\r' with
  | none => exact ⟨_, rfl, rfl, rfl, rfl, rfl⟩
  | some pos =>
    have hpos : pos = (((L ++ CRLF ++ rest).takeWhile (fun x => x != '\n')).takeWhile
        (fun x => x != '\r')).length := by
      unfold find_first_of at hfind
      split at hfind
      · exact (Option.some.inj hfind).symm
      · exact absurd hfind (by simp)
    have hpre := first_line_prefix L ('\n' :: rest)
    have hpre2 : ((L ++ CRLF ++ rest).takeWhile (fun x => x != '\n')).takeWhile
        (fun x => x != '\r') <+: L := by
      simpa [CRLF] using hpre
    have hcount : (((L ++ CRLF ++ rest).takeWhile (fun x => x != '\n')).takeWhile
        (fun x => x != '\r')).count ' ' < 2 :=
      lt_of_le_of_lt (hpre2.sublist.count_le ' ') hL
    obtain ⟨l1, c1, e1, e2, e3, e4, e5, _⟩ := ProcessMethodLine_few_spaces
      ({ _conn := conn, m_LastActive := la, m_ReadTimeout := rt, m_Bad := bad, m_Header := hdr,
         m_ReadBuf := { buf := L ++ CRLF ++ rest,
                        gpos := 0 + ((L ++ CRLF ++ rest).takeWhile (fun x => x != '\n')).length + 1,
                        ppos := p, eofbit := false, failbit := false },
         m_State := .eReadHTTPMethodLine, queued := qd, bodies := bd } : ConnImpl κ)
      _ hcount
    simp only [substr_zero, hpos, take_length_takeWhile, ConnImpl.FeedLine, e1]
    exact ⟨c1, rfl, e2, e3, e4, e5⟩

/-- A fresh stream that received `buf` holds `buf`, unread. -/
theorem put_empty (buf : List Char) :
    stringstream.empty.put buf =
      { buf := buf, gpos := 0, ppos := buf.length, eofbit := false, failbit := false } := by
  simp [stringstream.put, stringstream.empty, stringstream.good]

/-- Claim C7 (counterexample).  The first line of the input `CRLF CRLF` is empty and so
has fewer than two spaces, yet the read does not poison the connection: the blank
line sends the parser to the body, the response `400` is queued and the phase
ends as `eWriteHTTPBody`. -/
theorem C7_blank_first_line_counterexample :
    ([] : List Char).count ' ' < 2 ∧
    ¬ (((ConnImpl.ctor () 0 1000).OnRead acceptAll 5 ([] ++ CRLF ++ CRLF)).map
          (fun c => (c.m_Bad, c.m_State, c.queued))
        = .ok (true, .eReadHTTPMethodLine, [])) := by
  refine ⟨by decide, ?_⟩
  have h : ((ConnImpl.ctor () 0 1000).OnRead acceptAll 5 ([] ++ CRLF ++ CRLF)).map
      (fun c => (c.m_Bad, c.m_State, c.queued))
      = .ok (false, .eWriteHTTPBody, response400) := rfl
  rw [h]
  intro e
  have h3 := congrArg (fun p => p.1) (Except.ok.inj e)
  exact absurd h3 (by decide)

/-- Claim C7 (amended).  For every input `L ++ CRLF ++ rest` that does not begin
with a carriage return and whose line `L` has fewer than two spaces, `OnRead` on a
fresh connection marks the connection poisoned, leaves the phase at
`eReadHTTPMethodLine` (so `eReadHTTPBody` is not entered), queues no response
and hands no body to `FeedBody`. -/
theorem C7_short_method_line_poisons {κ : Type} (aw : κ → List Char → Bool × κ) (k : κ)
    (t0 timeout now : Nat) (L rest : List Char)
    (hL : L.count ' ' < 2) (hhead : (L ++ CRLF ++ rest).head? ≠ some '\r') :
    ∃ c1, (ConnImpl.ctor k t0 timeout).OnRead aw now (L ++ CRLF ++ rest) = .ok c1 ∧
      c1.m_Bad = true ∧ c1.m_State = .eReadHTTPMethodLine ∧ c1.queued = [] ∧
      c1.bodies = [] := by
  unfold ConnImpl.OnRead ConnImpl.ProcessRead
  simp only [ConnImpl.ctor, Bool.false_eq_true, if_false,
    show HTTPState.eReadHTTPMethodLine.toNat < HTTPState.eReadHTTPBody.toNat by decide,
    if_true]
  by_cases hstr : strstr (c_str (L ++ CRLF ++ rest)) CRLF = none
  · simp only [hstr, if_true]
    exact ⟨_, rfl, rfl, rfl, rfl, rfl⟩
  · simp only [hstr, if_false, put_empty]
    obtain ⟨c1, e1, e2, _, e4, e5⟩ := read_loop_bad_first_line aw
      ((L ++ CRLF ++ rest).length + 1)
      { _conn := some k, m_LastActive := now, m_ReadTimeout := timeout, m_Bad := false,
        m_Header := { Headers := [], Method := [], Path := [] },
        m_ReadBuf := { buf := L ++ CRLF ++ rest, gpos := 0, ppos := (L ++ CRLF ++ rest).length,
                       eofbit := false, failbit := false },
        m_State := .eReadHTTPMethodLine, queued := [], bodies := [] }
      [] L rest _ rfl rfl hL hhead
    rw [e1]
    exact ⟨_, rfl, rfl, e2, e4, e5⟩

/-- Witness of claim C7 (amended): the input `GET CRLF CRLF`. -/
theorem C7_short_method_line_poisons_witness :
    ∃ c1, (ConnImpl.ctor () 0 1000).OnRead acceptAll 5 ("GET".toList ++ CRLF ++ CRLF)
        = .ok c1 ∧
      c1.m_Bad = true ∧ c1.m_State = .eReadHTTPMethodLine ∧ c1.queued = [] ∧
      c1.bodies = [] :=
  C7_short_method_line_poisons acceptAll () 0 1000 5 "GET".toList CRLF
    (by decide) (by decide)

/-! ## A complete request in one read -/

/-- The search for the blank line passes over a character that is not a carriage
return. -/
theorem strstr_skip (a : Char) (xs : List Char) (h : a ≠ '\r') :
    strstr (a :: xs) CRLFCRLF = (strstr xs CRLFCRLF).map (fun i => i + 1) := by
  simp [strstr, CRLFCRLF, List.isPrefixOf, h.symm]

/-- The search for the blank line passes over a text without carriage return. -/
theorem strstr_skip_line (L xs : List Char) (hL : '\r' ∉ L) :
    strstr (L ++ xs) CRLFCRLF = (strstr xs CRLFCRLF).map (fun i => i + L.length) := by
  induction L with
  | nil => simp
  | cons a L ih =>
    have ha : a ≠ '\r' := fun h => hL (by simp [h])
    have hL2 : '\r' ∉ L := fun h => hL (by simp [h])
    rw [List.cons_append, strstr_skip a _ ha, ih hL2]
    cases strstr xs CRLFCRLF with
    | none => rfl
    | some i => simp; omega

/-- The search for the blank line passes over a line end that is followed by a
character other than a carriage return. -/
theorem strstr_skip_crlf (a : Char) (xs : List Char) (h : a ≠ '\r') :
    strstr ('\r' :: '\n' :: a :: xs) CRLFCRLF
      = (strstr (a :: xs) CRLFCRLF).map (fun i => i + 2) := by
  have e1 : strstr ('\r' :: '\n' :: a :: xs) CRLFCRLF
      = (strstr ('\n' :: a :: xs) CRLFCRLF).map (fun i => i + 1) := by
    simp [strstr, CRLFCRLF, List.isPrefixOf, h.symm]
  rw [e1, strstr_skip '\n' _ (by decide)]
  cases strstr (a :: xs) CRLFCRLF with
  | none => rfl
  | some i => rfl

/-- The search for the blank line finds it at once when the text starts with it. -/
theorem strstr_here (B : List Char) : strstr (CRLFCRLF ++ B) CRLFCRLF = some 0 := by
  simp [strstr, CRLFCRLF, List.isPrefixOf]

/-- In lines that are not empty and hold no carriage return, each ended by `CRLF`
and followed by a blank line, the first occurrence of `CRLF CRLF` is the end of
the last line together with the blank line. -/
theorem strstr_lines (lines : List (List Char)) :
    ∀ (L B : List Char), L ≠ [] → '\r' ∉ L →
      (∀ l ∈ lines, l ≠ [] ∧ '\r' ∉ l) →
      ∃ i, strstr (L ++ CRLF ++ (lines.map (fun h => h ++ CRLF)).flatten ++ CRLF ++ B)
              CRLFCRLF = some i ∧
        i + 4 = (L ++ CRLF ++ (lines.map (fun h => h ++ CRLF)).flatten ++ CRLF).length := by
  induction lines with
  | nil =>
    intro L B _ hcr _
    refine ⟨L.length, ?_, by simp [CRLF]⟩
    have e : L ++ CRLF ++ (([] : List (List Char)).map (fun h => h ++ CRLF)).flatten ++ CRLF ++ B
        = L ++ (CRLFCRLF ++ B) := by simp [CRLF, CRLFCRLF]
    rw [e, strstr_skip_line L _ hcr, strstr_here]
    simp
  | cons l ls ih =>
    intro L B _ hcr hls
    obtain ⟨hl1, hl2⟩ := hls l (by simp)
    obtain ⟨i, e1, e2⟩ := ih l B hl1 hl2 (fun x hx => hls x (by simp [hx]))
    obtain ⟨a, l1, rfl⟩ := List.exists_cons_of_ne_nil hl1
    have ha : a ≠ '\r' := fun h => hl2 (by simp [h])
    refine ⟨i + 2 + L.length, ?_, ?_⟩
    · have e : L ++ CRLF ++ (((a :: l1) :: ls).map (fun h => h ++ CRLF)).flatten ++ CRLF ++ B
          = L ++ ('\r' :: '\n' :: a ::
              (l1 ++ CRLF ++ (ls.map (fun h => h ++ CRLF)).flatten ++ CRLF ++ B)) := by
        simp [CRLF]
      have e3 : (a :: l1) ++ CRLF ++ (ls.map (fun h => h ++ CRLF)).flatten ++ CRLF ++ B
          = a :: (l1 ++ CRLF ++ (ls.map (fun h => h ++ CRLF)).flatten ++ CRLF ++ B) := by
        simp
      rw [e, strstr_skip_line L _ hcr, strstr_skip_crlf a _ ha, ← e3, e1]
      rfl
    · simp only [List.map_cons, List.flatten_cons, List.length_append, List.length_cons,
        CRLF, List.length_nil] at e2 ⊢
      omega

/-- The text before the first line feed of `h ++ CRLF ++ X`, for `h` without line
feed, is `h` with the carriage return. -/
theorem takeWhile_line (h X : List Char) (hlf : '\n' ∉ h) :
    (h ++ '\r' :: '\n' :: X).takeWhile (fun x => x != '\n') = h ++ ['\r'] := by
  have e : h ++ '\r' :: '\n' :: X = (h ++ ['\r']) ++ '\n' :: X := by simp
  rw [e]
  exact takeWhile_ne_append (h ++ ['\r']) X '\n' (by simp [hlf])

/-- The call `getline` on a good stream whose unread characters are
`L`, a line feed, and `rest`, with no line feed in `L`: the line is `L`. -/
theorem getline_line (buf : List Char) (g p : Nat) (line0 L rest : List Char)
    (hav : buf.drop g = L ++ '\n' :: rest) (hL : '\n' ∉ L) :
    ({ buf := buf, gpos := g, ppos := p, eofbit := false, failbit := false } :
        stringstream).getline line0 '\n'
      = ({ buf := buf, gpos := g + L.length + 1, ppos := p, eofbit := false,
           failbit := false }, L) := by
  unfold stringstream.getline stringstream.good
  simp [hav, takeWhile_ne_append L rest '\n' hL]

/-- A header line with a colon: `ProcessHeaderLine` returns `true` and changes the
header map only. -/
theorem ProcessHeaderLine_colon {κ : Type} (c : ConnImpl κ) (h : List Char)
    (hc : ':' ∈ h) :
    ∃ hs, c.ProcessHeaderLine h =
      .ok (true, h, { c with m_Header := { c.m_Header with Headers := hs } }) := by
  obtain ⟨name, rest, e, hn⟩ := split_at_first h ':' hc
  subst e
  exact ⟨_, ProcessHeaderLine_split c name rest hn⟩

/-- The line loop in phase `eReadHTTPHeaders` on a good stream whose unread
characters are the header lines `hdrs`, a blank line and the body: with one turn
per header line and one for the blank line the loop reaches `FeedBody`, which
receives the text after the first `CRLF CRLF` of the whole buffer; on the way only
the header map, the phase and the stream change. -/
theorem read_loop_headers {κ : Type} (aw : κ → List Char → Bool × κ)
    (buf B : List Char) (i p : Nat) (hstr : strstr (c_str buf) CRLFCRLF = some i)
    (hdrs : List (List Char)) :
    ∀ (fuel g : Nat) (c : ConnImpl κ) (line0 : List Char),
      hdrs.length + 1 ≤ fuel → c.m_State = .eReadHTTPHeaders →
      c.m_ReadBuf = { buf := buf, gpos := g, ppos := p, eofbit := false, failbit := false } →
      buf.drop g = (hdrs.map (fun h => h ++ CRLF)).flatten ++ CRLF ++ B →
      (∀ h ∈ hdrs, ':' ∈ h ∧ '\r' ∉ h ∧ '\n' ∉ h) →
      ∃ ss hs, ConnImpl.read_loop aw fuel c line0 =
        .ok (ConnImpl.FeedBody aw
          { c with m_Header := { c.m_Header with Headers := hs },
                   m_State := .eReadHTTPBody, m_ReadBuf := ss }
          ((c_str buf).drop (i + 4))) := by
  induction hdrs with
  | nil =>
    intro fuel g c line0 hf hs hbuf hav _
    obtain ⟨f, rfl⟩ : ∃ f, fuel = f + 1 := ⟨fuel - 1, by omega⟩
    obtain ⟨conn, la, rt, bad, hdr, rb, st, qd, bd⟩ := c
    simp only at hs hbuf
    subst hs
    subst hbuf
    have hg := getline_line buf g p line0 ['\r'] B (by simpa [CRLF] using hav) (by decide)
    unfold ConnImpl.read_loop
    simp only [hg, Bool.false_eq_true, if_false, List.head?_cons, if_true,
      stringstream.str, hstr]
    exact ⟨_, _, rfl⟩
  | cons h hs ih =>
    intro fuel g c line0 hf hst hbuf hav hall
    obtain ⟨f, rfl⟩ : ∃ f, fuel = f + 1 := ⟨fuel - 1, by omega⟩
    obtain ⟨hcolon, hcr, hlf⟩ := hall h (by simp)
    obtain ⟨conn, la, rt, bad, hdr, rb, st, qd, bd⟩ := c
    simp only at hst hbuf
    subst hst
    subst hbuf
    have hav2 : buf.drop g
        = (h ++ ['\r']) ++ '\n' :: ((hs.map (fun h => h ++ CRLF)).flatten ++ CRLF ++ B) := by
      rw [hav]; simp [CRLF]
    have hg := getline_line buf g p line0 (h ++ ['\r']) _ hav2 (by simp [hlf])
    have hne : h ≠ [] := fun e => by simp [e] at hcolon
    obtain ⟨a, h1, rfl⟩ := List.exists_cons_of_ne_nil hne
    have ha : a ≠ '\r' := fun e => hcr (by simp [e])
    have hhead : ((a :: h1) ++ ['\r']).head? ≠ some '\r' := by simp [ha]
    have hfind : find_first_of ((a :: h1) ++ ['\r']) '\r' = some (a :: h1).length :=
      find_first_of_append (a :: h1) [] '\r' hcr
    obtain ⟨hs1, e1⟩ := ProcessHeaderLine_colon
      ({ _conn := conn, m_LastActive := la, m_ReadTimeout := rt, m_Bad := bad, m_Header := hdr,
         m_ReadBuf := { buf := buf, gpos := g + ((a :: h1) ++ ['\r']).length + 1, ppos := p,
                        eofbit := false, failbit := false },
         m_State := .eReadHTTPHeaders, queued := qd, bodies := bd } : ConnImpl κ)
      (a :: h1) hcolon
    have hdrop : buf.drop (g + ((a :: h1) ++ ['\r']).length + 1)
        = (hs.map (fun h => h ++ CRLF)).flatten ++ CRLF ++ B := by
      rw [Nat.add_assoc, ← List.drop_drop, hav2]
      have e : ((a :: h1) ++ ['\r']) ++ '\n' :: ((hs.map (fun h => h ++ CRLF)).flatten ++ CRLF ++ B)
          = (((a :: h1) ++ ['\r']) ++ ['\n']) ++ ((hs.map (fun h => h ++ CRLF)).flatten ++ CRLF ++ B) := by
        simp
      rw [e]
      exact List.drop_left' (by simp)
    unfold ConnImpl.read_loop
    simp only [hg, Bool.false_eq_true, if_false, hhead, hfind, substr_zero,
      List.take_left', ConnImpl.FeedLine, e1]
    exact ih f (g + ((a :: h1) ++ ['\r']).length + 1) _ (a :: h1)
      (by simp at hf; omega) rfl rfl hdrop (fun x hx => hall x (by simp [hx]))

/-- A text that holds a line end is not without one for `strstr`. -/
theorem strstr_crlf_found (pre post : List Char) :
    strstr (pre ++ CRLF ++ post) CRLF ≠ none := by
  induction pre with
  | nil => simp [strstr, CRLF, List.isPrefixOf]
  | cons a pre ih =>
    simp only [List.cons_append, strstr]
    split
    · simp
    · cases h : strstr (pre ++ CRLF ++ post) CRLF with
      | none => exact absurd h ih
      | some i => simp

/-- Lines ended by `CRLF` take at least one character each. -/
theorem length_le_flatten (hdrs : List (List Char)) :
    hdrs.length ≤ ((hdrs.map (fun h => h ++ CRLF)).flatten).length := by
  induction hdrs with
  | nil => simp
  | cons h hs ih => simp [CRLF] at ih ⊢; omega

/-- The line loop on a complete request held unread by a good stream, in phase
`eReadHTTPMethodLine`, on a live connection whose transport accepts every write:
the loop returns `true`, the method is the text before the first space, the body
`B` is handed to `FeedBody`, which queues the response `400` when `B` is empty or
the method is not `POST` and the response `200` otherwise. -/
theorem read_loop_request {κ : Type} (aw : κ → List Char → Bool × κ)
    (hacc : ∀ k d, (aw k d).1 = true) (k : κ) (la rt p : Nat) (M : List Char)
    (hdrs : List (List Char)) (B : List Char)
    (hM : 2 ≤ M.count ' ') (hMcr : '\r' ∉ M) (hMlf : '\n' ∉ M)
    (hH : ∀ h ∈ hdrs, ':' ∈ h ∧ '\r' ∉ h ∧ '\n' ∉ h)
    (hnul : NUL ∉ request M hdrs B) :
    ∃ c1, ConnImpl.read_loop aw ((request M hdrs B).length + 2)
        ({ _conn := some k, m_LastActive := la, m_ReadTimeout := rt, m_Bad := false,
           m_Header := { Headers := [], Method := [], Path := [] },
           m_ReadBuf := { buf := request M hdrs B, gpos := 0, ppos := p, eofbit := false,
                          failbit := false },
           m_State := .eReadHTTPMethodLine, queued := [], bodies := [] } : ConnImpl κ) []
        = .ok (true, c1) ∧
      c1.m_Bad = false ∧ c1.m_State = .eWriteHTTPBody ∧ c1.bodies = [B] ∧
      c1.m_Header.Method = M.takeWhile (fun x => x != ' ') ∧
      c1.queued = (if B = [] ∨ M.takeWhile (fun x => x != ' ') ≠ "POST".toList
                   then response400 else response200) := by
  obtain ⟨m, pth, rest, e, hm, hp⟩ := split_two_spaces M hM
  have hmeth : M.takeWhile (fun x => x != ' ') = m := by
    rw [e]; exact takeWhile_ne_append m _ ' ' hm
  have hMne : M ≠ [] := fun h => by simp [h] at hM
  obtain ⟨a, M1, hMa⟩ := List.exists_cons_of_ne_nil hMne
  have ha : a ≠ '\r' := fun h => hMcr (by simp [hMa, h])
  have hhead : (M ++ ['\r']).head? ≠ some '\r' := by simp [hMa, ha]
  have hav : (request M hdrs B).drop 0
      = (M ++ ['\r']) ++ '\n' :: ((hdrs.map (fun h => h ++ CRLF)).flatten ++ CRLF ++ B) := by
    simp [request, CRLF]
  have hg := getline_line (request M hdrs B) 0 p [] (M ++ ['\r']) _ hav (by simp [hMlf])
  have hfind : find_first_of (M ++ ['\r']) '\r' = some M.length :=
    find_first_of_append M [] '\r' hMcr
  have hPM := ProcessMethodLine_split
    ({ _conn := some k, m_LastActive := la, m_ReadTimeout := rt, m_Bad := false,
       m_Header := { Headers := [], Method := [], Path := [] },
       m_ReadBuf := { buf := request M hdrs B, gpos := 0 + (M ++ ['\r']).length + 1, ppos := p,
                      eofbit := false, failbit := false },
       m_State := .eReadHTTPMethodLine, queued := [], bodies := [] } : ConnImpl κ)
    m pth rest hm hp
  rw [← e] at hPM
  obtain ⟨i, hi1, hi2⟩ := strstr_lines hdrs M B hMne hMcr
    (fun l hl => ⟨fun h => by have := (hH l hl).1; simp [h] at this, (hH l hl).2.1⟩)
  have hcs : c_str (request M hdrs B) = request M hdrs B := c_str_eq _ hnul
  have hstr : strstr (c_str (request M hdrs B)) CRLFCRLF = some i := by
    rw [hcs]; exact hi1
  have hbody : (c_str (request M hdrs B)).drop (i + 4) = B := by
    rw [hcs]
    exact List.drop_left' hi2.symm
  have hdrop : (request M hdrs B).drop (0 + (M ++ ['\r']).length + 1)
      = (hdrs.map (fun h => h ++ CRLF)).flatten ++ CRLF ++ B := by
    have e2 : request M hdrs B
        = ((M ++ ['\r']) ++ ['\n']) ++ ((hdrs.map (fun h => h ++ CRLF)).flatten ++ CRLF ++ B) := by
      simp [request, CRLF]
    rw [e2]
    exact List.drop_left' (by simp)
  have hfuel : hdrs.length + 1 ≤ (request M hdrs B).length + 1 := by
    have := length_le_flatten hdrs
    simp only [request, List.length_append] at this ⊢
    omega
  obtain ⟨ss, hs1, e3⟩ := read_loop_headers aw (request M hdrs B) B i p hstr hdrs
    ((request M hdrs B).length + 1) (0 + (M ++ ['\r']).length + 1)
    ({ _conn := some k, m_LastActive := la, m_ReadTimeout := rt, m_Bad := false,
       m_Header := { Headers := [], Method := m, Path := pth },
       m_ReadBuf := { buf := request M hdrs B, gpos := 0 + (M ++ ['\r']).length + 1, ppos := p,
                      eofbit := false, failbit := false },
       m_State := .eReadHTTPHeaders, queued := [], bodies := [] } : ConnImpl κ)
    (pth ++ ' ' :: rest) hfuel rfl rfl hdrop hH
  rw [hbody] at e3
  obtain ⟨k1, e4⟩ := FeedBody_accepted aw hacc
    ({ _conn := some k, m_LastActive := la, m_ReadTimeout := rt, m_Bad := false,
       m_Header := { Headers := hs1, Method := m, Path := pth },
       m_ReadBuf := ss, m_State := .eReadHTTPBody, queued := [], bodies := [] } : ConnImpl κ)
    k rfl B
  rw [show (request M hdrs B).length + 2 = ((request M hdrs B).length + 1) + 1 from rfl]
  unfold ConnImpl.read_loop
  simp only [hg, Bool.false_eq_true, if_false, hhead, hfind, substr_zero,
    List.take_left', ConnImpl.FeedLine, hPM]
  rw [e3]
  refine ⟨_, congrArg Except.ok e4, rfl, rfl, rfl, hmeth.symm, ?_⟩
  simp [hmeth]

/-- Claim C6 (counterexample).  Two requests within the conditions of the claim,
both with method `POST` and the body `ok`.  The first has the header line
`A`, carriage return, `b:c`, which holds a colon; the line loop cuts it at the
carriage return, `ProcessHeaderLine` finds no colon in `A`, and `ProcessRead`
returns `false` with nothing queued, although the transport accepts every
write.  The second has no header and is read on a transport that refuses every
write: `ProcessRead` returns `false` with nothing queued. -/
theorem C6_policy_counterexample :
    (2 ≤ "POST /x HTTP/1.0".toList.count ' ' ∧
      (∀ h ∈ ["A\rb:c".toList], ':' ∈ h) ∧
      NUL ∉ request "POST /x HTTP/1.0".toList ["A\rb:c".toList] "ok".toList ∧
      "POST /x HTTP/1.0".toList.takeWhile (fun x => x != ' ') = "POST".toList ∧
      "ok".toList ≠ []) ∧
    ¬ (((ConnImpl.ctor () 0 1000).ProcessRead acceptAll 5
          (request "POST /x HTTP/1.0".toList ["A\rb:c".toList] "ok".toList)).map
          (fun r => (r.1, r.2.queued))
        = .ok (true, response200)) ∧
    ¬ (((ConnImpl.ctor () 0 1000).ProcessRead refuseAll 5
          (request "POST /x HTTP/1.0".toList [] "ok".toList)).map
          (fun r => (r.1, r.2.queued))
        = .ok (true, response200)) := by
  refine ⟨⟨by decide, by decide, by decide, by decide, by decide⟩, ?_, ?_⟩
  · have h : ((ConnImpl.ctor () 0 1000).ProcessRead acceptAll 5
        (request "POST /x HTTP/1.0".toList ["A\rb:c".toList] "ok".toList)).map
        (fun r => (r.1, r.2.queued)) = .ok (false, []) := rfl
    rw [h]
    intro e
    have h3 := congrArg (fun p => p.1) (Except.ok.inj e)
    exact absurd h3 (by decide)
  · have h : ((ConnImpl.ctor () 0 1000).ProcessRead refuseAll 5
        (request "POST /x HTTP/1.0".toList [] "ok".toList)).map
        (fun r => (r.1, r.2.queued)) = .ok (false, []) := rfl
    rw [h]
    intro e
    have h3 := congrArg (fun p => p.1) (Except.ok.inj e)
    exact absurd h3 (by decide)

/-- Claim C6 (amended).  A request is delivered to a fresh connection in a single
read; it consists of a method line `M` with at least two spaces, header lines each
with a colon, a blank line, and a body `B`; every line is ended by `CRLF` and
holds no carriage return or line feed itself, and the request holds no `NUL`; the
transport accepts every write.  Then `ProcessRead` returns `true` and hands `B`
to `FeedBody`; the response queued is the response `200` with the two-brace body
if and only if the method (the text of `M` before its first space) is `POST` and
`B` is not empty, and in every other case it is the fixed response `400`. -/
theorem C6_single_read_policy {κ : Type} (aw : κ → List Char → Bool × κ) (k : κ)
    (t0 timeout now : Nat) (M : List Char) (hdrs : List (List Char)) (B : List Char)
    (hacc : ∀ k d, (aw k d).1 = true)
    (hM : 2 ≤ M.count ' ') (hMcr : '\r' ∉ M) (hMlf : '\n' ∉ M)
    (hH : ∀ h ∈ hdrs, ':' ∈ h ∧ '\r' ∉ h ∧ '\n' ∉ h)
    (hnul : NUL ∉ request M hdrs B) :
    ∃ c1, (ConnImpl.ctor k t0 timeout).ProcessRead aw now (request M hdrs B) = .ok (true, c1) ∧
      c1.bodies = [B] ∧
      (c1.queued = response200 ↔
        (M.takeWhile (fun x => x != ' ') = "POST".toList ∧ B ≠ [])) ∧
      (¬ (M.takeWhile (fun x => x != ' ') = "POST".toList ∧ B ≠ []) →
        c1.queued = response400) := by
  obtain ⟨c1, e1, _, _, e4, _, e6⟩ := read_loop_request aw hacc k now timeout
    (request M hdrs B).length M hdrs B hM hMcr hMlf hH hnul
  have hfound : strstr (c_str (request M hdrs B)) CRLF ≠ none := by
    rw [c_str_eq _ hnul]
    have e : request M hdrs B
        = M ++ CRLF ++ ((hdrs.map (fun h => h ++ CRLF)).flatten ++ CRLF ++ B) := by
      simp [request]
    rw [e]
    exact strstr_crlf_found M _
  refine ⟨c1, ?_, e4, ?_, ?_⟩
  · unfold ConnImpl.ProcessRead
    simp only [ConnImpl.ctor, Bool.false_eq_true, if_false,
      show HTTPState.eReadHTTPMethodLine.toNat < HTTPState.eReadHTTPBody.toNat by decide,
      if_true, hfound, put_empty]
    exact e1
  · rw [e6]
    by_cases hc : B = [] ∨ M.takeWhile (fun x => x != ' ') ≠ "POST".toList
    · rw [if_pos hc]
      constructor
      · intro h
        exact absurd h (by decide)
      · rintro ⟨h1, h2⟩
        rcases hc with hc | hc
        · exact absurd hc h2
        · exact absurd h1 hc
    · rw [if_neg hc]
      constructor
      · intro _
        constructor
        · by_contra h
          exact hc (Or.inr h)
        · intro h
          exact hc (Or.inl h)
      · intro _
        rfl
  · intro hn
    rw [e6, if_pos]
    by_contra hc
    apply hn
    constructor
    · by_contra h
      exact hc (Or.inr h)
    · intro h
      exact hc (Or.inl h)

/-- Witness of claim C6 (amended): the request line `POST /x HTTP/1.0`, no header, body `ok`. -/
theorem C6_single_read_policy_witness :
    ∃ c1, (ConnImpl.ctor () 0 1000).ProcessRead acceptAll 5
        (request "POST /x HTTP/1.0".toList [] "ok".toList) = .ok (true, c1) ∧
      c1.bodies = ["ok".toList] ∧
      (c1.queued = response200 ↔
        ("POST /x HTTP/1.0".toList.takeWhile (fun x => x != ' ') = "POST".toList ∧
          "ok".toList ≠ [])) ∧
      (¬ ("POST /x HTTP/1.0".toList.takeWhile (fun x => x != ' ') = "POST".toList ∧
          "ok".toList ≠ []) →
        c1.queued = response400) :=
  C6_single_read_policy acceptAll () 0 1000 5 "POST /x HTTP/1.0".toList [] "ok".toList
    (fun _ _ => rfl) (by decide) (by decide) (by decide) (by simp) (by decide)

/-! ## The iteration bound of the line loop -/

/-- The only fault of `substr` is `std::out_of_range`. -/
theorem substr_fault (s : List Char) (pos n : Nat) : substr s pos n ≠ .error .fuel := by
  unfold substr
  split <;> simp

/-- The only fault of `substr` with one argument is `std::out_of_range`. -/
theorem substr_from_fault (s : List Char) (pos : Option Nat) :
    substr_from s pos ≠ .error .fuel := by
  unfold substr_from
  split
  · simp
  · split <;> simp

/-- The function `ProcessMethodLine` leaves the read buffer alone. -/
theorem ProcessMethodLine_ReadBuf {κ : Type} (c : ConnImpl κ) (line : List Char)
    (r : Bool × List Char × ConnImpl κ) (h : c.ProcessMethodLine line = .ok r) :
    r.2.2.m_ReadBuf = c.m_ReadBuf := by
  unfold ConnImpl.ProcessMethodLine at h
  repeat' split at h
  all_goals first
    | (cases h; rfl)
    | cases h

/-- The function `ProcessHeaderLine` leaves the read buffer alone. -/
theorem ProcessHeaderLine_ReadBuf {κ : Type} (c : ConnImpl κ) (line : List Char)
    (r : Bool × List Char × ConnImpl κ) (h : c.ProcessHeaderLine line = .ok r) :
    r.2.2.m_ReadBuf = c.m_ReadBuf := by
  unfold ConnImpl.ProcessHeaderLine at h
  repeat' split at h
  all_goals first
    | (cases h; rfl)
    | cases h

/-- The function `FeedLine` leaves the read buffer alone. -/
theorem FeedLine_ReadBuf {κ : Type} (c : ConnImpl κ) (line : List Char)
    (r : Bool × List Char × ConnImpl κ) (h : c.FeedLine line = .ok r) :
    r.2.2.m_ReadBuf = c.m_ReadBuf := by
  unfold ConnImpl.FeedLine at h
  split at h
  · exact ProcessMethodLine_ReadBuf c line r h
  · exact ProcessHeaderLine_ReadBuf c line r h
  · cases h; rfl

/-- The function `FeedLine` has no loop: it never ends for want of iterations. -/
theorem FeedLine_fault {κ : Type} (c : ConnImpl κ) (line : List Char) :
    c.FeedLine line ≠ .error .fuel := by
  intro h
  unfold ConnImpl.FeedLine at h
  split at h
  · unfold ConnImpl.ProcessMethodLine at h
    repeat' split at h
    all_goals first
      | (cases h; done)
      | (cases h; rename_i e; first
          | exact substr_fault _ _ _ e
          | exact substr_from_fault _ _ e)
  · unfold ConnImpl.ProcessHeaderLine at h
    repeat' split at h
    all_goals first
      | (cases h; done)
      | (cases h; rename_i e; first
          | exact substr_fault _ _ _ e
          | exact substr_from_fault _ _ e)
  · cases h

/-- The text before the first `d` of a text that holds `d` is shorter than the
text. -/
theorem takeWhile_length_lt (l : List Char) (d : Char) (h : d ∈ l) :
    (l.takeWhile (fun x => x != d)).length < l.length := by
  obtain ⟨m, rest, e, hm⟩ := split_at_first l d h
  rw [e, takeWhile_ne_append m rest d hm]
  simp

/-- A call of `getline` that does not fail lowers the bound `turns`. -/
theorem getline_turns (ss : stringstream) (line : List Char) (d : Char)
    (h : (ss.getline line d).1.failbit = false) :
    (ss.getline line d).1.turns + 1 ≤ ss.turns := by
  unfold stringstream.getline at h ⊢
  by_cases hg : ss.good = true
  · simp only [hg, if_true] at h ⊢
    have hgood := hg
    simp only [stringstream.good, Bool.and_eq_true, Bool.not_eq_true'] at hgood
    by_cases hm : d ∈ ss.buf.drop ss.gpos
    · have hlt := takeWhile_length_lt _ d hm
      simp only [List.length_drop] at hlt
      simp only [hm, if_true, stringstream.turns, stringstream.good, hgood.1, hgood.2,
        Bool.not_false, Bool.and_self]
      omega
    · simp only [hm, if_false, stringstream.turns, stringstream.good, hgood.1, hgood.2,
        Bool.not_false, Bool.and_self, Bool.not_true, Bool.false_and, Bool.false_eq_true,
        if_true]
      omega
  · simp only [hg, if_false] at h
    simp at h

/-- The line loop with at least `turns` iterations at hand never ends for want of
iterations. -/
theorem read_loop_fuel {κ : Type} (aw : κ → List Char → Bool × κ) (fuel : Nat) :
    ∀ (c : ConnImpl κ) (line0 : List Char), c.m_ReadBuf.turns ≤ fuel →
      ConnImpl.read_loop aw fuel c line0 ≠ .error .fuel := by
  induction fuel with
  | zero =>
    intro c line0 h
    unfold stringstream.turns at h
    split at h <;> omega
  | succ f ih =>
    intro c line0 h
    unfold ConnImpl.read_loop
    simp only
    split
    · simp
    · rename_i hfail
      split
      · split <;> simp
      · split
        · simp
        · simp only [substr_zero]
          split
          · rename_i e he
            intro h2
            cases h2
            exact FeedLine_fault _ _ he
          · simp
          · rename_i line1 c2 he
            apply ih
            have hrb := FeedLine_ReadBuf _ _ _ he
            simp only at hrb
            rw [hrb]
            have := getline_turns c.m_ReadBuf line0 '\n' (by simpa using hfail)
            omega

/-- The function `ProcessRead` gives its loop enough iterations: for every
connection and every read it ends by a return or by an exception. -/
theorem ProcessRead_fuel {κ : Type} (aw : κ → List Char → Bool × κ) (now : Nat)
    (c : ConnImpl κ) (buf : List Char) : c.ProcessRead aw now buf ≠ .error .fuel := by
  unfold ConnImpl.ProcessRead
  split
  · simp
  · simp only
    split
    · split
      · simp
      · apply read_loop_fuel
        simp only [stringstream.turns]
        split <;> omega
    · simp

/-! ## Header lines -/

/-- A line without colon: `ProcessHeaderLine` returns `false` and changes nothing. -/
theorem ProcessHeaderLine_no_colon {κ : Type} (c : ConnImpl κ) (line : List Char)
    (h : ':' ∉ line) : c.ProcessHeaderLine line = .ok (false, line, c) := by
  unfold ConnImpl.ProcessHeaderLine
  rw [find_first_of_none line ':' h]

/-- In phase `eReadHTTPHeaders` the function `FeedLine` is `ProcessHeaderLine`. -/
theorem FeedLine_headers {κ : Type} (c : ConnImpl κ) (line : List Char)
    (hs : c.m_State = .eReadHTTPHeaders) : c.FeedLine line = c.ProcessHeaderLine line := by
  unfold ConnImpl.FeedLine
  rw [hs]

/-- The text from the first colon of a line on starts with the colon, so its
first character other than a space is at offset `0`. -/
theorem value_text_starts_with_colon (line : List Char) (h : ':' ∈ line) :
    ∃ idx rest, find_first_of line ':' = some idx ∧ idx ≤ line.length ∧
      line.drop idx = ':' :: rest ∧ find_first_not_of (line.drop idx) ' ' = some 0 := by
  obtain ⟨name, rest, e, hn⟩ := split_at_first line ':' h
  subst e
  refine ⟨name.length, rest, find_first_of_append name rest ':' hn, by simp, ?_, ?_⟩
  · exact List.drop_left' rfl
  · rw [List.drop_left' rfl]
    exact find_first_not_of_cons ':' rest ' ' (by decide)

/-- Claim C15.  For every header line that contains a colon `ProcessHeaderLine`
returns `true`; with `name` the text before the first colon, the call appends
exactly one entry to the header map, whose key is `name` with every character
converted to lower case; the entries stored before (also those with the same
key), the method, the path, the phase and all other members stay as they are. -/
theorem C15_ProcessHeaderLine_inserts_lowercase_key {κ : Type} (c : ConnImpl κ)
    (line : List Char) (h : ':' ∈ line) :
    ∃ name rest value, line = name ++ ':' :: rest ∧ ':' ∉ name ∧
      c.ProcessHeaderLine line =
        .ok (true, line,
          { c with m_Header := { c.m_Header with
              Headers := c.m_Header.Headers ++ [(name.map Char.toLower, value)] } }) := by
  obtain ⟨name, rest, e, hn⟩ := split_at_first line ':' h
  subst e
  exact ⟨name, rest, ':' :: rest, rfl, hn, ProcessHeaderLine_split c name rest hn⟩

/-- Witness of claim C15: the header line `Content-Length: 2`. -/
theorem C15_ProcessHeaderLine_inserts_lowercase_key_witness :
    ∃ name rest value, "Content-Length: 2".toList = name ++ ':' :: rest ∧ ':' ∉ name ∧
      (ConnImpl.ctor () 0 1000).ProcessHeaderLine "Content-Length: 2".toList =
        .ok (true, "Content-Length: 2".toList,
          { ConnImpl.ctor () 0 1000 with m_Header := { (ConnImpl.ctor () 0 1000).m_Header with
              Headers := (ConnImpl.ctor () 0 1000).m_Header.Headers
                ++ [(name.map Char.toLower, value)] } }) :=
  C15_ProcessHeaderLine_inserts_lowercase_key (ConnImpl.ctor () 0 1000)
    "Content-Length: 2".toList (by decide)

/-- Claim C19.  For every line that contains a colon, the left-trim step of
`ProcessHeaderLine` is applied to the text from the first colon on; this text
starts with the colon, so `find_first_not_of(' ')` finds offset `0` on it and
never reports `npos`, the offset is within the text, `substr` returns and throws
nothing, and the whole call returns normally with `true`. -/
theorem C19_ProcessHeaderLine_trim_in_range {κ : Type} (c : ConnImpl κ) (line : List Char)
    (h : ':' ∈ line) :
    ∃ idx, find_first_of line ':' = some idx ∧
      find_first_not_of (line.drop idx) ' ' = some 0 ∧
      0 ≤ (line.drop idx).length ∧
      substr_from (line.drop idx) (find_first_not_of (line.drop idx) ' ')
        = .ok (line.drop idx) ∧
      ∃ c1, c.ProcessHeaderLine line = .ok (true, line, c1) := by
  obtain ⟨idx, rest, e1, _, e3, e4⟩ := value_text_starts_with_colon line h
  refine ⟨idx, e1, e4, Nat.zero_le _, ?_, ?_⟩
  · rw [e4, substr_from_some _ 0 (Nat.zero_le _)]
    rfl
  · obtain ⟨name, rest1, e, hn⟩ := split_at_first line ':' h
    subst e
    exact ⟨_, ProcessHeaderLine_split c name rest1 hn⟩

/-- Witness of claim C19: the line `Name:`, with nothing after the colon. -/
theorem C19_ProcessHeaderLine_trim_in_range_witness :
    ∃ idx, find_first_of "Name:".toList ':' = some idx ∧
      find_first_not_of ("Name:".toList.drop idx) ' ' = some 0 ∧
      0 ≤ ("Name:".toList.drop idx).length ∧
      substr_from ("Name:".toList.drop idx) (find_first_not_of ("Name:".toList.drop idx) ' ')
        = .ok ("Name:".toList.drop idx) ∧
      ∃ c1, (ConnImpl.ctor () 0 1000).ProcessHeaderLine "Name:".toList
        = .ok (true, "Name:".toList, c1) :=
  C19_ProcessHeaderLine_trim_in_range (ConnImpl.ctor () 0 1000) "Name:".toList (by decide)

/-- The shapes `Name:Value`, `Name: ` and `Name:` of a header line: the call
returns normally and stores the text from the colon on. -/
theorem ProcessHeaderLine_shapes :
    ((ConnImpl.ctor () 0 1000).ProcessHeaderLine "Name:Value".toList).map
        (fun r => (r.1, r.2.2.m_Header.Headers))
      = .ok (true, [("name".toList, ":Value".toList)]) ∧
    ((ConnImpl.ctor () 0 1000).ProcessHeaderLine "Name: ".toList).map
        (fun r => (r.1, r.2.2.m_Header.Headers))
      = .ok (true, [("name".toList, ": ".toList)]) ∧
    ((ConnImpl.ctor () 0 1000).ProcessHeaderLine "Name:".toList).map
        (fun r => (r.1, r.2.2.m_Header.Headers))
      = .ok (true, [("name".toList, ":".toList)]) :=
  ⟨rfl, rfl, rfl⟩

/-- Claim C17 (evaluation of the code at the failing input).  The line `NoColon`
has no colon.  A fresh connection reads the request line `POST /x HTTP/1.0` with
its line end in a first read and is then in phase `eReadHTTPHeaders`, not
poisoned, with the state bits `eofbit` and `failbit` of its read buffer set.  The
header line `NoColon`, with its line end and a blank line, arrives in a second
read: this read stores and parses nothing, `ProcessRead` returns `true`, and the
connection is not poisoned.  Delivered in the same read as the request line, the
same header line poisons the connection. -/
theorem C17_header_without_colon_in_later_read :
    ':' ∉ "NoColon".toList ∧
    ((ConnImpl.ctor () 0 1000).OnRead acceptAll 5 "POST /x HTTP/1.0\r\n".toList).map
        (fun c => (c.m_Bad, c.m_State, c.m_ReadBuf.eofbit, c.m_ReadBuf.failbit))
      = .ok (false, .eReadHTTPHeaders, true, true) ∧
    ((ConnImpl.ctor () 0 1000).OnReads acceptAll
        [(5, "POST /x HTTP/1.0\r\n".toList), (6, "NoColon\r\n\r\n".toList)]).map
        (fun c => (c.m_Bad, c.m_State))
      = .ok (false, .eReadHTTPHeaders) ∧
    ((ConnImpl.ctor () 0 1000).OnRead acceptAll 5
        "POST /x HTTP/1.0\r\nNoColon\r\n\r\n".toList).map
        (fun c => (c.m_Bad, c.m_State))
      = .ok (true, .eReadHTTPHeaders) :=
  ⟨by decide, rfl, rfl, rfl⟩

/-! ## What the functions leave alone -/

/-- A header line without colon in phase `eReadHTTPHeaders`: `FeedLine` returns
`false` and changes nothing. -/
theorem FeedLine_no_colon {κ : Type} (c : ConnImpl κ) (line : List Char)
    (hs : c.m_State = .eReadHTTPHeaders) (h : ':' ∉ line) :
    c.FeedLine line = .ok (false, line, c) := by
  rw [FeedLine_headers c line hs, ProcessHeaderLine_no_colon c line h]

/-- The function `ProcessMethodLine` never throws. -/
theorem ProcessMethodLine_ok {κ : Type} (c : ConnImpl κ) (line : List Char) :
    ∃ r, c.ProcessMethodLine line = .ok r := by
  by_cases h1 : ' ' ∈ line
  · obtain ⟨m, r1, e1, hm⟩ := split_at_first line ' ' h1
    subst e1
    have hd : (m ++ ' ' :: r1).drop (m.length + 1) = r1 := by
      rw [show m ++ ' ' :: r1 = (m ++ [' ']) ++ r1 by simp]
      exact List.drop_left' (by simp)
    unfold ConnImpl.ProcessMethodLine
    rw [find_first_of_append m _ ' ' hm]
    simp only [substr_zero]
    rw [substr_from_some _ _ (by simp)]
    simp only [hd]
    split
    · exact ⟨_, rfl⟩
    · exact ⟨_, rfl⟩
  · unfold ConnImpl.ProcessMethodLine
    rw [find_first_of_none line ' ' h1]
    exact ⟨_, rfl⟩

/-- The function `ProcessHeaderLine` never throws. -/
theorem ProcessHeaderLine_ok {κ : Type} (c : ConnImpl κ) (line : List Char) :
    ∃ r, c.ProcessHeaderLine line = .ok r := by
  by_cases h : ':' ∈ line
  · obtain ⟨name, rest, e, hn⟩ := split_at_first line ':' h
    subst e
    exact ⟨_, ProcessHeaderLine_split c name rest hn⟩
  · exact ⟨_, ProcessHeaderLine_no_colon c line h⟩

/-- The function `FeedLine` never throws. -/
theorem FeedLine_ok {κ : Type} (c : ConnImpl κ) (line : List Char) :
    ∃ r, c.FeedLine line = .ok r := by
  unfold ConnImpl.FeedLine
  split
  · exact ProcessMethodLine_ok c line
  · exact ProcessHeaderLine_ok c line
  · exact ⟨_, rfl⟩

/-- The function `ProcessMethodLine` changes the request header and the phase
only; the phase stays or becomes `eReadHTTPHeaders`. -/
theorem ProcessMethodLine_frame {κ : Type} (c : ConnImpl κ) (line : List Char)
    (r : Bool × List Char × ConnImpl κ) (h : c.ProcessMethodLine line = .ok r) :
    r.2.2.m_Bad = c.m_Bad ∧ r.2.2._conn = c._conn ∧ r.2.2.queued = c.queued ∧
    r.2.2.bodies = c.bodies ∧ r.2.2.m_LastActive = c.m_LastActive ∧
    r.2.2.m_ReadTimeout = c.m_ReadTimeout ∧
    (r.2.2.m_State = c.m_State ∨ r.2.2.m_State = .eReadHTTPHeaders) := by
  unfold ConnImpl.ProcessMethodLine at h
  repeat' split at h
  all_goals first
    | (cases h; simp)
    | cases h

/-- The function `ProcessHeaderLine` changes the header map only. -/
theorem ProcessHeaderLine_frame {κ : Type} (c : ConnImpl κ) (line : List Char)
    (r : Bool × List Char × ConnImpl κ) (h : c.ProcessHeaderLine line = .ok r) :
    r.2.2.m_Bad = c.m_Bad ∧ r.2.2._conn = c._conn ∧ r.2.2.queued = c.queued ∧
    r.2.2.bodies = c.bodies ∧ r.2.2.m_LastActive = c.m_LastActive ∧
    r.2.2.m_ReadTimeout = c.m_ReadTimeout ∧ r.2.2.m_State = c.m_State ∧
    r.2.2.m_Header.Method = c.m_Header.Method ∧ r.2.2.m_Header.Path = c.m_Header.Path := by
  unfold ConnImpl.ProcessHeaderLine at h
  repeat' split at h
  all_goals first
    | (cases h; simp)
    | cases h

/-- The function `FeedLine` changes the request header and the phase only; the
phase stays, or goes from `eReadHTTPMethodLine` to `eReadHTTPHeaders`. -/
theorem FeedLine_frame {κ : Type} (c : ConnImpl κ) (line : List Char)
    (r : Bool × List Char × ConnImpl κ) (h : c.FeedLine line = .ok r) :
    r.2.2.m_Bad = c.m_Bad ∧ r.2.2._conn = c._conn ∧ r.2.2.queued = c.queued ∧
    r.2.2.bodies = c.bodies ∧ r.2.2.m_LastActive = c.m_LastActive ∧
    r.2.2.m_ReadTimeout = c.m_ReadTimeout ∧
    (r.2.2.m_State = c.m_State ∨
      (c.m_State = .eReadHTTPMethodLine ∧ r.2.2.m_State = .eReadHTTPHeaders)) := by
  unfold ConnImpl.FeedLine at h
  split at h
  · rename_i hs
    obtain ⟨a1, a2, a3, a4, a5, a6, a7⟩ := ProcessMethodLine_frame c line r h
    refine ⟨a1, a2, a3, a4, a5, a6, ?_⟩
    rcases a7 with a7 | a7
    · exact Or.inl a7
    · exact Or.inr ⟨hs, a7⟩
  · obtain ⟨a1, a2, a3, a4, a5, a6, a7, _, _⟩ := ProcessHeaderLine_frame c line r h
    exact ⟨a1, a2, a3, a4, a5, a6, Or.inl a7⟩
  · cases h
    simp

/-- The call of `llarp_tcp_conn_async_write` changes the transport and the record
of queued byte strings only. -/
theorem async_write_frame {κ : Type} (aw : κ → List Char → Bool × κ) (c : ConnImpl κ)
    (data : List Char) :
    (c.async_write aw data).2.m_Bad = c.m_Bad ∧
    (c.async_write aw data).2.m_State = c.m_State ∧
    (c.async_write aw data).2.m_Header = c.m_Header ∧
    (c.async_write aw data).2.m_ReadBuf = c.m_ReadBuf ∧
    (c.async_write aw data).2.m_LastActive = c.m_LastActive ∧
    (c.async_write aw data).2.m_ReadTimeout = c.m_ReadTimeout ∧
    (c.async_write aw data).2.bodies = c.bodies := by
  unfold ConnImpl.async_write
  split <;> simp

/-- The function `WriteStatusLine` changes the transport and the record of queued
byte strings only. -/
theorem WriteStatusLine_frame {κ : Type} (aw : κ → List Char → Bool × κ) (c : ConnImpl κ)
    (code : Int) (msg : List Char) :
    (c.WriteStatusLine aw code msg).2.m_Bad = c.m_Bad ∧
    (c.WriteStatusLine aw code msg).2.m_State = c.m_State ∧
    (c.WriteStatusLine aw code msg).2.m_Header = c.m_Header ∧
    (c.WriteStatusLine aw code msg).2.m_ReadBuf = c.m_ReadBuf ∧
    (c.WriteStatusLine aw code msg).2.m_LastActive = c.m_LastActive ∧
    (c.WriteStatusLine aw code msg).2.m_ReadTimeout = c.m_ReadTimeout ∧
    (c.WriteStatusLine aw code msg).2.bodies = c.bodies := by
  unfold ConnImpl.WriteStatusLine
  simp only
  split
  · exact async_write_frame aw c _
  · simp

/-- The function `WriteResponseSimple` changes the transport, the record of queued
byte strings and the phase only; the phase stays or becomes `eWriteHTTPBody`. -/
theorem WriteResponseSimple_frame {κ : Type} (aw : κ → List Char → Bool × κ)
    (c : ConnImpl κ) (code : Int) (msg mime body : List Char) :
    (c.WriteResponseSimple aw code msg mime body).2.m_Bad = c.m_Bad ∧
    (c.WriteResponseSimple aw code msg mime body).2.m_Header = c.m_Header ∧
    (c.WriteResponseSimple aw code msg mime body).2.m_ReadBuf = c.m_ReadBuf ∧
    (c.WriteResponseSimple aw code msg mime body).2.m_LastActive = c.m_LastActive ∧
    (c.WriteResponseSimple aw code msg mime body).2.m_ReadTimeout = c.m_ReadTimeout ∧
    (c.WriteResponseSimple aw code msg mime body).2.bodies = c.bodies ∧
    ((c.WriteResponseSimple aw code msg mime body).2.m_State = c.m_State ∨
      (c.WriteResponseSimple aw code msg mime body).2.m_State = .eWriteHTTPBody) := by
  obtain ⟨a1, a2, a3, a4, a5, a6, a7⟩ := WriteStatusLine_frame aw c code msg
  unfold ConnImpl.WriteResponseSimple
  simp only
  split
  · exact ⟨a1, a3, a4, a5, a6, a7, Or.inl a2⟩
  · split
    · exact ⟨a1, a3, a4, a5, a6, a7, Or.inl a2⟩
    · obtain ⟨b1, b2, b3, b4, b5, b6, b7⟩ := async_write_frame aw
        (c.WriteStatusLine aw code msg).2
        ((snprintf128 ("Content-Type: ".toList ++ c_str mime ++ CRLF)).2.take
          (snprintf128 ("Content-Type: ".toList ++ c_str mime ++ CRLF)).1)
      split
      · exact ⟨b1.trans a1, b3.trans a3, b4.trans a4, b5.trans a5, b6.trans a6, b7.trans a7,
          Or.inl (b2.trans a2)⟩
      · split
        · exact ⟨b1.trans a1, b3.trans a3, b4.trans a4, b5.trans a5, b6.trans a6,
            b7.trans a7, Or.inl (b2.trans a2)⟩
        · obtain ⟨d1, d2, d3, d4, d5, d6, d7⟩ := async_write_frame aw
            ((c.WriteStatusLine aw code msg).2.async_write aw
              ((snprintf128 ("Content-Type: ".toList ++ c_str mime ++ CRLF)).2.take
                (snprintf128 ("Content-Type: ".toList ++ c_str mime ++ CRLF)).1)).2
            ((snprintf128 ("Content-Length: ".toList ++ fmt_zu (strlen body)
                ++ CRLFCRLF)).2.take
              (snprintf128 ("Content-Length: ".toList ++ fmt_zu (strlen body)
                ++ CRLFCRLF)).1)
          split
          · exact ⟨d1.trans (b1.trans a1), d3.trans (b3.trans a3), d4.trans (b4.trans a4),
              d5.trans (b5.trans a5), d6.trans (b6.trans a6), d7.trans (b7.trans a7),
              Or.inl (d2.trans (b2.trans a2))⟩
          · obtain ⟨f1, f2, f3, f4, f5, f6, f7⟩ := async_write_frame aw
              (((c.WriteStatusLine aw code msg).2.async_write aw
                ((snprintf128 ("Content-Type: ".toList ++ c_str mime ++ CRLF)).2.take
                  (snprintf128 ("Content-Type: ".toList ++ c_str mime ++ CRLF)).1)).2.async_write
                aw
                ((snprintf128 ("Content-Length: ".toList ++ fmt_zu (strlen body)
                    ++ CRLFCRLF)).2.take
                  (snprintf128 ("Content-Length: ".toList ++ fmt_zu (strlen body)
                    ++ CRLFCRLF)).1)).2
              ((c_str body).take (strlen body))
            split
            · exact ⟨f1.trans (d1.trans (b1.trans a1)), f3.trans (d3.trans (b3.trans a3)),
                f4.trans (d4.trans (b4.trans a4)), f5.trans (d5.trans (b5.trans a5)),
                f6.trans (d6.trans (b6.trans a6)), f7.trans (d7.trans (b7.trans a7)),
                Or.inl (f2.trans (d2.trans (b2.trans a2)))⟩
            · exact ⟨f1.trans (d1.trans (b1.trans a1)), f3.trans (d3.trans (b3.trans a3)),
                f4.trans (d4.trans (b4.trans a4)), f5.trans (d5.trans (b5.trans a5)),
                f6.trans (d6.trans (b6.trans a6)), f7.trans (d7.trans (b7.trans a7)),
                Or.inr rfl⟩

/-- The function `FeedBody` changes the transport, the two records and the phase
only; the phase stays or becomes `eWriteHTTPBody`. -/
theorem FeedBody_frame {κ : Type} (aw : κ → List Char → Bool × κ) (c : ConnImpl κ)
    (buf : List Char) :
    (c.FeedBody aw buf).2.m_Bad = c.m_Bad ∧
    (c.FeedBody aw buf).2.m_Header = c.m_Header ∧
    (c.FeedBody aw buf).2.m_ReadBuf = c.m_ReadBuf ∧
    (c.FeedBody aw buf).2.m_LastActive = c.m_LastActive ∧
    (c.FeedBody aw buf).2.m_ReadTimeout = c.m_ReadTimeout ∧
    ((c.FeedBody aw buf).2.m_State = c.m_State ∨
      (c.FeedBody aw buf).2.m_State = .eWriteHTTPBody) := by
  unfold ConnImpl.FeedBody
  simp only
  split
  · obtain ⟨a1, a2, a3, a4, a5, _, a7⟩ := WriteResponseSimple_frame aw
      { c with bodies := c.bodies ++ [buf] } 400 "Bad Request".toList "text/plain".toList
      "nope".toList
    exact ⟨a1, a2, a3, a4, a5, a7⟩
  · split
    · obtain ⟨a1, a2, a3, a4, a5, _, a7⟩ := WriteResponseSimple_frame aw
        { c with bodies := c.bodies ++ [buf] } 400 "Bad Request".toList "text/plain".toList
        "nope".toList
      exact ⟨a1, a2, a3, a4, a5, a7⟩
    · obtain ⟨a1, a2, a3, a4, a5, _, a7⟩ := WriteResponseSimple_frame aw
        { c with bodies := c.bodies ++ [buf] } 200 "OK".toList "text/json".toList
        "\x7b\x7d".toList
      exact ⟨a1, a2, a3, a4, a5, a7⟩

/-! ## The order of the phases -/

/-- Every phase advances to itself. -/
theorem advances_refl (s : HTTPState) : s.advances s := Or.inl rfl

/-- Advancing twice is advancing. -/
theorem advances_trans (s t u : HTTPState) (h1 : s.advances t) (h2 : t.advances u) :
    s.advances u := by
  rcases h1 with h1 | ⟨a1, a2, a3⟩
  · rw [h1] at h2; exact h2
  · rcases h2 with h2 | ⟨b1, b2, b3⟩
    · rw [h2]; exact Or.inr ⟨a1, a2, a3⟩
    · exact Or.inr ⟨a1, b2, Nat.lt_trans a3 b3⟩

/-- A phase that advanced is not smaller, and is in the order when the phase
before was. -/
theorem advances_le (s t : HTTPState) (h : s.advances t) :
    s.toNat ≤ t.toNat ∧ (s.inOrder → t.inOrder) := by
  rcases h with h | ⟨_, a2, a3⟩
  · rw [h]; exact ⟨Nat.le_refl _, id⟩
  · exact ⟨Nat.le_of_lt a3, fun _ => a2⟩

/-- The phases before `eReadHTTPBody`. -/
theorem phase_lt_body (s : HTTPState) (h : s.toNat < HTTPState.eReadHTTPBody.toNat) :
    s = .eReadHTTPMethodLine ∨ s = .eReadHTTPHeaders := by
  cases s <;> simp [HTTPState.toNat] at h ⊢

/-- A phase in the order that stays or becomes `eWriteHTTPBody` has advanced. -/
theorem advances_to_write (s t : HTTPState) (hs : s.inOrder)
    (h : t = s ∨ t = .eWriteHTTPBody) : s.advances t := by
  rcases h with h | h
  · exact Or.inl h
  · subst h
    rcases hs with hs | hs | hs | hs <;> subst hs
    · exact Or.inr ⟨by simp [HTTPState.inOrder], by simp [HTTPState.inOrder], by decide⟩
    · exact Or.inr ⟨by simp [HTTPState.inOrder], by simp [HTTPState.inOrder], by decide⟩
    · exact Or.inr ⟨by simp [HTTPState.inOrder], by simp [HTTPState.inOrder], by decide⟩
    · exact Or.inl rfl

/-- A phase before `eReadHTTPBody` advances to `eReadHTTPBody`. -/
theorem advances_to_body (s : HTTPState) (h : s.toNat < HTTPState.eReadHTTPBody.toNat) :
    s.advances .eReadHTTPBody := by
  rcases phase_lt_body s h with hs | hs <;> subst hs
  · exact Or.inr ⟨by simp [HTTPState.inOrder], by simp [HTTPState.inOrder], by decide⟩
  · exact Or.inr ⟨by simp [HTTPState.inOrder], by simp [HTTPState.inOrder], by decide⟩

/-- The line loop, started in a phase before `eReadHTTPBody`, leaves the poisoned
flag, the time of last activity and the timeout alone and lets the phase
advance. -/
theorem read_loop_frame {κ : Type} (aw : κ → List Char → Bool × κ) (fuel : Nat) :
    ∀ (c : ConnImpl κ) (line0 : List Char) (r : Bool × ConnImpl κ),
      c.m_State.toNat < HTTPState.eReadHTTPBody.toNat →
      ConnImpl.read_loop aw fuel c line0 = .ok r →
      r.2.m_Bad = c.m_Bad ∧ r.2.m_LastActive = c.m_LastActive ∧
      r.2.m_ReadTimeout = c.m_ReadTimeout ∧ c.m_State.advances r.2.m_State := by
  induction fuel with
  | zero =>
    intro c line0 r _ h
    simp [ConnImpl.read_loop] at h
  | succ f ih =>
    intro c line0 r hlt h
    unfold ConnImpl.read_loop at h
    simp only at h
    split at h
    · cases h
      exact ⟨rfl, rfl, rfl, advances_refl _⟩
    · split at h
      · split at h
        · cases h
          exact ⟨rfl, rfl, rfl, advances_to_body _ hlt⟩
        · cases h
          obtain ⟨a1, _, _, a4, a5, a6⟩ := FeedBody_frame aw
            { c with m_ReadBuf := (c.m_ReadBuf.getline line0 '\n').1.clear,
                     m_State := .eReadHTTPBody } _
          refine ⟨a1, a4, a5, ?_⟩
          refine advances_trans _ _ _ (advances_to_body _ hlt) ?_
          exact advances_to_write _ _ (by simp [HTTPState.inOrder]) a6
      · split at h
        · cases h
          exact ⟨rfl, rfl, rfl, advances_refl _⟩
        · simp only [substr_zero] at h
          split at h
          · cases h
          · rename_i he
            cases h
            obtain ⟨a1, _, _, _, a5, a6, a7⟩ := FeedLine_frame _ _ _ he
            refine ⟨a1, a5, a6, ?_⟩
            rcases a7 with a7 | ⟨a7, a8⟩
            · exact Or.inl a7
            · simp only at a7 a8
              simp only
              rw [a7, a8]
              exact Or.inr ⟨by simp [HTTPState.inOrder], by simp [HTTPState.inOrder],
                by decide⟩
          · rename_i line1 c2 he
            obtain ⟨a1, _, _, _, a5, a6, a7⟩ := FeedLine_frame _ _ _ he
            simp only at a1 a5 a6 a7
            have hlt2 : c2.m_State.toNat < HTTPState.eReadHTTPBody.toNat := by
              rcases a7 with a7 | ⟨_, a8⟩
              · rw [a7]; exact hlt
              · rw [a8]; decide
            have hadv : c.m_State.advances c2.m_State := by
              rcases a7 with a7 | ⟨a7, a8⟩
              · exact Or.inl a7
              · rw [a7, a8]
                exact Or.inr ⟨by simp [HTTPState.inOrder], by simp [HTTPState.inOrder],
                  by decide⟩
            obtain ⟨b1, b2, b3, b4⟩ := ih c2 line1 r hlt2 h
            exact ⟨b1.trans a1, b2.trans a5, b3.trans a6, advances_trans _ _ _ hadv b4⟩

/-- The line loop never throws. -/
theorem read_loop_no_throw {κ : Type} (aw : κ → List Char → Bool × κ) (fuel : Nat) :
    ∀ (c : ConnImpl κ) (line0 : List Char),
      ConnImpl.read_loop aw fuel c line0 ≠ .error .out_of_range := by
  induction fuel with
  | zero =>
    intro c line0
    simp [ConnImpl.read_loop]
  | succ f ih =>
    intro c line0
    unfold ConnImpl.read_loop
    simp only
    split
    · simp
    · split
      · split <;> simp
      · split
        · simp
        · simp only [substr_zero]
          split
          · rename_i e he
            obtain ⟨r, hr⟩ := FeedLine_ok
              ({ c with m_ReadBuf := (c.m_ReadBuf.getline line0 '\n').1 })
              (((c.m_ReadBuf.getline line0 '\n').2).take ‹Nat›)
            rw [hr] at he
            cases he
          · simp
          · exact ih _ _

/-! ## Reads and events as transitions -/

/-- The function `ProcessRead` never throws. -/
theorem ProcessRead_no_throw {κ : Type} (aw : κ → List Char → Bool × κ) (now : Nat)
    (c : ConnImpl κ) (buf : List Char) :
    c.ProcessRead aw now buf ≠ .error .out_of_range := by
  unfold ConnImpl.ProcessRead
  split
  · simp
  · simp only
    split
    · split
      · simp
      · exact read_loop_no_throw aw _ _ _
    · simp

/-- The function `ProcessRead` returns normally for every connection and every
read. -/
theorem ProcessRead_ok {κ : Type} (aw : κ → List Char → Bool × κ) (now : Nat)
    (c : ConnImpl κ) (buf : List Char) : ∃ r, c.ProcessRead aw now buf = .ok r := by
  cases h : c.ProcessRead aw now buf with
  | ok r => exact ⟨r, rfl⟩
  | error e =>
    cases e with
    | out_of_range => exact absurd h (ProcessRead_no_throw aw now c buf)
    | fuel => exact absurd h (ProcessRead_fuel aw now c buf)

/-- The function `ProcessRead` on a connection whose phase is in the order leaves
the poisoned flag and the timeout alone and lets the phase advance. -/
theorem ProcessRead_frame {κ : Type} (aw : κ → List Char → Bool × κ) (now : Nat)
    (c : ConnImpl κ) (buf : List Char) (r : Bool × ConnImpl κ)
    (hs : c.m_State.inOrder) (h : c.ProcessRead aw now buf = .ok r) :
    r.2.m_Bad = c.m_Bad ∧ r.2.m_ReadTimeout = c.m_ReadTimeout ∧
    c.m_State.advances r.2.m_State := by
  unfold ConnImpl.ProcessRead at h
  split at h
  · cases h
    exact ⟨rfl, rfl, advances_refl _⟩
  · simp only at h
    split at h
    · rename_i hlt
      split at h
      · cases h
        exact ⟨rfl, rfl, advances_refl _⟩
      · obtain ⟨a1, _, a3, a4⟩ := read_loop_frame aw _
          { c with m_LastActive := now, m_ReadBuf := c.m_ReadBuf.put buf } [] r hlt h
        exact ⟨a1, a3, a4⟩
    · cases h
      obtain ⟨a1, _, _, _, a5, a6⟩ := FeedBody_frame aw { c with m_LastActive := now } buf
      exact ⟨a1, a5, advances_to_write _ _ hs a6⟩

/-- The callback `OnRead` returns normally; on a connection whose phase is in the
order it lets the phase advance, keeps a set poisoned flag set and leaves the
timeout alone. -/
theorem OnRead_frame {κ : Type} (aw : κ → List Char → Bool × κ) (now : Nat)
    (c : ConnImpl κ) (buf : List Char) (hs : c.m_State.inOrder) :
    ∃ c1, c.OnRead aw now buf = .ok c1 ∧ c.m_State.advances c1.m_State ∧
      (c.m_Bad = true → c1.m_Bad = true) ∧ c1.m_ReadTimeout = c.m_ReadTimeout := by
  obtain ⟨r, hr⟩ := ProcessRead_ok aw now c buf
  obtain ⟨a1, a2, a3⟩ := ProcessRead_frame aw now c buf r hs hr
  obtain ⟨ok, c2⟩ := r
  unfold ConnImpl.OnRead
  rw [hr]
  cases ok with
  | false => exact ⟨_, rfl, a3, fun _ => rfl, a2⟩
  | true => exact ⟨_, rfl, a3, fun hb => a1.trans hb, a2⟩

/-- Every event on a connection whose phase is in the order has a result, and
lets the phase advance. -/
theorem step_frame {κ : Type} (aw : κ → List Char → Bool × κ) (c : ConnImpl κ) (e : Event)
    (hs : c.m_State.inOrder) :
    ∃ c1, c.step aw e = .ok c1 ∧ c.m_State.advances c1.m_State ∧
      c1.m_ReadTimeout = c.m_ReadTimeout := by
  cases e with
  | OnRead now buf =>
    obtain ⟨c1, e1, e2, _, e4⟩ := OnRead_frame aw now c buf hs
    exact ⟨c1, e1, e2, e4⟩
  | MarkBad => exact ⟨_, rfl, advances_refl _, rfl⟩
  | Tick => exact ⟨_, rfl, advances_refl _, rfl⟩
  | Close =>
    refine ⟨_, rfl, ?_, ?_⟩
    · unfold ConnImpl.Close
      split <;> exact advances_refl _
    · unfold ConnImpl.Close
      split <;> rfl
  | OnClosed => exact ⟨_, rfl, advances_refl _, rfl⟩

/-- Every sequence of events on a connection whose phase is in the order has a
result, whose phase has advanced and is in the order. -/
theorem run_frame {κ : Type} (aw : κ → List Char → Bool × κ) (events : List Event) :
    ∀ c : ConnImpl κ, c.m_State.inOrder →
      ∃ c1, c.run aw events = .ok c1 ∧ c.m_State.advances c1.m_State ∧
        c1.m_State.inOrder ∧ c1.m_ReadTimeout = c.m_ReadTimeout := by
  induction events with
  | nil => intro c hs; exact ⟨c, rfl, advances_refl _, hs, rfl⟩
  | cons e es ih =>
    intro c hs
    obtain ⟨c1, e1, e2, e3⟩ := step_frame aw c e hs
    have hs1 : c1.m_State.inOrder := (advances_le _ _ e2).2 hs
    obtain ⟨c2, f1, f2, f3, f4⟩ := ih c1 hs1
    refine ⟨c2, ?_, advances_trans _ _ _ e2 f2, f3, f4.trans e3⟩
    simp only [ConnImpl.run, e1]
    exact f1

/-- A poisoned connection is due for closing at every time. -/
theorem ShouldClose_bad {κ : Type} (c : ConnImpl κ) (now : Nat) (hb : c.m_Bad = true) :
    c.ShouldClose now = true := by
  simp [ConnImpl.ShouldClose, hb]

/-- Every sequence of events on a poisoned connection has a result: the
connection, with the transport pointer possibly reset; the flag stays set and
nothing of the parser state, the time of last activity or the two records
changes. -/
theorem run_bad {κ : Type} (aw : κ → List Char → Bool × κ) (events : List Event) :
    ∀ c : ConnImpl κ, c.m_Bad = true →
      ∃ c1, c.run aw events = .ok c1 ∧ c1.m_Bad = true ∧ c1.m_State = c.m_State ∧
        c1.m_Header = c.m_Header ∧ c1.m_ReadBuf = c.m_ReadBuf ∧
        c1.m_LastActive = c.m_LastActive ∧ c1.m_ReadTimeout = c.m_ReadTimeout ∧
        c1.queued = c.queued ∧ c1.bodies = c.bodies := by
  induction events with
  | nil => intro c hb; exact ⟨c, rfl, hb, rfl, rfl, rfl, rfl, rfl, rfl, rfl⟩
  | cons e es ih =>
    intro c hb
    have key : ∃ c1, c.step aw e = .ok c1 ∧ c1.m_Bad = true ∧ c1.m_State = c.m_State ∧
        c1.m_Header = c.m_Header ∧ c1.m_ReadBuf = c.m_ReadBuf ∧
        c1.m_LastActive = c.m_LastActive ∧ c1.m_ReadTimeout = c.m_ReadTimeout ∧
        c1.queued = c.queued ∧ c1.bodies = c.bodies := by
      cases e with
      | OnRead now buf =>
        exact ⟨c, OnRead_bad aw now c buf hb, hb, rfl, rfl, rfl, rfl, rfl, rfl, rfl⟩
      | MarkBad => exact ⟨_, rfl, rfl, rfl, rfl, rfl, rfl, rfl, rfl, rfl⟩
      | Tick => exact ⟨_, rfl, hb, rfl, rfl, rfl, rfl, rfl, rfl, rfl⟩
      | Close =>
        refine ⟨_, rfl, ?_⟩
        unfold ConnImpl.Close
        split
        · exact ⟨hb, rfl, rfl, rfl, rfl, rfl, rfl, rfl⟩
        · exact ⟨hb, rfl, rfl, rfl, rfl, rfl, rfl, rfl⟩
      | OnClosed => exact ⟨_, rfl, hb, rfl, rfl, rfl, rfl, rfl, rfl, rfl⟩
    obtain ⟨c1, e1, e2, e3, e4, e5, e6, e7, e8, e9⟩ := key
    obtain ⟨c2, f1, f2, f3, f4, f5, f6, f7, f8, f9⟩ := ih c1 e2
    refine ⟨c2, ?_, f2, f3.trans e3, f4.trans e4, f5.trans e5, f6.trans e6, f7.trans e7,
      f8.trans e8, f9.trans e9⟩
    simp only [ConnImpl.run, e1]
    exact f1

/-! ## Sweeping and closing -/

/-- The difference of two times, the later of which is within 64 bits, is the
plain difference. -/
theorem time_sub_eq (now last : Nat) (h1 : last ≤ now) (h2 : now < 18446744073709551616) :
    time_sub now last = now - last := by
  unfold time_sub
  omega

/-- The connections kept by the loop of `BaseReqHandler::Tick` are those for which
`ShouldClose` does not hold, in their order. -/
theorem Tick_loop_filter {κ : Type} (now : Nat) (conns : List (ConnImpl κ)) :
    (BaseReqHandler.Tick_loop now conns).1
      = conns.filter (fun c => !c.ShouldClose now) := by
  induction conns with
  | nil => rfl
  | cons c cs ih =>
    simp only [BaseReqHandler.Tick_loop, List.filter_cons]
    by_cases h : c.ShouldClose now = true
    · simp [h, ih]
    · simp [h, ih]

/-- The test `ShouldClose` at a time not before the last activity. -/
theorem ShouldClose_eq {κ : Type} (c : ConnImpl κ) (now : Nat)
    (h1 : c.m_LastActive ≤ now) (h2 : now < 18446744073709551616) :
    (!c.ShouldClose now)
      = (!c.m_Bad && decide (c.m_State ≠ .eCloseMe)
          && decide (now - c.m_LastActive ≤ c.m_ReadTimeout)) := by
  unfold ConnImpl.ShouldClose
  rw [time_sub_eq now c.m_LastActive h1 h2]
  by_cases hb : c.m_Bad = true
  · simp [hb]
  · by_cases hs : c.m_State = .eCloseMe
    · simp [hb, hs]
    · by_cases ht : now - c.m_LastActive ≤ c.m_ReadTimeout
      · simp [hb, hs, ht]
      · simp [hb, hs, ht]
        omega

/-- Claim C11.  At a sweep time `now` (a value of 64 bits) that is not before the
last activity of any tracked connection, `BaseReqHandler::Tick` keeps exactly the
connections that are not poisoned, not in phase `eCloseMe`, and have
`now - last_activity <= read_timeout`, in their original order, and removes all
others.  So a connection that is neither poisoned nor closed and idle for
strictly longer than the timeout is removed, and one active within the timeout
is kept. -/
theorem C11_Tick_keeps_exactly_the_live {κ : Type} (self : BaseReqHandler κ) (now : Nat)
    (hnow : now < 18446744073709551616)
    (hact : ∀ c ∈ self.m_Conns, c.m_LastActive ≤ now) :
    (self.Tick now).1.m_Conns
      = self.m_Conns.filter (fun c => !c.m_Bad && decide (c.m_State ≠ .eCloseMe)
          && decide (now - c.m_LastActive ≤ c.m_ReadTimeout)) ∧
    (∀ c ∈ self.m_Conns, c.m_Bad = false → c.m_State ≠ .eCloseMe →
      now - c.m_LastActive > c.m_ReadTimeout → c ∉ (self.Tick now).1.m_Conns) ∧
    (∀ c ∈ self.m_Conns, c.m_Bad = false → c.m_State ≠ .eCloseMe →
      now - c.m_LastActive ≤ c.m_ReadTimeout → c ∈ (self.Tick now).1.m_Conns) := by
  have e : (self.Tick now).1.m_Conns
      = self.m_Conns.filter (fun c => !c.m_Bad && decide (c.m_State ≠ .eCloseMe)
          && decide (now - c.m_LastActive ≤ c.m_ReadTimeout)) := by
    simp only [BaseReqHandler.Tick, Tick_loop_filter]
    apply List.filter_congr
    intro c hc
    exact ShouldClose_eq c now (hact c hc) hnow
  refine ⟨e, ?_, ?_⟩
  · intro c _ _ _ ht hmem
    rw [e, List.mem_filter] at hmem
    have := hmem.2
    simp only [Bool.and_eq_true, decide_eq_true_eq] at this
    omega
  · intro c hc hb hs ht
    rw [e, List.mem_filter]
    refine ⟨hc, ?_⟩
    simp [hb, hs, ht]

/-- Witness of claim C11: the handler `twoConns` swept at time `2000`. -/
theorem C11_Tick_keeps_exactly_the_live_witness :
    (twoConns.Tick 2000).1.m_Conns
      = twoConns.m_Conns.filter (fun c => !c.m_Bad && decide (c.m_State ≠ .eCloseMe)
          && decide (2000 - c.m_LastActive ≤ c.m_ReadTimeout)) ∧
    (∀ c ∈ twoConns.m_Conns, c.m_Bad = false → c.m_State ≠ .eCloseMe →
      2000 - c.m_LastActive > c.m_ReadTimeout → c ∉ (twoConns.Tick 2000).1.m_Conns) ∧
    (∀ c ∈ twoConns.m_Conns, c.m_Bad = false → c.m_State ≠ .eCloseMe →
      2000 - c.m_LastActive ≤ c.m_ReadTimeout → c ∈ (twoConns.Tick 2000).1.m_Conns) :=
  C11_Tick_keeps_exactly_the_live twoConns 2000 (by decide)
    (by
      intro c hc
      simp only [twoConns, List.mem_cons, List.mem_singleton, List.not_mem_nil, or_false] at hc
      rcases hc with hc | hc <;> subst hc <;> decide)

/-- The sweep of `twoConns` at time `2000` removes the connection idle since time
`0` and keeps the one active at time `1500`. -/
theorem Tick_twoConns :
    ((twoConns.Tick 2000).1.m_Conns.map (fun c => c.m_LastActive)) = [1500] := rfl

/-- A sequence of calls of `Close` and `OnClosed` on an object whose transport
pointer is null hands nothing to `llarp_tcp_conn_close`. -/
theorem close_calls_null {κ : Type} (calls : List CloseCall) :
    ∀ c : ConnImpl κ, c._conn = none → (c.close_calls calls).2 = [] := by
  induction calls with
  | nil => intro c _; rfl
  | cons call calls ih =>
    intro c hc
    cases call with
    | Close =>
      simp only [ConnImpl.close_calls, ConnImpl.Close, hc, List.nil_append]
      exact ih c hc
    | OnClosed =>
      simp only [ConnImpl.close_calls]
      exact ih c.OnClosed rfl

/-- Claim C13.  For every connection object and every sequence of calls of
`ConnImpl::Close` and `OnClosed`, the function `llarp_tcp_conn_close` is called at
most once, and only with the transport the object held at the start; a second
call of `Close` makes no call of `llarp_tcp_conn_close` and leaves the object as
the first call left it. -/
theorem C13_close_at_most_once {κ : Type} (c : ConnImpl κ) (calls : List CloseCall) :
    (c.close_calls calls).2.length ≤ 1 ∧
    (∀ k ∈ (c.close_calls calls).2, c._conn = some k) ∧
    c.Close.1.Close = (c.Close.1, []) ∧
    (c.close_calls [.Close, .Close]).2.length ≤ 1 := by
  have main : ∀ (calls : List CloseCall) (c : ConnImpl κ),
      (c.close_calls calls).2.length ≤ 1 ∧ ∀ k ∈ (c.close_calls calls).2, c._conn = some k := by
    intro calls
    induction calls with
    | nil => intro c; simp [ConnImpl.close_calls]
    | cons call calls ih =>
      intro c
      cases call with
      | Close =>
        cases hc : c._conn with
        | none =>
          have := close_calls_null (.Close :: calls) c hc
          rw [this]
          simp
        | some k =>
          have hn := close_calls_null calls ({ c with _conn := none } : ConnImpl κ) rfl
          simp only [ConnImpl.close_calls, ConnImpl.Close, hc, hn]
          simp
      | OnClosed =>
        have hn := close_calls_null calls c.OnClosed rfl
        simp only [ConnImpl.close_calls, hn]
        simp
  refine ⟨(main calls c).1, (main calls c).2, ?_, (main _ c).1⟩
  cases hc : c._conn with
  | none => simp [ConnImpl.Close, hc]
  | some k => simp [ConnImpl.Close, hc]

/-- Two calls of `Close` on a fresh connection: one call of
`llarp_tcp_conn_close`, and the pointer is null afterwards. -/
theorem close_twice_fresh :
    ((ConnImpl.ctor () 0 1000).close_calls [.Close, .OnClosed, .Close]).2 = [()] ∧
    ((ConnImpl.ctor () 0 1000).close_calls [.Close, .OnClosed, .Close]).1._conn = none :=
  ⟨rfl, rfl⟩

/-! ## Poison and the phase invariant -/

/-- Claim C12.  On a connection that is marked bad: every `ProcessRead` returns
`false` and every `OnRead` returns, both leaving the whole object as it is (phase,
method, path, header map, read buffer, time of last activity, queue); `ShouldClose`
holds at every time; after every sequence of reads, `MarkBad`, `Tick`, `Close` and
`OnClosed` the flag is still set, `ShouldClose` still holds at every time and
nothing but the transport pointer has changed; and the flag stays set under each
of `ProcessMethodLine`, `ProcessHeaderLine`, `FeedLine`, `FeedBody`,
`WriteResponseSimple`, `MarkBad`, `Tick`, `Close` and `OnClosed`. -/
theorem C12_poison_is_absorbing {κ : Type} (aw : κ → List Char → Bool × κ) (c : ConnImpl κ)
    (hb : c.m_Bad = true) :
    (∀ now buf, c.ProcessRead aw now buf = .ok (false, c)) ∧
    (∀ now buf, c.OnRead aw now buf = .ok c) ∧
    (∀ now, c.ShouldClose now = true) ∧
    (∀ events, ∃ c1, c.run aw events = .ok c1 ∧ c1.m_Bad = true ∧
      (∀ now, c1.ShouldClose now = true) ∧ c1.m_State = c.m_State ∧
      c1.m_Header = c.m_Header ∧ c1.m_ReadBuf = c.m_ReadBuf ∧
      c1.m_LastActive = c.m_LastActive ∧ c1.queued = c.queued ∧ c1.bodies = c.bodies) ∧
    (∀ line r, c.ProcessMethodLine line = .ok r → r.2.2.m_Bad = true) ∧
    (∀ line r, c.ProcessHeaderLine line = .ok r → r.2.2.m_Bad = true) ∧
    (∀ line r, c.FeedLine line = .ok r → r.2.2.m_Bad = true) ∧
    (∀ buf, (c.FeedBody aw buf).2.m_Bad = true) ∧
    (∀ code msg mime body, (c.WriteResponseSimple aw code msg mime body).2.m_Bad = true) ∧
    c.MarkBad.m_Bad = true ∧ c.Tick.m_Bad = true ∧ c.Close.1.m_Bad = true ∧
    c.OnClosed.m_Bad = true := by
  refine ⟨?_, ?_, ?_, ?_, ?_, ?_, ?_, ?_, ?_, rfl, hb, ?_, hb⟩
  · intro now buf
    simp [ConnImpl.ProcessRead, hb]
  · intro now buf
    exact OnRead_bad aw now c buf hb
  · intro now
    exact ShouldClose_bad c now hb
  · intro events
    obtain ⟨c1, e1, e2, e3, e4, e5, e6, _, e8, e9⟩ := run_bad aw events c hb
    exact ⟨c1, e1, e2, fun now => ShouldClose_bad c1 now e2, e3, e4, e5, e6, e8, e9⟩
  · intro line r h
    exact (ProcessMethodLine_frame c line r h).1.trans hb
  · intro line r h
    exact (ProcessHeaderLine_frame c line r h).1.trans hb
  · intro line r h
    exact (FeedLine_frame c line r h).1.trans hb
  · intro buf
    exact (FeedBody_frame aw c buf).1.trans hb
  · intro code msg mime body
    exact (WriteResponseSimple_frame aw c code msg mime body).1.trans hb
  · unfold ConnImpl.Close
    split <;> exact hb

/-- Witness of claim C12: a fresh connection after `MarkBad`. -/
theorem C12_poison_is_absorbing_witness :
    (∀ now buf, (ConnImpl.ctor () 0 1000).MarkBad.ProcessRead acceptAll now buf
      = .ok (false, (ConnImpl.ctor () 0 1000).MarkBad)) ∧
    (∀ now buf, (ConnImpl.ctor () 0 1000).MarkBad.OnRead acceptAll now buf
      = .ok (ConnImpl.ctor () 0 1000).MarkBad) ∧
    (∀ now, (ConnImpl.ctor () 0 1000).MarkBad.ShouldClose now = true) ∧
    (∀ events, ∃ c1, (ConnImpl.ctor () 0 1000).MarkBad.run acceptAll events = .ok c1 ∧
      c1.m_Bad = true ∧
      (∀ now, c1.ShouldClose now = true) ∧
      c1.m_State = (ConnImpl.ctor () 0 1000).MarkBad.m_State ∧
      c1.m_Header = (ConnImpl.ctor () 0 1000).MarkBad.m_Header ∧
      c1.m_ReadBuf = (ConnImpl.ctor () 0 1000).MarkBad.m_ReadBuf ∧
      c1.m_LastActive = (ConnImpl.ctor () 0 1000).MarkBad.m_LastActive ∧
      c1.queued = (ConnImpl.ctor () 0 1000).MarkBad.queued ∧
      c1.bodies = (ConnImpl.ctor () 0 1000).MarkBad.bodies) ∧
    (∀ line r, (ConnImpl.ctor () 0 1000).MarkBad.ProcessMethodLine line = .ok r →
      r.2.2.m_Bad = true) ∧
    (∀ line r, (ConnImpl.ctor () 0 1000).MarkBad.ProcessHeaderLine line = .ok r →
      r.2.2.m_Bad = true) ∧
    (∀ line r, (ConnImpl.ctor () 0 1000).MarkBad.FeedLine line = .ok r →
      r.2.2.m_Bad = true) ∧
    (∀ buf, ((ConnImpl.ctor () 0 1000).MarkBad.FeedBody acceptAll buf).2.m_Bad = true) ∧
    (∀ code msg mime body,
      ((ConnImpl.ctor () 0 1000).MarkBad.WriteResponseSimple acceptAll code msg mime body).2.m_Bad
        = true) ∧
    (ConnImpl.ctor () 0 1000).MarkBad.MarkBad.m_Bad = true ∧
    (ConnImpl.ctor () 0 1000).MarkBad.Tick.m_Bad = true ∧
    (ConnImpl.ctor () 0 1000).MarkBad.Close.1.m_Bad = true ∧
    (ConnImpl.ctor () 0 1000).MarkBad.OnClosed.m_Bad = true :=
  C12_poison_is_absorbing acceptAll (ConnImpl.ctor () 0 1000).MarkBad rfl

/-- A phase in the order is not `eCloseMe`. -/
theorem inOrder_ne_close (s : HTTPState) (h : s.inOrder) : s ≠ .eCloseMe := by
  rcases h with h | h | h | h <;> subst h <;> decide

/-- The connections kept by `BaseReqHandler::Tick` are tracked connections,
unchanged. -/
theorem Tick_kept_mem {κ : Type} (self : BaseReqHandler κ) (now : Nat) (c : ConnImpl κ)
    (h : c ∈ (self.Tick now).1.m_Conns) : c ∈ self.m_Conns := by
  simp only [BaseReqHandler.Tick, Tick_loop_filter] at h
  exact (List.mem_filter.mp h).1

/-- Claim C18.  A freshly constructed connection takes any sequence of events
(reads, `MarkBad`, `Tick`, `Close`, `OnClosed`) and then one more event.  Every
event has a result.  The phase reached is one of `eReadHTTPMethodLine`,
`eReadHTTPHeaders`, `eReadHTTPBody`, `eWriteHTTPBody`, never `eCloseMe`, and the
further event leaves it unchanged or moves it strictly forward in this order.  So
`ShouldClose` holds exactly by idle timeout or poison.  On the connection reached,
each function leaves the phase unchanged or moves it strictly forward:
`ProcessMethodLine` (in a phase before `eReadHTTPBody`; `FeedLine` calls it in
`eReadHTTPMethodLine` only), `ProcessHeaderLine`, `FeedLine`, `FeedBody`,
`WriteResponseSimple`, `ProcessRead`, `MarkBad`, `Tick`, `Close`, `OnClosed`; and
the sweep `BaseReqHandler::Tick` keeps connections as they are. -/
theorem C18_phase_moves_forward_only {κ : Type} (aw : κ → List Char → Bool × κ) (k : κ)
    (t0 timeout : Nat) (events : List Event) (e : Event) :
    ∃ c1 c2, (ConnImpl.ctor k t0 timeout).run aw events = .ok c1 ∧
      c1.step aw e = .ok c2 ∧
      c1.m_State.inOrder ∧ c1.m_State ≠ .eCloseMe ∧
      c1.m_State.advances c2.m_State ∧ c1.m_State.toNat ≤ c2.m_State.toNat ∧
      c2.m_State.inOrder ∧ c2.m_State ≠ .eCloseMe ∧
      (∀ now, c1.ShouldClose now = true ↔
        (time_sub now c1.m_LastActive > c1.m_ReadTimeout ∨ c1.m_Bad = true)) ∧
      (∀ line r, c1.m_State.toNat < HTTPState.eReadHTTPBody.toNat →
        c1.ProcessMethodLine line = .ok r → c1.m_State.advances r.2.2.m_State) ∧
      (∀ line r, c1.ProcessHeaderLine line = .ok r → r.2.2.m_State = c1.m_State) ∧
      (∀ line r, c1.FeedLine line = .ok r → c1.m_State.advances r.2.2.m_State) ∧
      (∀ buf, c1.m_State.advances (c1.FeedBody aw buf).2.m_State) ∧
      (∀ code msg mime body,
        c1.m_State.advances (c1.WriteResponseSimple aw code msg mime body).2.m_State) ∧
      (∀ now buf, ∃ r, c1.ProcessRead aw now buf = .ok r ∧
        c1.m_State.advances r.2.m_State) ∧
      c1.MarkBad.m_State = c1.m_State ∧ c1.Tick.m_State = c1.m_State ∧
      c1.Close.1.m_State = c1.m_State ∧ c1.OnClosed.m_State = c1.m_State ∧
      (∀ (self : BaseReqHandler κ) (now : Nat) (c : ConnImpl κ),
        c ∈ (self.Tick now).1.m_Conns → c ∈ self.m_Conns) := by
  have h0 : (ConnImpl.ctor k t0 timeout).m_State.inOrder := Or.inl rfl
  obtain ⟨c1, e1, _, e3, _⟩ := run_frame aw events (ConnImpl.ctor k t0 timeout) h0
  obtain ⟨c2, f1, f2, _⟩ := step_frame aw c1 e e3
  have hmr : ∀ s : HTTPState, s.toNat < HTTPState.eReadHTTPBody.toNat →
      s.advances .eReadHTTPHeaders := by
    intro s hs
    rcases phase_lt_body s hs with h | h <;> subst h
    · exact Or.inr ⟨by simp [HTTPState.inOrder], by simp [HTTPState.inOrder], by decide⟩
    · exact Or.inl rfl
  refine ⟨c1, c2, e1, f1, e3, inOrder_ne_close _ e3, f2, (advances_le _ _ f2).1,
    (advances_le _ _ f2).2 e3, inOrder_ne_close _ ((advances_le _ _ f2).2 e3),
    ?_, ?_, ?_, ?_, ?_, ?_, ?_, rfl, rfl, ?_, rfl, ?_⟩
  · intro now
    simp [ConnImpl.ShouldClose, inOrder_ne_close _ e3]
  · intro line r hlt h
    rcases (ProcessMethodLine_frame c1 line r h).2.2.2.2.2.2 with a | a
    · exact Or.inl a
    · rw [a]; exact hmr _ hlt
  · intro line r h
    exact (ProcessHeaderLine_frame c1 line r h).2.2.2.2.2.2.1
  · intro line r h
    rcases (FeedLine_frame c1 line r h).2.2.2.2.2.2 with a | ⟨a, b⟩
    · exact Or.inl a
    · rw [a, b]
      exact Or.inr ⟨by simp [HTTPState.inOrder], by simp [HTTPState.inOrder], by decide⟩
  · intro buf
    exact advances_to_write _ _ e3 (FeedBody_frame aw c1 buf).2.2.2.2.2
  · intro code msg mime body
    exact advances_to_write _ _ e3
      (WriteResponseSimple_frame aw c1 code msg mime body).2.2.2.2.2.2
  · intro now buf
    obtain ⟨r, hr⟩ := ProcessRead_ok aw now c1 buf
    exact ⟨r, hr, (ProcessRead_frame aw now c1 buf r e3 hr).2.2⟩
  · unfold ConnImpl.Close
    split <;> rfl
  · intro self now c h
    exact Tick_kept_mem self now c h

/-! ## A header line without colon in the read of the request line -/

/-- The line loop in phase `eReadHTTPHeaders` on a good stream whose unread
characters are header lines with colon, then a line `X` that is not empty and has
no colon, each ended by `CRLF`: the loop returns `false` when it reaches `X`; the
phase, the poisoned flag and the two records are as before. -/
theorem read_loop_bad_header {κ : Type} (aw : κ → List Char → Bool × κ)
    (buf X rest : List Char) (p : Nat)
    (hX : X ≠ []) (hXc : ':' ∉ X) (hXcr : '\r' ∉ X) (hXlf : '\n' ∉ X)
    (hdrs : List (List Char)) :
    ∀ (fuel g : Nat) (c : ConnImpl κ) (line0 : List Char),
      hdrs.length + 1 ≤ fuel → c.m_State = .eReadHTTPHeaders →
      c.m_ReadBuf = { buf := buf, gpos := g, ppos := p, eofbit := false, failbit := false } →
      buf.drop g = (hdrs.map (fun h => h ++ CRLF)).flatten ++ X ++ CRLF ++ rest →
      (∀ h ∈ hdrs, ':' ∈ h ∧ '\r' ∉ h ∧ '\n' ∉ h) →
      ∃ c1, ConnImpl.read_loop aw fuel c line0 = .ok (false, c1) ∧
        c1.m_State = .eReadHTTPHeaders ∧ c1.m_Bad = c.m_Bad ∧ c1.queued = c.queued ∧
        c1.bodies = c.bodies := by
  induction hdrs with
  | nil =>
    intro fuel g c line0 hf hs hbuf hav _
    obtain ⟨f, rfl⟩ : ∃ f, fuel = f + 1 := ⟨fuel - 1, by omega⟩
    obtain ⟨conn, la, rt, bad, hdr, rb, st, qd, bd⟩ := c
    simp only at hs hbuf
    subst hs
    subst hbuf
    have hav2 : buf.drop g = (X ++ ['\r']) ++ '\n' :: rest := by
      rw [hav]; simp [CRLF]
    have hg := getline_line buf g p line0 (X ++ ['\r']) _ hav2 (by simp [hXlf])
    obtain ⟨a, X1, rfl⟩ := List.exists_cons_of_ne_nil hX
    have ha : a ≠ '\r' := fun e => hXcr (by simp [e])
    have hhead : ((a :: X1) ++ ['\r']).head? ≠ some '\r' := by simp [ha]
    have hfind : find_first_of ((a :: X1) ++ ['\r']) '\r' = some (a :: X1).length :=
      find_first_of_append (a :: X1) [] '\r' hXcr
    unfold ConnImpl.read_loop
    simp only [hg, Bool.false_eq_true, if_false, hhead, hfind, substr_zero,
      List.take_left', ConnImpl.FeedLine, ProcessHeaderLine_no_colon _ _ hXc]
    exact ⟨_, rfl, rfl, rfl, rfl, rfl⟩
  | cons h hs ih =>
    intro fuel g c line0 hf hst hbuf hav hall
    obtain ⟨f, rfl⟩ : ∃ f, fuel = f + 1 := ⟨fuel - 1, by omega⟩
    obtain ⟨hcolon, hcr, hlf⟩ := hall h (by simp)
    obtain ⟨conn, la, rt, bad, hdr, rb, st, qd, bd⟩ := c
    simp only at hst hbuf
    subst hst
    subst hbuf
    have hav2 : buf.drop g
        = (h ++ ['\r']) ++ '\n' ::
            ((hs.map (fun h => h ++ CRLF)).flatten ++ X ++ CRLF ++ rest) := by
      rw [hav]; simp [CRLF]
    have hg := getline_line buf g p line0 (h ++ ['\r']) _ hav2 (by simp [hlf])
    have hne : h ≠ [] := fun e => by simp [e] at hcolon
    obtain ⟨a, h1, rfl⟩ := List.exists_cons_of_ne_nil hne
    have ha : a ≠ '\r' := fun e => hcr (by simp [e])
    have hhead : ((a :: h1) ++ ['\r']).head? ≠ some '\r' := by simp [ha]
    have hfind : find_first_of ((a :: h1) ++ ['\r']) '\r' = some (a :: h1).length :=
      find_first_of_append (a :: h1) [] '\r' hcr
    obtain ⟨hs1, e1⟩ := ProcessHeaderLine_colon
      ({ _conn := conn, m_LastActive := la, m_ReadTimeout := rt, m_Bad := bad, m_Header := hdr,
         m_ReadBuf := { buf := buf, gpos := g + ((a :: h1) ++ ['\r']).length + 1, ppos := p,
                        eofbit := false, failbit := false },
         m_State := .eReadHTTPHeaders, queued := qd, bodies := bd } : ConnImpl κ)
      (a :: h1) hcolon
    have hdrop : buf.drop (g + ((a :: h1) ++ ['\r']).length + 1)
        = (hs.map (fun h => h ++ CRLF)).flatten ++ X ++ CRLF ++ rest := by
      rw [Nat.add_assoc, ← List.drop_drop, hav2]
      have e : ((a :: h1) ++ ['\r']) ++ '\n' ::
            ((hs.map (fun h => h ++ CRLF)).flatten ++ X ++ CRLF ++ rest)
          = (((a :: h1) ++ ['\r']) ++ ['\n']) ++
            ((hs.map (fun h => h ++ CRLF)).flatten ++ X ++ CRLF ++ rest) := by
        simp
      rw [e]
      exact List.drop_left' (by simp)
    unfold ConnImpl.read_loop
    simp only [hg, Bool.false_eq_true, if_false, hhead, hfind, substr_zero,
      List.take_left', ConnImpl.FeedLine, e1]
    exact ih f (g + ((a :: h1) ++ ['\r']).length + 1) _ (a :: h1)
      (by simp at hf; omega) rfl rfl hdrop (fun x hx => hall x (by simp [hx]))

/-- A request line `M` with two spaces, header lines with colon and then a header
line `X` that is not empty and has no colon, each ended by `CRLF` and free of
carriage return and line feed, all delivered to a fresh connection in one read:
`OnRead` poisons the connection, queues no response and hands no body to
`FeedBody`. -/
theorem OnRead_header_without_colon {κ : Type} (aw : κ → List Char → Bool × κ) (k : κ)
    (t0 timeout now : Nat) (M : List Char) (hdrs : List (List Char)) (X rest : List Char)
    (hM : 2 ≤ M.count ' ') (hMcr : '\r' ∉ M) (hMlf : '\n' ∉ M)
    (hH : ∀ h ∈ hdrs, ':' ∈ h ∧ '\r' ∉ h ∧ '\n' ∉ h)
    (hX : X ≠ []) (hXc : ':' ∉ X) (hXcr : '\r' ∉ X) (hXlf : '\n' ∉ X) :
    ∃ c1, (ConnImpl.ctor k t0 timeout).OnRead aw now
        (M ++ CRLF ++ (hdrs.map (fun h => h ++ CRLF)).flatten ++ X ++ CRLF ++ rest) = .ok c1 ∧
      c1.m_Bad = true ∧ c1.queued = [] ∧ c1.bodies = [] := by
  unfold ConnImpl.OnRead ConnImpl.ProcessRead
  simp only [ConnImpl.ctor, Bool.false_eq_true, if_false,
    show HTTPState.eReadHTTPMethodLine.toNat < HTTPState.eReadHTTPBody.toNat by decide,
    if_true]
  by_cases hstr : strstr (c_str (M ++ CRLF ++ (hdrs.map (fun h => h ++ CRLF)).flatten
      ++ X ++ CRLF ++ rest)) CRLF = none
  · simp only [hstr, if_true]
    exact ⟨_, rfl, rfl, rfl, rfl⟩
  · simp only [hstr, if_false, put_empty]
    obtain ⟨m, pth, rst, e, hm, hp⟩ := split_two_spaces M hM
    have hMne : M ≠ [] := fun h => by simp [h] at hM
    obtain ⟨a, M1, hMa⟩ := List.exists_cons_of_ne_nil hMne
    have ha : a ≠ '\r' := fun h => hMcr (by simp [hMa, h])
    have hhead : (M ++ ['\r']).head? ≠ some '\r' := by simp [hMa, ha]
    have hav : (M ++ CRLF ++ (hdrs.map (fun h => h ++ CRLF)).flatten ++ X ++ CRLF ++ rest).drop 0
        = (M ++ ['\r']) ++ '\n' ::
            ((hdrs.map (fun h => h ++ CRLF)).flatten ++ X ++ CRLF ++ rest) := by
      simp [CRLF]
    have hg := getline_line
      (M ++ CRLF ++ (hdrs.map (fun h => h ++ CRLF)).flatten ++ X ++ CRLF ++ rest) 0
      (M ++ CRLF ++ (hdrs.map (fun h => h ++ CRLF)).flatten ++ X ++ CRLF ++ rest).length
      [] (M ++ ['\r']) _ hav (by simp [hMlf])
    have hfind : find_first_of (M ++ ['\r']) '\r' = some M.length :=
      find_first_of_append M [] '\r' hMcr
    have hPM := ProcessMethodLine_split
      ({ _conn := some k, m_LastActive := now, m_ReadTimeout := timeout, m_Bad := false,
         m_Header := { Headers := [], Method := [], Path := [] },
         m_ReadBuf :=
           { buf := M ++ CRLF ++ (hdrs.map (fun h => h ++ CRLF)).flatten ++ X ++ CRLF ++ rest,
             gpos := 0 + (M ++ ['\r']).length + 1,
             ppos := (M ++ CRLF ++ (hdrs.map (fun h => h ++ CRLF)).flatten ++ X ++ CRLF
                      ++ rest).length,
             eofbit := false, failbit := false },
         m_State := .eReadHTTPMethodLine, queued := [], bodies := [] } : ConnImpl κ)
      m pth rst hm hp
    rw [← e] at hPM
    have hdrop : (M ++ CRLF ++ (hdrs.map (fun h => h ++ CRLF)).flatten ++ X ++ CRLF
          ++ rest).drop (0 + (M ++ ['\r']).length + 1)
        = (hdrs.map (fun h => h ++ CRLF)).flatten ++ X ++ CRLF ++ rest := by
      have e2 : M ++ CRLF ++ (hdrs.map (fun h => h ++ CRLF)).flatten ++ X ++ CRLF ++ rest
          = ((M ++ ['\r']) ++ ['\n']) ++
            ((hdrs.map (fun h => h ++ CRLF)).flatten ++ X ++ CRLF ++ rest) := by
        simp [CRLF]
      rw [e2]
      exact List.drop_left' (by simp)
    have hfuel : hdrs.length + 1
        ≤ (M ++ CRLF ++ (hdrs.map (fun h => h ++ CRLF)).flatten ++ X ++ CRLF
            ++ rest).length + 1 := by
      have := length_le_flatten hdrs
      simp only [List.length_append] at this ⊢
      omega
    obtain ⟨c1, f1, _, f3, f4, f5⟩ := read_loop_bad_header aw
      (M ++ CRLF ++ (hdrs.map (fun h => h ++ CRLF)).flatten ++ X ++ CRLF ++ rest) X rest
      (M ++ CRLF ++ (hdrs.map (fun h => h ++ CRLF)).flatten ++ X ++ CRLF ++ rest).length
      hX hXc hXcr hXlf hdrs
      ((M ++ CRLF ++ (hdrs.map (fun h => h ++ CRLF)).flatten ++ X ++ CRLF ++ rest).length + 1)
      (0 + (M ++ ['\r']).length + 1)
      ({ _conn := some k, m_LastActive := now, m_ReadTimeout := timeout, m_Bad := false,
         m_Header := { Headers := [], Method := m, Path := pth },
         m_ReadBuf :=
           { buf := M ++ CRLF ++ (hdrs.map (fun h => h ++ CRLF)).flatten ++ X ++ CRLF ++ rest,
             gpos := 0 + (M ++ ['\r']).length + 1,
             ppos := (M ++ CRLF ++ (hdrs.map (fun h => h ++ CRLF)).flatten ++ X ++ CRLF
                      ++ rest).length,
             eofbit := false, failbit := false },
         m_State := .eReadHTTPHeaders, queued := [], bodies := [] } : ConnImpl κ)
      (pth ++ ' ' :: rst) hfuel rfl rfl hdrop hH
    rw [show (M ++ CRLF ++ (hdrs.map (fun h => h ++ CRLF)).flatten ++ X ++ CRLF
        ++ rest).length + 2
        = ((M ++ CRLF ++ (hdrs.map (fun h => h ++ CRLF)).flatten ++ X ++ CRLF
        ++ rest).length + 1) + 1 from rfl]
    unfold ConnImpl.read_loop
    simp only [hg, Bool.false_eq_true, if_false, hhead, hfind, substr_zero,
      List.take_left', ConnImpl.FeedLine, hPM]
    rw [f1]
    exact ⟨_, rfl, rfl, f4, f5⟩

/-- A read on a connection that is not poisoned, in a phase before
`eReadHTTPBody`, whose read buffer is not good (a state bit is set): when the
bytes hold a line end, nothing is stored and no line is parsed; `ProcessRead`
returns `true`, empties the buffer, and the state bits stay set.  The phase, the
request header, the queue and the poisoned flag are as before. -/
theorem ProcessRead_stream_not_good {κ : Type} (aw : κ → List Char → Bool × κ) (now : Nat)
    (c : ConnImpl κ) (buf : List Char) (hb : c.m_Bad = false)
    (hs : c.m_State.toNat < HTTPState.eReadHTTPBody.toNat)
    (hg : c.m_ReadBuf.good = false) (hstr : strstr (c_str buf) CRLF ≠ none) :
    c.ProcessRead aw now buf =
      .ok (true, { c with
        m_LastActive := now,
        m_ReadBuf := { buf := [], gpos := 0, ppos := 0, eofbit := c.m_ReadBuf.eofbit,
                       failbit := true } }) := by
  unfold ConnImpl.ProcessRead
  rw [if_neg (by simp [hb])]
  simp only [hs, if_true, hstr, if_false]
  have hp : c.m_ReadBuf.put buf = { c.m_ReadBuf with failbit := true } := by
    simp [stringstream.put, hg]
  have hgood : ({ c.m_ReadBuf with failbit := true } : stringstream).good = false := by
    simp [stringstream.good]
  rw [hp]
  unfold ConnImpl.read_loop
  simp [stringstream.getline, hgood, stringstream.set_str]

end abyss.http
